import Mathlib

/-! # Frame-buffer compositing primitives of `be_frame_buffer_ntv_impl.cpp`

A shallow embedding of the eight native functions of
`src/lib/libesp32/berry_animation/src/be_frame_buffer_ntv_impl.cpp`
(`blend`, `blend_linear`, `blend_pixels`, `gradient_fill`, `blend_color`,
`apply_opacity`, `apply_brightness`, `fill_pixels`).

Conventions of the embedding.

* A pixel (`uint32_t`) is a `Nat`; a pixel buffer (`uint32_t *` plus its pixel
  count `len / 4`) is a `List Nat`.  Statements that need it assume that the
  values are below `2 ^ 32`.
* `int32_t` variables are `Int`; every place where C converts a wider value to
  `int32_t`, `uint16_t`, `uint8_t` or `uint32_t` applies `to_int32`,
  `to_uint16`, `to_uint8` or `to_uint32`.
* A buffer access `buf[i]` goes through `rd` / `wr`, which fail with
  `Err.out_of_bounds` when `i` is not an index of the buffer, so a function
  that returns `Except.ok` made every access inside its buffers.
* `for (int32_t i = lo; i <= hi; i++)` is `for_le body lo hi`, which runs the
  body exactly `hi + 1 - lo` times (no time when `hi < lo`); `i < hi` is
  `for_lt`.  The bound is below the pixel count, hence below `2 ^ 31 - 1` for
  the buffers considered, and `i++` does not overflow.
* The destination and the source of `blend_pixels` are two objects; the
  function is embedded on the pair so that what it does to each can be stated.
* Arguments are taken after decoding from the Berry stack: buffers are the
  result of a successful `be_tobytes`, colours the result of
  `(uint32_t) be_toint`, region bounds the `int32_t` values of `start_pos` and
  `end_pos` after lines such as 576-583 (defaults `0` and `-1`).  The
  functions named `*_entry` add the first lines of each region function, where
  a buffer argument may be the `NULL` of a failed `be_tobytes` (`none`) and
  the call ends with `Err.argument_error`.
* The mask of `apply_opacity` and `apply_brightness` is a `const` buffer apart
  from the target: it is an input of the loop body, read through `rd`, and no
  part of the state the loop returns.
-/

namespace FrameBufferNtv

/-! ## Machine integers -/

/-- Conversion to `int32_t`: two's complement wrap-around. -/
def to_int32 (x : Int) : Int := (x + 2147483648) % 4294967296 - 2147483648

/-- Conversion of a non-negative value to `uint32_t`. -/
def to_uint32 (x : Nat) : Nat := x % 4294967296

/-- Conversion of a non-negative value to `uint16_t`. -/
def to_uint16 (x : Nat) : Nat := x % 65536

/-- Conversion of a non-negative value to `uint8_t`. -/
def to_uint8 (x : Nat) : Nat := x % 256

/-- Conversion of an `int32_t` to `uint16_t` (argument passing to `changeUIntScale`). -/
def int_to_uint16 (x : Int) : Nat := (x % 65536).toNat

/-- Conversion of an `int32_t` to `uint32_t` (usual arithmetic conversions). -/
def int_to_uint32 (x : Int) : Nat := (x % 4294967296).toNat

/-! ## Scalar remap -/

/-- Modelled from the spec: `changeUIntScale` is only declared in the sources
(`extern uint16_t changeUIntScale(uint16_t inum, uint16_t ifrom_min,
uint16_t ifrom_max, uint16_t ito_min, uint16_t ito_max)`, line 28); its body is
missing.  Spec 4.3: it returns
`to_min + (v - from_min) * (to_max - to_min) / (from_max - from_min)`, using
integer arithmetic with truncation toward zero, and tolerates
`to_min > to_max`.  The five parameters and the result are `uint16_t`, as
declared.  For an empty source range (`from_max = from_min` after the
conversion) the formula of the spec divides by zero and has no value; this
function is total and gives `to_min` there, and `changeUIntScale_checked` marks
those calls. -/
def changeUIntScale (inum ifrom_min ifrom_max ito_min ito_max : Nat) : Nat :=
  let v : Int := to_uint16 inum
  let from_min : Int := to_uint16 ifrom_min
  let from_max : Int := to_uint16 ifrom_max
  let to_min : Int := to_uint16 ito_min
  let to_max : Int := to_uint16 ito_max
  int_to_uint16 (to_min + Int.tdiv ((v - from_min) * (to_max - to_min)) (from_max - from_min))

/-- Function `be_animation_ntv_blend` (lines 37-74): `blend(color1, color2)`. -/
def be_animation_ntv_blend (color1 color2 : Nat) : Nat :=
  let a1 := (color1 >>> 24) &&& 0xFF
  let r1 := (color1 >>> 16) &&& 0xFF
  let g1 := (color1 >>> 8) &&& 0xFF
  let b1 := color1 &&& 0xFF
  let a2 := (color2 >>> 24) &&& 0xFF
  let r2 := (color2 >>> 16) &&& 0xFF
  let g2 := (color2 >>> 8) &&& 0xFF
  let b2 := color2 &&& 0xFF
  if a2 = 0 then color1
  else
    let r := to_uint8 (changeUIntScale (255 - a2) 0 255 0 r1 + changeUIntScale a2 0 255 0 r2)
    let g := to_uint8 (changeUIntScale (255 - a2) 0 255 0 g1 + changeUIntScale a2 0 255 0 g2)
    let b := to_uint8 (changeUIntScale (255 - a2) 0 255 0 b1 + changeUIntScale a2 0 255 0 b2)
    let a := a1 + changeUIntScale ((255 - a1) * a2) 0 (255 * 255) 0 255
    let a := if a > 255 then 255 else a
    to_uint32 ((a <<< 24) ||| (r <<< 16) ||| (g <<< 8) ||| b)

/-- Function `be_animation_ntv_blend_linear` (lines 79-100):
`blend_linear(color_a, color_b, alpha)`; `alpha` is the `uint32_t` read at
line 84. -/
def be_animation_ntv_blend_linear (color_a color_b alpha : Nat) : Nat :=
  let r := (color_a >>> 16) &&& 0xFF
  let g := (color_a >>> 8) &&& 0xFF
  let b := color_a &&& 0xFF
  let a := (color_a >>> 24) &&& 0xFF
  let r2 := (color_b >>> 16) &&& 0xFF
  let g2 := (color_b >>> 8) &&& 0xFF
  let b2 := color_b &&& 0xFF
  let a2 := (color_b >>> 24) &&& 0xFF
  let r3 := to_uint8 (changeUIntScale alpha 0 255 r2 r)
  let g3 := to_uint8 (changeUIntScale alpha 0 255 g2 g)
  let b3 := to_uint8 (changeUIntScale alpha 0 255 b2 b)
  let a3 := to_uint8 (changeUIntScale alpha 0 255 a2 a)
  to_uint32 ((a3 <<< 24) ||| (r3 <<< 16) ||| (g3 <<< 8) ||| b3)

/-! ## Buffers and loops -/

/-- The two ways a call can fail: the `argument_error` raised by `be_raise`,
and an access outside a buffer (undefined behaviour in C). -/
inductive Err where
  | argument_error
  | out_of_bounds
  deriving DecidableEq

deriving instance DecidableEq for Except

/-- Read `buf[i]` for an `int32_t` index. -/
def rd (buf : List Nat) (i : Int) : Except Err Nat :=
  if 0 ≤ i ∧ i < buf.length then Except.ok (buf.getD i.toNat 0)
  else Except.error Err.out_of_bounds

/-- Write `buf[i] = v` for an `int32_t` index. -/
def wr (buf : List Nat) (i : Int) (v : Nat) : Except Err (List Nat) :=
  if 0 ≤ i ∧ i < buf.length then Except.ok (buf.set i.toNat v)
  else Except.error Err.out_of_bounds

/-- Run `body i`, `body (i+1)`, ... for `n` consecutive values of the loop
variable, stopping at the first failure. -/
def for_loop {σ : Type} (body : Int → σ → Except Err σ) : Nat → Int → σ → Except Err σ
  | 0, _, s => Except.ok s
  | n + 1, i, s =>
    match body i s with
    | Except.ok s1 => for_loop body n (i + 1) s1
    | Except.error e => Except.error e

/-- The loop `for (int32_t i = lo; i <= hi; i++) body`. -/
def for_le {σ : Type} (body : Int → σ → Except Err σ) (lo hi : Int) (s : σ) : Except Err σ :=
  for_loop body (hi + 1 - lo).toNat lo s

/-- The loop `for (int32_t i = lo; i < hi; i++) body`. -/
def for_lt {σ : Type} (body : Int → σ → Except Err σ) (lo hi : Int) (s : σ) : Except Err σ :=
  for_loop body (hi - lo).toNat lo s

/-! ## Range resolver -/

/-- The region resolution, written out in each region operation with the same
statements (lines 209-217, 291-299, 365-373, 475-483, 589-597, and 132-138 on
`dest_pixels`): `none` when the function returns at one of the two
`be_return_nil`, else the final `(start_pos, end_pos)`.  `width` is a `size_t`;
the comparisons with it are made on non-negative values. -/
def resolve_region (width : Nat) (start_pos end_pos : Int) : Option (Int × Int) :=
  let start_pos := if start_pos < 0 then to_int32 (start_pos + width) else start_pos
  let end_pos := if end_pos < 0 then to_int32 (end_pos + width) else end_pos
  let start_pos := if start_pos < 0 then 0 else start_pos
  let end_pos := if end_pos < 0 then 0 else end_pos
  if start_pos ≥ width then none
  else
    let end_pos := if end_pos ≥ width then to_int32 (width - 1) else end_pos
    if end_pos < start_pos then none
    else some (start_pos, end_pos)

/-- Value of `start_pos` when line 597 is reached (after lines 589 and 593). -/
def resolved_start (width : Nat) (start_pos : Int) : Int :=
  let start_pos := if start_pos < 0 then to_int32 (start_pos + width) else start_pos
  if start_pos < 0 then 0 else start_pos

/-- Value of `end_pos` when line 597 is reached (after lines 590, 594 and 596). -/
def resolved_end (width : Nat) (end_pos : Int) : Int :=
  let end_pos := if end_pos < 0 then to_int32 (end_pos + width) else end_pos
  let end_pos := if end_pos < 0 then 0 else end_pos
  if end_pos ≥ width then to_int32 (width - 1) else end_pos

/-! ## Region operations

Each loop body is a definition of its own, named after its function; the
values computed before the loop are its first parameters. -/

/-- The pixel written at line 175 of `blend_pixels`, computed at lines 155-172
from the destination pixel `color1` and the source pixel `color2`. -/
def blend_pixels_mix (color1 color2 : Nat) : Nat :=
  let a2 := (color2 >>> 24) &&& 0xFF
  let a1 := (color1 >>> 24) &&& 0xFF
  let r1 := (color1 >>> 16) &&& 0xFF
  let g1 := (color1 >>> 8) &&& 0xFF
  let b1 := color1 &&& 0xFF
  let r2 := (color2 >>> 16) &&& 0xFF
  let g2 := (color2 >>> 8) &&& 0xFF
  let b2 := color2 &&& 0xFF
  let r := to_uint8 (changeUIntScale (255 - a2) 0 255 0 r1 + changeUIntScale a2 0 255 0 r2)
  let g := to_uint8 (changeUIntScale (255 - a2) 0 255 0 g1 + changeUIntScale a2 0 255 0 g2)
  let b := to_uint8 (changeUIntScale (255 - a2) 0 255 0 b1 + changeUIntScale a2 0 255 0 b2)
  let a := a1 + changeUIntScale ((255 - a1) * a2) 0 (255 * 255) 0 255
  let a := if a > 255 then 255 else a
  to_uint32 ((a <<< 24) ||| (r <<< 16) ||| (g <<< 8) ||| b)

/-- Body of the loop of `blend_pixels` (lines 142-178) at index `i`, on the
pair (destination, source). -/
def blend_pixels_body (i : Int) (bufs : List Nat × List Nat) :
    Except Err (List Nat × List Nat) :=
  match rd bufs.2 i with
  | Except.error e => Except.error e
  | Except.ok color2 =>
    let a2 := (color2 >>> 24) &&& 0xFF
    if a2 > 0 then
      if a2 = 255 then
        match wr bufs.1 i color2 with
        | Except.error e => Except.error e
        | Except.ok dest => Except.ok (dest, bufs.2)
      else
        match rd bufs.1 i with
        | Except.error e => Except.error e
        | Except.ok color1 =>
          match wr bufs.1 i (blend_pixels_mix color1 color2) with
          | Except.error e => Except.error e
          | Except.ok dest => Except.ok (dest, bufs.2)
    else Except.ok bufs

/-- The destination pixel after one turn of the loop of `blend_pixels` (lines
142-178), from the destination pixel `color1` and the source pixel `color2`
before the turn: untouched, copied from the source, or mixed. -/
def blend_pixels_pixel (color1 color2 : Nat) : Nat :=
  let a2 := (color2 >>> 24) &&& 0xFF
  if a2 > 0 then
    if a2 = 255 then color2 else blend_pixels_mix color1 color2
  else color1

/-- Function `be_animation_ntv_blend_pixels` (lines 124-181), on the pair
(destination, source); the source is only read.  Lines 128-129 are written as
in the source. -/
def be_animation_ntv_blend_pixels (dest_buf src_buf : List Nat) (region_start region_end : Int) :
    Except Err (List Nat × List Nat) :=
  let dest_pixels := dest_buf.length
  let src_pixels := src_buf.length
  let dest_pixels := if dest_pixels < src_pixels then src_pixels else dest_pixels
  let _src_pixels := if src_pixels < dest_pixels then dest_pixels else src_pixels
  match resolve_region dest_pixels region_start region_end with
  | none => Except.ok (dest_buf, src_buf)
  | some (region_start, region_end) =>
    for_le blend_pixels_body region_start region_end (dest_buf, src_buf)

/-- The pixel written at line 261 of `gradient_fill` for the index `i`
(lines 252-258); the channels of the two colours, `start_pos` and `steps` are
computed before the loop (lines 236-248). -/
def gradient_fill_pixel (a1 r1 g1 b1 a2 r2 g2 b2 : Nat) (start_pos steps : Int)
    (i : Int) : Nat :=
  let pos := i - start_pos
  let r := to_uint8 (changeUIntScale (int_to_uint16 pos) 0 (int_to_uint16 steps) r1 r2)
  let g := to_uint8 (changeUIntScale (int_to_uint16 pos) 0 (int_to_uint16 steps) g1 g2)
  let b := to_uint8 (changeUIntScale (int_to_uint16 pos) 0 (int_to_uint16 steps) b1 b2)
  let a := to_uint8 (changeUIntScale (int_to_uint16 pos) 0 (int_to_uint16 steps) a1 a2)
  to_uint32 ((a <<< 24) ||| (r <<< 16) ||| (g <<< 8) ||| b)

/-- Body of the loop of `gradient_fill` (lines 251-262) at index `i`. -/
def gradient_fill_body (a1 r1 g1 b1 a2 r2 g2 b2 : Nat) (start_pos steps : Int)
    (i : Int) (buf : List Nat) : Except Err (List Nat) :=
  wr buf i (gradient_fill_pixel a1 r1 g1 b1 a2 r2 g2 b2 start_pos steps i)

/-- Function `be_animation_ntv_gradient_fill` (lines 205-265). -/
def be_animation_ntv_gradient_fill (pixels_buf : List Nat) (color1 color2 : Nat)
    (start_pos end_pos : Int) : Except Err (List Nat) :=
  match resolve_region pixels_buf.length start_pos end_pos with
  | none => Except.ok pixels_buf
  | some (start_pos, end_pos) =>
    match wr pixels_buf start_pos color1 with
    | Except.error e => Except.error e
    | Except.ok buf1 =>
      if start_pos = end_pos then Except.ok buf1
      else
        match wr buf1 end_pos color2 with
        | Except.error e => Except.error e
        | Except.ok buf2 =>
          if end_pos - start_pos ≤ 1 then Except.ok buf2
          else
            let a1 := (color1 >>> 24) &&& 0xFF
            let r1 := (color1 >>> 16) &&& 0xFF
            let g1 := (color1 >>> 8) &&& 0xFF
            let b1 := color1 &&& 0xFF
            let a2 := (color2 >>> 24) &&& 0xFF
            let r2 := (color2 >>> 16) &&& 0xFF
            let g2 := (color2 >>> 8) &&& 0xFF
            let b2 := color2 &&& 0xFF
            let steps := end_pos - start_pos
            for_lt (gradient_fill_body a1 r1 g1 b1 a2 r2 g2 b2 start_pos steps)
              (start_pos + 1) end_pos buf2

/-- The pixel written at line 334 of `blend_color`, computed at lines 319-331
from the old pixel `color1`; `a2`, `r2`, `g2`, `b2` are the channels of the
solid colour (lines 302, 310-312). -/
def blend_color_mix (a2 r2 g2 b2 : Nat) (color1 : Nat) : Nat :=
  let a1 := (color1 >>> 24) &&& 0xFF
  let r1 := (color1 >>> 16) &&& 0xFF
  let g1 := (color1 >>> 8) &&& 0xFF
  let b1 := color1 &&& 0xFF
  let r := to_uint8 (changeUIntScale (255 - a2) 0 255 0 r1 + changeUIntScale a2 0 255 0 r2)
  let g := to_uint8 (changeUIntScale (255 - a2) 0 255 0 g1 + changeUIntScale a2 0 255 0 g2)
  let b := to_uint8 (changeUIntScale (255 - a2) 0 255 0 b1 + changeUIntScale a2 0 255 0 b2)
  let a := a1 + changeUIntScale ((255 - a1) * a2) 0 (255 * 255) 0 255
  let a := if a > 255 then 255 else a
  to_uint32 ((a <<< 24) ||| (r <<< 16) ||| (g <<< 8) ||| b)

/-- Body of the loop of `blend_color` (lines 315-335) at index `i`. -/
def blend_color_body (a2 r2 g2 b2 : Nat) (i : Int) (buf : List Nat) : Except Err (List Nat) :=
  match rd buf i with
  | Except.error e => Except.error e
  | Except.ok color1 => wr buf i (blend_color_mix a2 r2 g2 b2 color1)

/-- Function `be_animation_ntv_blend_color` (lines 287-338). -/
def be_animation_ntv_blend_color (pixels_buf : List Nat) (color : Nat)
    (start_pos end_pos : Int) : Except Err (List Nat) :=
  match resolve_region pixels_buf.length start_pos end_pos with
  | none => Except.ok pixels_buf
  | some (start_pos, end_pos) =>
    let a2 := (color >>> 24) &&& 0xFF
    if a2 = 0 then Except.ok pixels_buf
    else
      let r2 := (color >>> 16) &&& 0xFF
      let g2 := (color >>> 8) &&& 0xFF
      let b2 := color &&& 0xFF
      for_le (blend_color_body a2 r2 g2 b2) start_pos end_pos pixels_buf

/-- The second argument of `apply_opacity` and `apply_brightness` as the Berry
stack presents it: missing (`top < 2`), a `bytes()` object (`be_isbytes`), an
integer (`be_isint`, with the value `be_toint` returns), or any other value. -/
inductive ScaleArg where
  | absent
  | bytes (mask_buf : List Nat)
  | int (value : Int)
  | other

/-- Lines 412-419 and 520-527: the scalar of the number mode, `255` unless the
argument is an integer, then clamped to `0..511`. -/
def scale_value (arg : ScaleArg) : Int :=
  let value : Int :=
    match arg with
    | ScaleArg.int v => to_int32 v
    | _ => 255
  let value := if value < 0 then 0 else value
  if value > 511 then 511 else value

/-- Lines 384-388 and 490-494: in mask mode the width becomes the smaller of
the two pixel counts and `end_pos` is clamped to it once more; the result is
the final `end_pos`. -/
def mask_end_pos (width mask_width : Nat) (end_pos : Int) : Int :=
  let width := if mask_width < width then mask_width else width
  if end_pos ≥ width then to_int32 (width - 1) else end_pos

/-- The pixel written at line 408 of `apply_opacity` (mask mode), computed at
lines 396-405 from the old pixel `color` and the mask pixel `mask_color`. -/
def apply_opacity_mask_pixel (color mask_color : Nat) : Nat :=
  let mask_opacity := (mask_color >>> 24) &&& 0xFF
  let a := (color >>> 24) &&& 0xFF
  let r := (color >>> 16) &&& 0xFF
  let g := (color >>> 8) &&& 0xFF
  let b := color &&& 0xFF
  let a := changeUIntScale mask_opacity 0 255 0 a
  to_uint32 ((a <<< 24) ||| (r <<< 16) ||| (g <<< 8) ||| b)

/-- Body of the mask-mode loop of `apply_opacity` (lines 391-409) at index `i`. -/
def apply_opacity_mask_body (mask_buf : List Nat) (i : Int) (buf : List Nat) :
    Except Err (List Nat) :=
  match rd buf i with
  | Except.error e => Except.error e
  | Except.ok color =>
    match rd mask_buf i with
    | Except.error e => Except.error e
    | Except.ok mask_color => wr buf i (apply_opacity_mask_pixel color mask_color)

/-- The pixel written at line 443 of `apply_opacity` (number mode), computed at
lines 426-440 from the old pixel `color`; `opacity_value` is already clamped to
`0..511`. -/
def apply_opacity_value_pixel (opacity_value : Int) (color : Nat) : Nat :=
  let a := (color >>> 24) &&& 0xFF
  let r := (color >>> 16) &&& 0xFF
  let g := (color >>> 8) &&& 0xFF
  let b := color &&& 0xFF
  let a :=
    if opacity_value ≤ 255 then
      changeUIntScale (int_to_uint16 opacity_value) 0 255 0 a
    else
      let a := to_uint32 (a + changeUIntScale
        (to_uint32 (a * int_to_uint32 (opacity_value - 255))) 0 (255 * 256) 0 255)
      if a > 255 then 255 else a
  to_uint32 ((a <<< 24) ||| (r <<< 16) ||| (g <<< 8) ||| b)

/-- Lines 434-440: the alpha `a` of one pixel under the scalar `opacity_value`,
the statements that `apply_opacity_value_pixel` has inline. -/
def opacity_channel (opacity_value : Int) (a : Nat) : Nat :=
  if opacity_value ≤ 255 then
    changeUIntScale (int_to_uint16 opacity_value) 0 255 0 a
  else
    let a := to_uint32 (a + changeUIntScale
      (to_uint32 (a * int_to_uint32 (opacity_value - 255))) 0 (255 * 256) 0 255)
    if a > 255 then 255 else a

/-- Body of the number-mode loop of `apply_opacity` (lines 422-444) at index `i`. -/
def apply_opacity_value_body (opacity_value : Int) (i : Int) (buf : List Nat) :
    Except Err (List Nat) :=
  match rd buf i with
  | Except.error e => Except.error e
  | Except.ok color => wr buf i (apply_opacity_value_pixel opacity_value color)

/-- Function `be_animation_ntv_apply_opacity` (lines 361-448). -/
def be_animation_ntv_apply_opacity (pixels_buf : List Nat) (opacity : ScaleArg)
    (start_pos end_pos : Int) : Except Err (List Nat) :=
  let width := pixels_buf.length
  match resolve_region width start_pos end_pos with
  | none => Except.ok pixels_buf
  | some (start_pos, end_pos) =>
    match opacity with
    | ScaleArg.bytes mask_buf =>
      let mask_width := mask_buf.length
      let end_pos := mask_end_pos width mask_width end_pos
      for_le (apply_opacity_mask_body mask_buf) start_pos end_pos pixels_buf
    | arg =>
      for_le (apply_opacity_value_body (scale_value arg)) start_pos end_pos pixels_buf

/-- The pixel written at line 516 of `apply_brightness` (mask mode), computed
at lines 502-513 from the old pixel `color` and the mask pixel `mask_color`. -/
def apply_brightness_mask_pixel (color mask_color : Nat) : Nat :=
  let mask_brightness := (mask_color >>> 24) &&& 0xFF
  let a := (color >>> 24) &&& 0xFF
  let r := (color >>> 16) &&& 0xFF
  let g := (color >>> 8) &&& 0xFF
  let b := color &&& 0xFF
  let r := changeUIntScale mask_brightness 0 255 0 r
  let g := changeUIntScale mask_brightness 0 255 0 g
  let b := changeUIntScale mask_brightness 0 255 0 b
  to_uint32 ((a <<< 24) ||| (r <<< 16) ||| (g <<< 8) ||| b)

/-- Body of the mask-mode loop of `apply_brightness` (lines 497-517) at index `i`. -/
def apply_brightness_mask_body (mask_buf : List Nat) (i : Int) (buf : List Nat) :
    Except Err (List Nat) :=
  match rd buf i with
  | Except.error e => Except.error e
  | Except.ok color =>
    match rd mask_buf i with
    | Except.error e => Except.error e
    | Except.ok mask_color => wr buf i (apply_brightness_mask_pixel color mask_color)

/-- Lines 542-555: one colour channel `c` under the scalar `brightness_value`
(the same statements for `r`, `g` and `b`). -/
def brightness_channel (brightness_value : Int) (c : Nat) : Nat :=
  if brightness_value ≤ 255 then
    changeUIntScale c 0 255 0 (int_to_uint16 brightness_value)
  else
    let multiplier := brightness_value - 255
    let c := to_uint32 (c + changeUIntScale
      (to_uint32 (c * int_to_uint32 multiplier)) 0 (255 * 256) 0 255)
    if c > 255 then 255 else c

/-- The pixel written at line 558 of `apply_brightness` (number mode), computed
at lines 534-555 from the old pixel `color`; `brightness_value` is already
clamped to `0..511`. -/
def apply_brightness_value_pixel (brightness_value : Int) (color : Nat) : Nat :=
  let a := (color >>> 24) &&& 0xFF
  let r := (color >>> 16) &&& 0xFF
  let g := (color >>> 8) &&& 0xFF
  let b := color &&& 0xFF
  let r := brightness_channel brightness_value r
  let g := brightness_channel brightness_value g
  let b := brightness_channel brightness_value b
  to_uint32 ((a <<< 24) ||| (r <<< 16) ||| (g <<< 8) ||| b)

/-- Body of the number-mode loop of `apply_brightness` (lines 530-559) at index `i`. -/
def apply_brightness_value_body (brightness_value : Int) (i : Int) (buf : List Nat) :
    Except Err (List Nat) :=
  match rd buf i with
  | Except.error e => Except.error e
  | Except.ok color => wr buf i (apply_brightness_value_pixel brightness_value color)

/-- Function `be_animation_ntv_apply_brightness` (lines 471-563). -/
def be_animation_ntv_apply_brightness (pixels_buf : List Nat) (brightness : ScaleArg)
    (start_pos end_pos : Int) : Except Err (List Nat) :=
  let width := pixels_buf.length
  match resolve_region width start_pos end_pos with
  | none => Except.ok pixels_buf
  | some (start_pos, end_pos) =>
    match brightness with
    | ScaleArg.bytes mask_buf =>
      let mask_width := mask_buf.length
      let end_pos := mask_end_pos width mask_width end_pos
      for_le (apply_brightness_mask_body mask_buf) start_pos end_pos pixels_buf
    | arg =>
      for_le (apply_brightness_value_body (scale_value arg)) start_pos end_pos pixels_buf

/-- Body of the loop of `fill_pixels` (line 601) at index `i`. -/
def fill_pixels_body (color : Nat) (i : Int) (buf : List Nat) : Except Err (List Nat) :=
  wr buf i color

/-- Function `be_animation_ntv_fill_pixels` (lines 585-605). -/
def be_animation_ntv_fill_pixels (pixels_buf : List Nat) (color : Nat)
    (start_pos end_pos : Int) : Except Err (List Nat) :=
  match resolve_region pixels_buf.length start_pos end_pos with
  | none => Except.ok pixels_buf
  | some (start_pos, end_pos) =>
    for_le (fill_pixels_body color) start_pos end_pos pixels_buf

/-- Lines 576-583 of `fill_pixels` (the same statements at 196-203, 278-285,
352-359, 462-469 and 115-122): the region bounds read from the Berry stack.
An argument is `some v` when it is present and an integer
(`top >= 3 && be_isint(vm, 3)`, with `v` the value of `be_toint`), `none`
otherwise; the defaults are `0` and `-1`. -/
def region_args (arg_start arg_end : Option Int) : Int × Int :=
  let start_pos : Int := 0
  let end_pos : Int := -1
  let start_pos := match arg_start with
    | some v => to_int32 v
    | none => start_pos
  let end_pos := match arg_end with
    | some v => to_int32 v
    | none => end_pos
  (start_pos, end_pos)

/-- Function `be_animation_ntv_fill_pixels` from line 576 on, with its two
region arguments as the stack presents them. -/
def fill_pixels_with_args (pixels_buf : List Nat) (color : Nat)
    (arg_start arg_end : Option Int) : Except Err (List Nat) :=
  be_animation_ntv_fill_pixels pixels_buf color (region_args arg_start arg_end).1
    (region_args arg_start arg_end).2

/-! ## Buffer arguments -/

/-- Lines 106-114 of `blend_pixels`: each buffer argument is what `be_tobytes`
returns for it, `none` standing for the `NULL` it gives for an argument that is
not a `bytes()` buffer (`be_tobytes` itself is not part of the sources); the
`be_raise` of line 113 ends the call before any pixel is read or written.
`region_start` and `region_end` are the bounds read at lines 115-122. -/
def blend_pixels_entry (dest_arg src_arg : Option (List Nat))
    (region_start region_end : Int) : Except Err (List Nat × List Nat) :=
  match dest_arg, src_arg with
  | some dest_buf, some src_buf =>
    be_animation_ntv_blend_pixels dest_buf src_buf region_start region_end
  | _, _ => Except.error Err.argument_error

/-- Lines 187-193 of `gradient_fill`: the `NULL` check on the pixel buffer,
then the function. -/
def gradient_fill_entry (pixels_arg : Option (List Nat)) (color1 color2 : Nat)
    (start_pos end_pos : Int) : Except Err (List Nat) :=
  match pixels_arg with
  | none => Except.error Err.argument_error
  | some pixels_buf => be_animation_ntv_gradient_fill pixels_buf color1 color2 start_pos end_pos

/-- Lines 270-276 of `blend_color`: the `NULL` check on the pixel buffer, then
the function. -/
def blend_color_entry (pixels_arg : Option (List Nat)) (color : Nat)
    (start_pos end_pos : Int) : Except Err (List Nat) :=
  match pixels_arg with
  | none => Except.error Err.argument_error
  | some pixels_buf => be_animation_ntv_blend_color pixels_buf color start_pos end_pos

/-- Lines 344-350 of `apply_opacity`: the `NULL` check on the pixel buffer,
then the function. -/
def apply_opacity_entry (pixels_arg : Option (List Nat)) (opacity : ScaleArg)
    (start_pos end_pos : Int) : Except Err (List Nat) :=
  match pixels_arg with
  | none => Except.error Err.argument_error
  | some pixels_buf => be_animation_ntv_apply_opacity pixels_buf opacity start_pos end_pos

/-- Lines 454-460 of `apply_brightness`: the `NULL` check on the pixel buffer,
then the function. -/
def apply_brightness_entry (pixels_arg : Option (List Nat)) (brightness : ScaleArg)
    (start_pos end_pos : Int) : Except Err (List Nat) :=
  match pixels_arg with
  | none => Except.error Err.argument_error
  | some pixels_buf =>
    be_animation_ntv_apply_brightness pixels_buf brightness start_pos end_pos

/-- Lines 568-574 of `fill_pixels`: the `NULL` check on the pixel buffer, then
the function. -/
def fill_pixels_entry (pixels_arg : Option (List Nat)) (color : Nat)
    (start_pos end_pos : Int) : Except Err (List Nat) :=
  match pixels_arg with
  | none => Except.error Err.argument_error
  | some pixels_buf => be_animation_ntv_fill_pixels pixels_buf color start_pos end_pos

end FrameBufferNtv

/-! ## The remap as the specification words it -/

namespace FrameBufferNtv

/-- The rescale of spec 4.3 on mathematical integers, in the words of the spec:
`to_min + (v - from_min) * (to_max - to_min) / (from_max - from_min)` with the
division truncating toward zero. -/
def remap (v from_min from_max to_min to_max : Int) : Int :=
  to_min + Int.tdiv ((v - from_min) * (to_max - to_min)) (from_max - from_min)

/-- Alpha channel of a pixel (spec 4.1, shift 24). -/
@[reducible] def pixel_alpha (p : Nat) : Nat := (p >>> 24) &&& 0xFF

/-- Red channel of a pixel (spec 4.1, shift 16). -/
@[reducible] def pixel_red (p : Nat) : Nat := (p >>> 16) &&& 0xFF

/-- Green channel of a pixel (spec 4.1, shift 8). -/
@[reducible] def pixel_green (p : Nat) : Nat := (p >>> 8) &&& 0xFF

/-- Blue channel of a pixel (spec 4.1, shift 0). -/
@[reducible] def pixel_blue (p : Nat) : Nat := p &&& 0xFF

/-- The buffer `buf1` has the length of `buf` and differs from it at most at
the indices of the region that `(start_pos, end_pos)` resolves to on `width`
pixels (nowhere when the region is empty). -/
def same_outside_region (width : Nat) (start_pos end_pos : Int) (buf buf1 : List Nat) : Prop :=
  buf1.length = buf.length ∧
  match resolve_region width start_pos end_pos with
  | none => buf1 = buf
  | some (s, e) => ∀ j : Nat, ((j : Int) < s ∨ e < (j : Int)) → buf1[j]? = buf[j]?

end FrameBufferNtv

/-! ## Machine-integer and list lemmas -/

namespace FrameBufferNtv

theorem to_int32_of_range (x : Int) (h1 : -2147483648 ≤ x) (h2 : x < 2147483648) :
    to_int32 x = x := by
  unfold to_int32
  omega

theorem resolve_region_bounds (width : Nat) (start_pos end_pos s e : Int)
    (hw : width < 2147483648)
    (hs1 : -2147483648 ≤ start_pos) (hs2 : start_pos < 2147483648)
    (he1 : -2147483648 ≤ end_pos) (he2 : end_pos < 2147483648)
    (h : resolve_region width start_pos end_pos = some (s, e)) :
    0 ≤ s ∧ s ≤ e ∧ e < width := by
  unfold resolve_region at h
  simp only [to_int32] at h
  split_ifs at h <;> simp only [Option.some.injEq, Prod.mk.injEq, reduceCtorEq] at h <;> omega

theorem rd_in_bounds (buf : List Nat) (i : Nat) (h : i < buf.length) :
    rd buf (i : Int) = Except.ok (buf.getD i 0) := by
  simp [rd, h]

theorem wr_in_bounds (buf : List Nat) (i : Nat) (v : Nat) (h : i < buf.length) :
    wr buf (i : Int) v = Except.ok (buf.set i v) := by
  simp [wr, h]

theorem wr_in_bounds_int (buf : List Nat) (i : Int) (v : Nat) (h0 : 0 ≤ i)
    (h1 : i < buf.length) : wr buf i v = Except.ok (buf.set i.toNat v) := by
  simp [wr, h0, h1]

theorem getElem?_set_getD (buf : List Nat) (i j : Nat) (v : Nat) (hi : i < buf.length) :
    (buf.set i v)[j]? = if j = i then some v else buf[j]? := by
  by_cases hji : j = i
  · subst hji
    simp [hi]
  · simp [hji, List.getElem?_set_ne (Ne.symm hji)]

/-- A loop whose body rewrites pixel `i` as a function of its old value rewrites
exactly the pixels of its index range, each from its own old value. -/
theorem for_loop_pointwise (body : Int → List Nat → Except Err (List Nat))
    (f : Nat → Nat → Nat) (len : Nat) (n : Nat) :
    ∀ (lo : Nat) (buf : List Nat), buf.length = len → lo + n ≤ len →
      (∀ (i : Nat) (b : List Nat), lo ≤ i → i < lo + n → b.length = len →
        body (i : Int) b = Except.ok (b.set i (f i (b.getD i 0)))) →
      ∃ buf1, for_loop body n (lo : Int) buf = Except.ok buf1 ∧ buf1.length = len ∧
        ∀ j : Nat, buf1[j]? =
          if lo ≤ j ∧ j < lo + n then (buf[j]?).map (f j) else buf[j]? := by
  induction n with
  | zero =>
    intro lo buf _ _ _
    refine ⟨buf, rfl, ‹buf.length = len›, ?_⟩
    intro j
    have hno : ¬ (lo ≤ j ∧ j < lo + 0) := by omega
    rw [if_neg hno]
  | succ n ih =>
    intro lo buf hlen hle hbody
    have hlo : lo < buf.length := by omega
    have hstep := hbody lo buf (Nat.le_refl lo) (by omega) hlen
    have hlen1 : (buf.set lo (f lo (buf.getD lo 0))).length = len := by
      simp [hlen]
    obtain ⟨buf1, hrun, hlen2, hpt⟩ := ih (lo + 1) (buf.set lo (f lo (buf.getD lo 0))) hlen1
      (by omega) (fun i b h1 h2 h3 => hbody i b (by omega) (by omega) h3)
    refine ⟨buf1, ?_, hlen2, ?_⟩
    · simp only [for_loop, hstep]
      have hcast : ((lo : Int) + 1) = ((lo + 1 : Nat) : Int) := by push_cast; rfl
      rw [hcast]
      exact hrun
    · intro j
      rw [hpt j, getElem?_set_getD buf lo j _ hlo]
      by_cases hj : j = lo
      · subst hj
        have h1 : ¬ (j + 1 ≤ j ∧ j < j + 1 + n) := by omega
        have h2 : (j ≤ j ∧ j < j + (n + 1)) := by omega
        rw [if_neg h1, if_pos h2, if_pos rfl]
        simp [List.getD_eq_getElem?_getD, List.getElem?_eq_getElem hlo]
      · by_cases hr : lo + 1 ≤ j ∧ j < lo + 1 + n
        · have h2 : (lo ≤ j ∧ j < lo + (n + 1)) := by omega
          rw [if_pos hr, if_pos h2, if_neg hj]
        · have h2 : ¬ (lo ≤ j ∧ j < lo + (n + 1)) := by omega
          rw [if_neg hr, if_neg h2, if_neg hj]

theorem for_le_pointwise (body : Int → List Nat → Except Err (List Nat))
    (f : Nat → Nat → Nat) (buf : List Nat) (lo hi : Int)
    (h0 : 0 ≤ lo) (hlo : lo ≤ buf.length) (hhi : hi < buf.length)
    (hbody : ∀ (i : Nat) (b : List Nat), lo ≤ (i : Int) → (i : Int) ≤ hi →
      b.length = buf.length → body (i : Int) b = Except.ok (b.set i (f i (b.getD i 0)))) :
    ∃ buf1, for_le body lo hi buf = Except.ok buf1 ∧ buf1.length = buf.length ∧
      ∀ j : Nat, buf1[j]? =
        if lo ≤ (j : Int) ∧ (j : Int) ≤ hi then (buf[j]?).map (f j) else buf[j]? := by
  obtain ⟨buf1, hrun, hlen, hpt⟩ := for_loop_pointwise body f buf.length (hi + 1 - lo).toNat
    lo.toNat buf rfl (by omega) (fun i b h1 h2 h3 => hbody i b (by omega) (by omega) h3)
  refine ⟨buf1, ?_, hlen, ?_⟩
  · unfold for_le
    have hcast : ((lo.toNat : Nat) : Int) = lo := Int.toNat_of_nonneg h0
    rw [hcast] at hrun
    exact hrun
  · intro j
    rw [hpt j]
    by_cases hc : lo ≤ (j : Int) ∧ (j : Int) ≤ hi
    · have hc2 : lo.toNat ≤ j ∧ j < lo.toNat + (hi + 1 - lo).toNat := by omega
      rw [if_pos hc, if_pos hc2]
    · have hc2 : ¬ (lo.toNat ≤ j ∧ j < lo.toNat + (hi + 1 - lo).toNat) := by omega
      rw [if_neg hc, if_neg hc2]

theorem for_lt_eq_for_le {σ : Type} (body : Int → σ → Except Err σ) (lo hi : Int) (s : σ) :
    for_lt body lo hi s = for_le body lo (hi - 1) s := by
  unfold for_lt for_le
  have h : hi - 1 + 1 - lo = hi - lo := by omega
  rw [h]

theorem for_le_single {σ : Type} (body : Int → σ → Except Err σ) (i : Int) (s : σ) :
    for_le body i i s = body i s := by
  unfold for_le
  have h : (i + 1 - i).toNat = 1 := by omega
  rw [h]
  simp only [for_loop]
  cases body i s <;> rfl

theorem for_le_empty {σ : Type} (body : Int → σ → Except Err σ) (lo hi : Int) (s : σ)
    (h : hi < lo) : for_le body lo hi s = Except.ok s := by
  unfold for_le
  have h0 : (hi + 1 - lo).toNat = 0 := by omega
  rw [h0]
  rfl

/-! ## Each operation once its region is resolved -/

theorem blend_pixels_resolved (dest_buf src_buf : List Nat) (region_start region_end s e : Int)
    (h : resolve_region (if dest_buf.length < src_buf.length then src_buf.length
      else dest_buf.length) region_start region_end = some (s, e)) :
    be_animation_ntv_blend_pixels dest_buf src_buf region_start region_end
      = for_le blend_pixels_body s e (dest_buf, src_buf) := by
  unfold be_animation_ntv_blend_pixels
  simp only [h]

theorem blend_pixels_unresolved (dest_buf src_buf : List Nat) (region_start region_end : Int)
    (h : resolve_region (if dest_buf.length < src_buf.length then src_buf.length
      else dest_buf.length) region_start region_end = none) :
    be_animation_ntv_blend_pixels dest_buf src_buf region_start region_end
      = Except.ok (dest_buf, src_buf) := by
  unfold be_animation_ntv_blend_pixels
  simp only [h]

theorem fill_pixels_resolved (pixels_buf : List Nat) (color : Nat) (start_pos end_pos s e : Int)
    (h : resolve_region pixels_buf.length start_pos end_pos = some (s, e)) :
    be_animation_ntv_fill_pixels pixels_buf color start_pos end_pos
      = for_le (fill_pixels_body color) s e pixels_buf := by
  unfold be_animation_ntv_fill_pixels
  simp only [h]

theorem fill_pixels_unresolved (pixels_buf : List Nat) (color : Nat) (start_pos end_pos : Int)
    (h : resolve_region pixels_buf.length start_pos end_pos = none) :
    be_animation_ntv_fill_pixels pixels_buf color start_pos end_pos = Except.ok pixels_buf := by
  unfold be_animation_ntv_fill_pixels
  simp only [h]

theorem gradient_fill_unresolved (pixels_buf : List Nat) (color1 color2 : Nat)
    (start_pos end_pos : Int)
    (h : resolve_region pixels_buf.length start_pos end_pos = none) :
    be_animation_ntv_gradient_fill pixels_buf color1 color2 start_pos end_pos
      = Except.ok pixels_buf := by
  unfold be_animation_ntv_gradient_fill
  simp only [h]

theorem gradient_fill_resolved (pixels_buf : List Nat) (color1 color2 : Nat)
    (start_pos end_pos s e : Int)
    (h : resolve_region pixels_buf.length start_pos end_pos = some (s, e))
    (hs : 0 ≤ s) (hse : s ≤ e) (he : e < pixels_buf.length) :
    be_animation_ntv_gradient_fill pixels_buf color1 color2 start_pos end_pos
      = if s = e then Except.ok (pixels_buf.set s.toNat color1)
        else if e - s ≤ 1 then
          Except.ok ((pixels_buf.set s.toNat color1).set e.toNat color2)
        else
          for_lt (gradient_fill_body ((color1 >>> 24) &&& 0xFF) ((color1 >>> 16) &&& 0xFF)
            ((color1 >>> 8) &&& 0xFF) (color1 &&& 0xFF) ((color2 >>> 24) &&& 0xFF)
            ((color2 >>> 16) &&& 0xFF) ((color2 >>> 8) &&& 0xFF) (color2 &&& 0xFF) s (e - s))
            (s + 1) e ((pixels_buf.set s.toNat color1).set e.toNat color2) := by
  unfold be_animation_ntv_gradient_fill
  have h1 : wr pixels_buf s color1 = Except.ok (pixels_buf.set s.toNat color1) :=
    wr_in_bounds_int pixels_buf s color1 hs (by omega)
  have h2 : wr (pixels_buf.set s.toNat color1) e color2
      = Except.ok ((pixels_buf.set s.toNat color1).set e.toNat color2) :=
    wr_in_bounds_int _ e color2 (by omega) (by simp only [List.length_set]; omega)
  simp only [h, h1, h2]

theorem blend_color_unresolved (pixels_buf : List Nat) (color : Nat) (start_pos end_pos : Int)
    (h : resolve_region pixels_buf.length start_pos end_pos = none) :
    be_animation_ntv_blend_color pixels_buf color start_pos end_pos = Except.ok pixels_buf := by
  unfold be_animation_ntv_blend_color
  simp only [h]

theorem blend_color_resolved (pixels_buf : List Nat) (color : Nat) (start_pos end_pos s e : Int)
    (h : resolve_region pixels_buf.length start_pos end_pos = some (s, e)) :
    be_animation_ntv_blend_color pixels_buf color start_pos end_pos
      = if (color >>> 24) &&& 0xFF = 0 then Except.ok pixels_buf
        else for_le (blend_color_body ((color >>> 24) &&& 0xFF) ((color >>> 16) &&& 0xFF)
          ((color >>> 8) &&& 0xFF) (color &&& 0xFF)) s e pixels_buf := by
  unfold be_animation_ntv_blend_color
  simp only [h]

theorem apply_opacity_unresolved (pixels_buf : List Nat) (opacity : ScaleArg)
    (start_pos end_pos : Int)
    (h : resolve_region pixels_buf.length start_pos end_pos = none) :
    be_animation_ntv_apply_opacity pixels_buf opacity start_pos end_pos
      = Except.ok pixels_buf := by
  unfold be_animation_ntv_apply_opacity
  simp only [h]

theorem apply_opacity_resolved_mask (pixels_buf mask_buf : List Nat)
    (start_pos end_pos s e : Int)
    (h : resolve_region pixels_buf.length start_pos end_pos = some (s, e)) :
    be_animation_ntv_apply_opacity pixels_buf (ScaleArg.bytes mask_buf) start_pos end_pos
      = for_le (apply_opacity_mask_body mask_buf) s
          (mask_end_pos pixels_buf.length mask_buf.length e) pixels_buf := by
  unfold be_animation_ntv_apply_opacity
  simp only [h]

theorem apply_opacity_resolved_value (pixels_buf : List Nat) (opacity : ScaleArg)
    (start_pos end_pos s e : Int)
    (h : resolve_region pixels_buf.length start_pos end_pos = some (s, e))
    (hm : ∀ mask_buf, opacity ≠ ScaleArg.bytes mask_buf) :
    be_animation_ntv_apply_opacity pixels_buf opacity start_pos end_pos
      = for_le (apply_opacity_value_body (scale_value opacity)) s e pixels_buf := by
  unfold be_animation_ntv_apply_opacity
  cases opacity with
  | bytes m => exact absurd rfl (hm m)
  | absent => simp only [h]
  | int v => simp only [h]
  | other => simp only [h]

theorem apply_brightness_unresolved (pixels_buf : List Nat) (brightness : ScaleArg)
    (start_pos end_pos : Int)
    (h : resolve_region pixels_buf.length start_pos end_pos = none) :
    be_animation_ntv_apply_brightness pixels_buf brightness start_pos end_pos
      = Except.ok pixels_buf := by
  unfold be_animation_ntv_apply_brightness
  simp only [h]

theorem apply_brightness_resolved_mask (pixels_buf mask_buf : List Nat)
    (start_pos end_pos s e : Int)
    (h : resolve_region pixels_buf.length start_pos end_pos = some (s, e)) :
    be_animation_ntv_apply_brightness pixels_buf (ScaleArg.bytes mask_buf) start_pos end_pos
      = for_le (apply_brightness_mask_body mask_buf) s
          (mask_end_pos pixels_buf.length mask_buf.length e) pixels_buf := by
  unfold be_animation_ntv_apply_brightness
  simp only [h]

theorem apply_brightness_resolved_value (pixels_buf : List Nat) (brightness : ScaleArg)
    (start_pos end_pos s e : Int)
    (h : resolve_region pixels_buf.length start_pos end_pos = some (s, e))
    (hm : ∀ mask_buf, brightness ≠ ScaleArg.bytes mask_buf) :
    be_animation_ntv_apply_brightness pixels_buf brightness start_pos end_pos
      = for_le (apply_brightness_value_body (scale_value brightness)) s e pixels_buf := by
  unfold be_animation_ntv_apply_brightness
  cases brightness with
  | bytes m => exact absurd rfl (hm m)
  | absent => simp only [h]
  | int v => simp only [h]
  | other => simp only [h]

/-! ## The loop bodies inside the buffer -/

theorem fill_pixels_body_eq (color : Nat) (i : Nat) (b : List Nat) (h : i < b.length) :
    fill_pixels_body color (i : Int) b = Except.ok (b.set i color) :=
  wr_in_bounds b i color h

theorem gradient_fill_body_eq (a1 r1 g1 b1 a2 r2 g2 b2 : Nat) (start_pos steps : Int)
    (i : Nat) (b : List Nat) (h : i < b.length) :
    gradient_fill_body a1 r1 g1 b1 a2 r2 g2 b2 start_pos steps (i : Int) b
      = Except.ok (b.set i (gradient_fill_pixel a1 r1 g1 b1 a2 r2 g2 b2 start_pos steps i)) :=
  wr_in_bounds b i _ h

theorem blend_color_body_eq (a2 r2 g2 b2 : Nat) (i : Nat) (b : List Nat) (h : i < b.length) :
    blend_color_body a2 r2 g2 b2 (i : Int) b
      = Except.ok (b.set i (blend_color_mix a2 r2 g2 b2 (b.getD i 0))) := by
  simp only [blend_color_body, rd_in_bounds b i h, wr_in_bounds b i _ h]

theorem apply_opacity_mask_body_eq (mask_buf : List Nat) (i : Nat) (b : List Nat)
    (h : i < b.length) (hm : i < mask_buf.length) :
    apply_opacity_mask_body mask_buf (i : Int) b
      = Except.ok (b.set i (apply_opacity_mask_pixel (b.getD i 0) (mask_buf.getD i 0))) := by
  simp only [apply_opacity_mask_body, rd_in_bounds b i h, rd_in_bounds mask_buf i hm,
    wr_in_bounds b i _ h]

theorem apply_opacity_value_body_eq (opacity_value : Int) (i : Nat) (b : List Nat)
    (h : i < b.length) :
    apply_opacity_value_body opacity_value (i : Int) b
      = Except.ok (b.set i (apply_opacity_value_pixel opacity_value (b.getD i 0))) := by
  simp only [apply_opacity_value_body, rd_in_bounds b i h, wr_in_bounds b i _ h]

theorem apply_brightness_mask_body_eq (mask_buf : List Nat) (i : Nat) (b : List Nat)
    (h : i < b.length) (hm : i < mask_buf.length) :
    apply_brightness_mask_body mask_buf (i : Int) b
      = Except.ok (b.set i (apply_brightness_mask_pixel (b.getD i 0) (mask_buf.getD i 0))) := by
  simp only [apply_brightness_mask_body, rd_in_bounds b i h, rd_in_bounds mask_buf i hm,
    wr_in_bounds b i _ h]

theorem apply_brightness_value_body_eq (brightness_value : Int) (i : Nat) (b : List Nat)
    (h : i < b.length) :
    apply_brightness_value_body brightness_value (i : Int) b
      = Except.ok (b.set i (apply_brightness_value_pixel brightness_value (b.getD i 0))) := by
  simp only [apply_brightness_value_body, rd_in_bounds b i h, wr_in_bounds b i _ h]

theorem set_getD_self (b : List Nat) (i : Nat) (h : i < b.length) :
    b.set i (b.getD i 0) = b := by
  apply List.ext_getElem?
  intro j
  rw [getElem?_set_getD b i j _ h]
  by_cases hj : j = i
  · subst hj
    rw [if_pos rfl, List.getD_eq_getElem?_getD, List.getElem?_eq_getElem h]
    rfl
  · rw [if_neg hj]

theorem blend_pixels_body_eq (i : Nat) (d s : List Nat) (hd : i < d.length)
    (hs : i < s.length) :
    blend_pixels_body (i : Int) (d, s)
      = Except.ok (d.set i (blend_pixels_pixel (d.getD i 0) (s.getD i 0)), s) := by
  simp only [blend_pixels_body, blend_pixels_pixel, rd_in_bounds s i hs, rd_in_bounds d i hd]
  by_cases h0 : (s.getD i 0 >>> 24) &&& 0xFF > 0
  · rw [if_pos h0, if_pos h0]
    by_cases h255 : (s.getD i 0 >>> 24) &&& 0xFF = 255
    · rw [if_pos h255, if_pos h255]
      simp only [wr_in_bounds d i _ hd]
    · rw [if_neg h255, if_neg h255]
      simp only [wr_in_bounds d i _ hd]
  · rw [if_neg h0, if_neg h0, set_getD_self d i hd]

/-- The loop of `blend_pixels` rewrites the destination pixels of its index
range, each from its own old value, and hands the source back as it was. -/
theorem for_loop_blend_pixels (src : List Nat) (len : Nat) (n : Nat) :
    ∀ (lo : Nat) (dest : List Nat), dest.length = len → lo + n ≤ len → lo + n ≤ src.length →
      ∃ dest1, for_loop blend_pixels_body n (lo : Int) (dest, src) = Except.ok (dest1, src) ∧
        dest1.length = len ∧
        ∀ j : Nat, dest1[j]? =
          if lo ≤ j ∧ j < lo + n
            then (dest[j]?).map (fun c => blend_pixels_pixel c (src.getD j 0))
            else dest[j]? := by
  induction n with
  | zero =>
    intro lo dest hlen _ _
    refine ⟨dest, rfl, hlen, ?_⟩
    intro j
    have hno : ¬ (lo ≤ j ∧ j < lo + 0) := by omega
    rw [if_neg hno]
  | succ n ih =>
    intro lo dest hlen hle hsrc
    have hlo : lo < dest.length := by omega
    have hstep := blend_pixels_body_eq lo dest src hlo (by omega)
    have hlen1 : (dest.set lo (blend_pixels_pixel (dest.getD lo 0) (src.getD lo 0))).length
        = len := by
      simp [hlen]
    obtain ⟨dest1, hrun, hlen2, hpt⟩ := ih (lo + 1)
      (dest.set lo (blend_pixels_pixel (dest.getD lo 0) (src.getD lo 0))) hlen1
      (by omega) (by omega)
    refine ⟨dest1, ?_, hlen2, ?_⟩
    · simp only [for_loop, hstep]
      have hcast : ((lo : Int) + 1) = ((lo + 1 : Nat) : Int) := by push_cast; rfl
      rw [hcast]
      exact hrun
    · intro j
      rw [hpt j, getElem?_set_getD dest lo j _ hlo]
      by_cases hj : j = lo
      · subst hj
        have h1 : ¬ (j + 1 ≤ j ∧ j < j + 1 + n) := by omega
        have h2 : (j ≤ j ∧ j < j + (n + 1)) := by omega
        rw [if_neg h1, if_pos h2, if_pos rfl]
        simp [List.getD_eq_getElem?_getD, List.getElem?_eq_getElem hlo]
      · by_cases hr : lo + 1 ≤ j ∧ j < lo + 1 + n
        · have h2 : (lo ≤ j ∧ j < lo + (n + 1)) := by omega
          rw [if_pos hr, if_pos h2, if_neg hj]
        · have h2 : ¬ (lo ≤ j ∧ j < lo + (n + 1)) := by omega
          rw [if_neg hr, if_neg h2, if_neg hj]

theorem for_le_blend_pixels (dest src : List Nat) (lo hi : Int)
    (h0 : 0 ≤ lo) (hlo : lo ≤ dest.length) (hhi : hi < dest.length) (hsrc : hi < src.length)
    (hlo2 : lo ≤ src.length) :
    ∃ dest1, for_le blend_pixels_body lo hi (dest, src) = Except.ok (dest1, src) ∧
      dest1.length = dest.length ∧
      ∀ j : Nat, dest1[j]? =
        if lo ≤ (j : Int) ∧ (j : Int) ≤ hi
          then (dest[j]?).map (fun c => blend_pixels_pixel c (src.getD j 0))
          else dest[j]? := by
  obtain ⟨dest1, hrun, hlen, hpt⟩ := for_loop_blend_pixels src dest.length
    (hi + 1 - lo).toNat lo.toNat dest rfl (by omega) (by omega)
  refine ⟨dest1, ?_, hlen, ?_⟩
  · unfold for_le
    have hcast : ((lo.toNat : Nat) : Int) = lo := Int.toNat_of_nonneg h0
    rw [hcast] at hrun
    exact hrun
  · intro j
    rw [hpt j]
    by_cases hc : lo ≤ (j : Int) ∧ (j : Int) ≤ hi
    · have hc2 : lo.toNat ≤ j ∧ j < lo.toNat + (hi + 1 - lo).toNat := by omega
      rw [if_pos hc, if_pos hc2]
    · have hc2 : ¬ (lo.toNat ≤ j ∧ j < lo.toNat + (hi + 1 - lo).toNat) := by omega
      rw [if_neg hc, if_neg hc2]

/-! ## Pixel packing and the remap on small values -/

theorem and_ff_eq (c : Nat) : c &&& 0xFF = c % 256 := by
  have h : (0xFF : Nat) = 2 ^ 8 - 1 := by norm_num
  rw [h, Nat.and_pow_two_sub_one_eq_mod]

theorem pack_eq (a r g b : Nat) (hr : r < 256) (hg : g < 256) (hb : b < 256) :
    (a <<< 24) ||| (r <<< 16) ||| (g <<< 8) ||| b
      = a * 16777216 + r * 65536 + g * 256 + b := by
  simp only [Nat.shiftLeft_eq]
  have h1 : a * 2 ^ 24 ||| r * 2 ^ 16 = 2 ^ 24 * a + r * 2 ^ 16 := by
    rw [Nat.mul_comm a, Nat.mul_add_lt_is_or (by omega) a]
  have h2 : 2 ^ 24 * a + r * 2 ^ 16 = 2 ^ 16 * (a * 256 + r) := by omega
  have h3 : 2 ^ 16 * (a * 256 + r) ||| g * 2 ^ 8 = 2 ^ 16 * (a * 256 + r) + g * 2 ^ 8 := by
    rw [Nat.mul_add_lt_is_or (by omega) (a * 256 + r)]
  have h4 : 2 ^ 16 * (a * 256 + r) + g * 2 ^ 8 = 2 ^ 8 * (a * 65536 + r * 256 + g) := by omega
  have h5 : 2 ^ 8 * (a * 65536 + r * 256 + g) ||| b = 2 ^ 8 * (a * 65536 + r * 256 + g) + b := by
    rw [Nat.mul_add_lt_is_or (by omega) (a * 65536 + r * 256 + g)]
  rw [h1, h2, h3, h4, h5]
  omega

theorem changeUIntScale_zero_based (v m t : Nat) (hv : v < 65536) (hm : m < 65536)
    (ht : t < 65536) (hres : v * t / m < 65536) :
    changeUIntScale v 0 m 0 t = v * t / m := by
  unfold changeUIntScale to_uint16 int_to_uint16
  simp only [Nat.zero_mod, Nat.mod_eq_of_lt hv, Nat.mod_eq_of_lt hm, Nat.mod_eq_of_lt ht,
    Nat.cast_zero, sub_zero, zero_add]
  have h : Int.tdiv ((v : Int) * (t : Int)) (m : Int) = ((v * t / m : Nat) : Int) := by
    rw [Int.ofNat_tdiv]
    push_cast
    rfl
  rw [h]
  generalize v * t / m = q at hres
  omega

theorem two_term_le (a x y : Nat) (ha : a ≤ 255) (hx : x ≤ 255) (hy : y ≤ 255) :
    (255 - a) * x / 255 + a * y / 255 ≤ 255 := by
  have h1 : (255 - a) * x / 255 ≤ 255 - a := by
    calc (255 - a) * x / 255 ≤ (255 - a) * 255 / 255 :=
          Nat.div_le_div_right (Nat.mul_le_mul_left _ hx)
      _ = 255 - a := Nat.mul_div_cancel _ (by norm_num)
  have h2 : a * y / 255 ≤ a := by
    calc a * y / 255 ≤ a * 255 / 255 := Nat.div_le_div_right (Nat.mul_le_mul_left _ hy)
      _ = a := Nat.mul_div_cancel _ (by norm_num)
  omega

theorem scale_le (v t : Nat) (hv : v ≤ 255) : v * t / 255 ≤ t := by
  calc v * t / 255 ≤ 255 * t / 255 := Nat.div_le_div_right (Nat.mul_le_mul_right _ hv)
    _ = t := Nat.mul_div_cancel_left _ (by norm_num)

/-- The colour-channel computation of lines 60-62 (and 166-168, 325-327) on
byte values: nothing is lost in the `uint16_t` parameters or the `uint8_t`
result. -/
theorem blend_channel_eq (a x y : Nat) (ha : a ≤ 255) (hx : x ≤ 255) (hy : y ≤ 255) :
    to_uint8 (changeUIntScale (255 - a) 0 255 0 x + changeUIntScale a 0 255 0 y)
      = (255 - a) * x / 255 + a * y / 255 := by
  have hb := two_term_le a x y ha hx hy
  have h1 : (255 - a) * x / 255 ≤ x := scale_le (255 - a) x (by omega)
  have h2 : a * y / 255 ≤ y := scale_le a y ha
  rw [changeUIntScale_zero_based (255 - a) 255 x (by omega) (by norm_num) (by omega) (by omega),
    changeUIntScale_zero_based a 255 y (by omega) (by norm_num) (by omega) (by omega)]
  unfold to_uint8
  omega

theorem alpha_term_le (a1 a2 : Nat) (h1 : a1 ≤ 255) (h2 : a2 ≤ 255) :
    (255 - a1) * a2 ≤ 65025 ∧ (255 - a1) * a2 * 255 / 65025 ≤ 255 - a1 := by
  have hp : (255 - a1) * a2 ≤ (255 - a1) * 255 := Nat.mul_le_mul_left _ h2
  refine ⟨by omega, ?_⟩
  calc (255 - a1) * a2 * 255 / 65025 ≤ (255 - a1) * 255 * 255 / 65025 :=
        Nat.div_le_div_right (Nat.mul_le_mul_right _ hp)
    _ = 255 - a1 := by omega

/-- The alpha computation of lines 65-68 (and 171-172, 330-331) on byte values. -/
theorem blend_alpha_eq (a1 a2 : Nat) (h1 : a1 ≤ 255) (h2 : a2 ≤ 255) :
    changeUIntScale ((255 - a1) * a2) 0 (255 * 255) 0 255
      = (255 - a1) * a2 * 255 / 65025 := by
  obtain ⟨hp, hq⟩ := alpha_term_le a1 a2 h1 h2
  rw [changeUIntScale_zero_based ((255 - a1) * a2) (255 * 255) 255 (by omega) (by norm_num)
    (by norm_num) (by norm_num; omega)]

/-- With a source alpha other than 0, `blend` in plain arithmetic on the byte
values of its two arguments. -/
theorem blend_normal_form (c1 c2 : Nat) (h : (c2 >>> 24) &&& 0xFF ≠ 0) :
    be_animation_ntv_blend c1 c2 =
      (c1 / 2 ^ 24 % 256 + (255 - c1 / 2 ^ 24 % 256) * (c2 / 2 ^ 24 % 256) * 255 / 65025) * 16777216
      + ((255 - c2 / 2 ^ 24 % 256) * (c1 / 2 ^ 16 % 256) / 255
          + c2 / 2 ^ 24 % 256 * (c2 / 2 ^ 16 % 256) / 255) * 65536
      + ((255 - c2 / 2 ^ 24 % 256) * (c1 / 2 ^ 8 % 256) / 255
          + c2 / 2 ^ 24 % 256 * (c2 / 2 ^ 8 % 256) / 255) * 256
      + ((255 - c2 / 2 ^ 24 % 256) * (c1 % 256) / 255
          + c2 / 2 ^ 24 % 256 * (c2 % 256) / 255) := by
  have ha1 : c1 / 2 ^ 24 % 256 ≤ 255 := by omega
  have ha2 : c2 / 2 ^ 24 % 256 ≤ 255 := by omega
  have hr1 : c1 / 2 ^ 16 % 256 ≤ 255 := by omega
  have hr2 : c2 / 2 ^ 16 % 256 ≤ 255 := by omega
  have hg1 : c1 / 2 ^ 8 % 256 ≤ 255 := by omega
  have hg2 : c2 / 2 ^ 8 % 256 ≤ 255 := by omega
  have hb1 : c1 % 256 ≤ 255 := by omega
  have hb2 : c2 % 256 ≤ 255 := by omega
  have hR := two_term_le _ _ _ ha2 hr1 hr2
  have hG := two_term_le _ _ _ ha2 hg1 hg2
  have hB := two_term_le _ _ _ ha2 hb1 hb2
  obtain ⟨_, hA⟩ := alpha_term_le _ _ ha1 ha2
  simp only [be_animation_ntv_blend, if_neg h]
  simp only [and_ff_eq, Nat.shiftRight_eq_div_pow]
  rw [blend_channel_eq _ _ _ ha2 hr1 hr2, blend_channel_eq _ _ _ ha2 hg1 hg2,
    blend_channel_eq _ _ _ ha2 hb1 hb2, blend_alpha_eq _ _ ha1 ha2]
  have hno : ¬ (c1 / 2 ^ 24 % 256 + (255 - c1 / 2 ^ 24 % 256) * (c2 / 2 ^ 24 % 256) * 255 / 65025
      > 255) := by omega
  rw [if_neg hno, pack_eq _ _ _ _ (by omega) (by omega) (by omega)]
  unfold to_uint32
  omega

theorem remap_zero_based (v m t : Nat) :
    remap (v : Int) 0 (m : Int) 0 (t : Int) = ((v * t / m : Nat) : Int) := by
  unfold remap
  simp only [sub_zero, zero_add]
  rw [Int.ofNat_tdiv]
  push_cast
  rfl

theorem changeUIntScale_at_min (x y : Nat) (hx : x < 65536) :
    changeUIntScale 0 0 255 x y = x := by
  unfold changeUIntScale to_uint16 int_to_uint16
  simp only [Nat.zero_mod, Nat.cast_zero, sub_zero, zero_mul, Int.zero_tdiv, add_zero,
    Nat.mod_eq_of_lt hx]
  omega

theorem changeUIntScale_at_max (x y : Nat) (hx : x < 65536) (hy : y < 65536) :
    changeUIntScale 255 0 255 x y = y := by
  unfold changeUIntScale to_uint16 int_to_uint16
  simp only [Nat.zero_mod, Nat.cast_zero, sub_zero, Nat.mod_eq_of_lt hx, Nat.mod_eq_of_lt hy]
  have h : ((255 % 65536 : Nat) : Int) = 255 := by norm_num
  rw [h, Int.mul_tdiv_cancel_left _ (by norm_num)]
  omega

/-- With a source alpha of 255 the full computation of `blend` gives back the
32-bit source pixel. -/
theorem blend_opaque_source (color1 color2 : Nat) (h32 : color2 < 4294967296)
    (h : (color2 >>> 24) &&& 0xFF = 255) :
    be_animation_ntv_blend color1 color2 = color2 := by
  have hne : (color2 >>> 24) &&& 0xFF ≠ 0 := by rw [h]; norm_num
  rw [blend_normal_form color1 color2 hne]
  rw [and_ff_eq, Nat.shiftRight_eq_div_pow] at h
  rw [h]
  simp only [Nat.sub_self, Nat.zero_mul, Nat.zero_div, Nat.zero_add]
  have e1 : ∀ x : Nat, 255 * x / 255 = x := fun x => Nat.mul_div_cancel_left x (by norm_num)
  have e2 : (255 - color1 / 2 ^ 24 % 256) * 255 * 255 / 65025
      = 255 - color1 / 2 ^ 24 % 256 := by omega
  rw [e1, e1, e1, e2]
  omega

/-- One turn of the loop of `blend_pixels` leaves at its index what `blend`
returns for the same pair, for a 32-bit source pixel. -/
theorem blend_pixels_pixel_eq_blend (color1 color2 : Nat) (h32 : color2 < 4294967296) :
    blend_pixels_pixel color1 color2 = be_animation_ntv_blend color1 color2 := by
  by_cases h0 : (color2 >>> 24) &&& 0xFF = 0
  · have hno : ¬ ((color2 >>> 24) &&& 0xFF > 0) := by omega
    simp only [blend_pixels_pixel, be_animation_ntv_blend, if_neg hno, if_pos h0]
  · have hpos : (color2 >>> 24) &&& 0xFF > 0 := by omega
    by_cases h255 : (color2 >>> 24) &&& 0xFF = 255
    · rw [blend_opaque_source color1 color2 h32 h255]
      simp only [blend_pixels_pixel, if_pos hpos, if_pos h255]
    · simp only [blend_pixels_pixel, blend_pixels_mix, be_animation_ntv_blend, if_pos hpos,
        if_neg h255, if_neg h0]

/-! ## Claims on the single-pair operations -/

/-- C4: for every color1 and every color2 whose alpha byte is 0,
`blend(color1, color2)` returns color1 bit for bit. -/
theorem C4_blend_transparent_source (color1 color2 : Nat) (h : pixel_alpha color2 = 0) :
    be_animation_ntv_blend color1 color2 = color1 := by
  simp only [pixel_alpha] at h
  simp only [be_animation_ntv_blend, h, if_true]

theorem C4_blend_transparent_source_witness :
    pixel_alpha 0x00FFFFFF = 0 ∧ be_animation_ntv_blend 0x80123456 0x00FFFFFF = 0x80123456 :=
  ⟨by decide, C4_blend_transparent_source 0x80123456 0x00FFFFFF (by decide)⟩

/-- C5: for every color1 and every 32-bit color2 whose alpha byte is 255, the
full computation of `blend(color1, color2)` returns exactly color2, and that is
the pixel the copy fast path of `blend_pixels` writes for the same pair. -/
theorem C5_blend_opaque_source_agrees (color1 color2 : Nat) (h32 : color2 < 4294967296)
    (h : pixel_alpha color2 = 255) :
    be_animation_ntv_blend color1 color2 = color2 ∧
    be_animation_ntv_blend_pixels [color1] [color2] 0 (-1)
      = Except.ok ([be_animation_ntv_blend color1 color2], [color2]) := by
  simp only [pixel_alpha] at h
  have hb : be_animation_ntv_blend color1 color2 = color2 :=
    blend_opaque_source color1 color2 h32 h
  refine ⟨hb, ?_⟩
  rw [hb]
  have hres1 : resolve_region 1 0 (-1) = some (0, 0) := by decide
  have hres : resolve_region (if [color1].length < [color2].length then [color2].length
      else [color1].length) 0 (-1) = some (0, 0) := hres1
  rw [blend_pixels_resolved [color1] [color2] 0 (-1) 0 0 hres, for_le_single]
  have hrd : rd ([color1], [color2]).2 0 = Except.ok color2 := rfl
  have hwr : wr ([color1], [color2]).1 0 color2 = Except.ok [color2] := rfl
  simp only [blend_pixels_body, hrd, h, hwr]
  rfl

theorem C5_blend_opaque_source_agrees_witness :
    be_animation_ntv_blend 0x40102030 0xFF886644 = 0xFF886644 ∧
    be_animation_ntv_blend_pixels [0x40102030] [0xFF886644] 0 (-1)
      = Except.ok ([be_animation_ntv_blend 0x40102030 0xFF886644], [0xFF886644]) :=
  C5_blend_opaque_source_agrees 0x40102030 0xFF886644 (by decide) (by decide)

theorem remap_byte (v t : Nat) :
    remap (v : Int) 0 255 0 (t : Int) = ((v * t / 255 : Nat) : Int) := by
  have h := remap_zero_based v 255 t
  exact_mod_cast h

theorem remap_alpha (v : Nat) :
    remap (v : Int) 0 (255 * 255) 0 255 = ((v * 255 / 65025 : Nat) : Int) := by
  have h := remap_zero_based v 65025 255
  exact_mod_cast h

/-- C6: for every color1 and every color2 with alpha a2 other than 0,
`blend(color1, color2)` is the 32-bit pixel whose red, green and blue channels
are `remap(255-a2,0,255,0,c1) + remap(a2,0,255,0,c2)` for the corresponding
channels c1 of color1 and c2 of color2, and whose alpha is
`min(255, a1 + remap((255-a1)*a2, 0, 255*255, 0, 255))`, with `remap` the
truncating integer rescale of spec 4.3. -/
theorem C6_blend_two_term_remap (color1 color2 : Nat) (h : pixel_alpha color2 ≠ 0) :
    be_animation_ntv_blend color1 color2 < 4294967296 ∧
    (pixel_red (be_animation_ntv_blend color1 color2) : Int)
      = remap (255 - pixel_alpha color2) 0 255 0 (pixel_red color1)
        + remap (pixel_alpha color2) 0 255 0 (pixel_red color2) ∧
    (pixel_green (be_animation_ntv_blend color1 color2) : Int)
      = remap (255 - pixel_alpha color2) 0 255 0 (pixel_green color1)
        + remap (pixel_alpha color2) 0 255 0 (pixel_green color2) ∧
    (pixel_blue (be_animation_ntv_blend color1 color2) : Int)
      = remap (255 - pixel_alpha color2) 0 255 0 (pixel_blue color1)
        + remap (pixel_alpha color2) 0 255 0 (pixel_blue color2) ∧
    (pixel_alpha (be_animation_ntv_blend color1 color2) : Int)
      = min 255 (pixel_alpha color1
        + remap ((255 - pixel_alpha color1) * pixel_alpha color2) 0 (255 * 255) 0 255) := by
  simp only [pixel_alpha] at h
  rw [blend_normal_form color1 color2 h]
  simp only [pixel_alpha, pixel_red, pixel_green, pixel_blue, and_ff_eq,
    Nat.shiftRight_eq_div_pow]
  have ha1 : color1 / 2 ^ 24 % 256 ≤ 255 := by omega
  have ha2 : color2 / 2 ^ 24 % 256 ≤ 255 := by omega
  have hR := two_term_le _ _ _ ha2 (show color1 / 2 ^ 16 % 256 ≤ 255 by omega)
    (show color2 / 2 ^ 16 % 256 ≤ 255 by omega)
  have hG := two_term_le _ _ _ ha2 (show color1 / 2 ^ 8 % 256 ≤ 255 by omega)
    (show color2 / 2 ^ 8 % 256 ≤ 255 by omega)
  have hB := two_term_le _ _ _ ha2 (show color1 % 256 ≤ 255 by omega)
    (show color2 % 256 ≤ 255 by omega)
  obtain ⟨_, hA⟩ := alpha_term_le _ _ ha1 ha2
  have e255 : ((255 : Int) - ((color2 / 2 ^ 24 % 256 : Nat) : Int))
      = ((255 - color2 / 2 ^ 24 % 256 : Nat) : Int) := by omega
  have e255a : (((255 : Int) - ((color1 / 2 ^ 24 % 256 : Nat) : Int))
      * ((color2 / 2 ^ 24 % 256 : Nat) : Int))
      = (((255 - color1 / 2 ^ 24 % 256) * (color2 / 2 ^ 24 % 256) : Nat) : Int) := by
    rw [Nat.cast_mul]
    congr 1
    omega
  rw [e255, e255a]
  simp only [remap_byte, remap_alpha]
  generalize (255 - color2 / 2 ^ 24 % 256) * (color1 / 2 ^ 16 % 256) / 255 = r1 at hR ⊢
  generalize color2 / 2 ^ 24 % 256 * (color2 / 2 ^ 16 % 256) / 255 = r2 at hR ⊢
  generalize (255 - color2 / 2 ^ 24 % 256) * (color1 / 2 ^ 8 % 256) / 255 = g1 at hG ⊢
  generalize color2 / 2 ^ 24 % 256 * (color2 / 2 ^ 8 % 256) / 255 = g2 at hG ⊢
  generalize (255 - color2 / 2 ^ 24 % 256) * (color1 % 256) / 255 = b1 at hB ⊢
  generalize color2 / 2 ^ 24 % 256 * (color2 % 256) / 255 = b2 at hB ⊢
  generalize (255 - color1 / 2 ^ 24 % 256) * (color2 / 2 ^ 24 % 256) * 255 / 65025 = t at hA ⊢
  refine ⟨by omega, by omega, by omega, by omega, ?_⟩
  rw [min_eq_right (by omega)]
  omega

theorem C6_blend_two_term_remap_witness :
    pixel_alpha 0x80FFEEDD ≠ 0 ∧
    be_animation_ntv_blend 0x40102030 0x80FFEEDD < 4294967296 ∧
    (pixel_red (be_animation_ntv_blend 0x40102030 0x80FFEEDD) : Int)
      = remap (255 - pixel_alpha 0x80FFEEDD) 0 255 0 (pixel_red 0x40102030)
        + remap (pixel_alpha 0x80FFEEDD) 0 255 0 (pixel_red 0x80FFEEDD) ∧
    (pixel_green (be_animation_ntv_blend 0x40102030 0x80FFEEDD) : Int)
      = remap (255 - pixel_alpha 0x80FFEEDD) 0 255 0 (pixel_green 0x40102030)
        + remap (pixel_alpha 0x80FFEEDD) 0 255 0 (pixel_green 0x80FFEEDD) ∧
    (pixel_blue (be_animation_ntv_blend 0x40102030 0x80FFEEDD) : Int)
      = remap (255 - pixel_alpha 0x80FFEEDD) 0 255 0 (pixel_blue 0x40102030)
        + remap (pixel_alpha 0x80FFEEDD) 0 255 0 (pixel_blue 0x80FFEEDD) ∧
    (pixel_alpha (be_animation_ntv_blend 0x40102030 0x80FFEEDD) : Int)
      = min 255 (pixel_alpha 0x40102030
        + remap ((255 - pixel_alpha 0x40102030) * pixel_alpha 0x80FFEEDD) 0 (255 * 255) 0 255) :=
  ⟨by decide, C6_blend_two_term_remap 0x40102030 0x80FFEEDD (by decide)⟩

/-- C7: `blend(0xFF000000, 0x80FFFFFF)` returns the exact two-term integer
remap output: alpha 255 and each of red, green, blue equal to
`remap(127,0,255,0,0) + remap(128,0,255,0,255) = 128`, that is `0xFF808080`,
and not `0xFF7F7F7F`. -/
theorem C7_blend_black_half_white :
    be_animation_ntv_blend 0xFF000000 0x80FFFFFF = 0xFF808080 ∧
    remap 127 0 255 0 0 + remap 128 0 255 0 255 = 128 ∧
    pixel_alpha (be_animation_ntv_blend 0xFF000000 0x80FFFFFF) = 255 ∧
    pixel_red (be_animation_ntv_blend 0xFF000000 0x80FFFFFF) = 128 ∧
    pixel_green (be_animation_ntv_blend 0xFF000000 0x80FFFFFF) = 128 ∧
    pixel_blue (be_animation_ntv_blend 0xFF000000 0x80FFFFFF) = 128 ∧
    be_animation_ntv_blend 0xFF000000 0x80FFFFFF ≠ 0xFF7F7F7F := by
  decide

/-- The four channels of `blend_linear` at the two ends of the weight range, on
byte values. -/
theorem blend_linear_ends (a r g b a2 r2 g2 b2 : Nat) (ha : a < 256) (hr : r < 256)
    (hg : g < 256) (hb : b < 256) (ha2 : a2 < 256) (hr2 : r2 < 256) (hg2 : g2 < 256)
    (hb2 : b2 < 256) :
    to_uint32 ((to_uint8 (changeUIntScale 0 0 255 a2 a) <<< 24)
        ||| (to_uint8 (changeUIntScale 0 0 255 r2 r) <<< 16)
        ||| (to_uint8 (changeUIntScale 0 0 255 g2 g) <<< 8)
        ||| to_uint8 (changeUIntScale 0 0 255 b2 b))
      = a2 * 16777216 + r2 * 65536 + g2 * 256 + b2 ∧
    to_uint32 ((to_uint8 (changeUIntScale 255 0 255 a2 a) <<< 24)
        ||| (to_uint8 (changeUIntScale 255 0 255 r2 r) <<< 16)
        ||| (to_uint8 (changeUIntScale 255 0 255 g2 g) <<< 8)
        ||| to_uint8 (changeUIntScale 255 0 255 b2 b))
      = a * 16777216 + r * 65536 + g * 256 + b := by
  rw [changeUIntScale_at_min a2 a (by omega), changeUIntScale_at_min r2 r (by omega),
    changeUIntScale_at_min g2 g (by omega), changeUIntScale_at_min b2 b (by omega),
    changeUIntScale_at_max a2 a (by omega) (by omega),
    changeUIntScale_at_max r2 r (by omega) (by omega),
    changeUIntScale_at_max g2 g (by omega) (by omega),
    changeUIntScale_at_max b2 b (by omega) (by omega)]
  unfold to_uint8
  rw [Nat.mod_eq_of_lt ha, Nat.mod_eq_of_lt hr, Nat.mod_eq_of_lt hg, Nat.mod_eq_of_lt hb,
    Nat.mod_eq_of_lt ha2, Nat.mod_eq_of_lt hr2, Nat.mod_eq_of_lt hg2, Nat.mod_eq_of_lt hb2,
    pack_eq _ _ _ _ hr2 hg2 hb2, pack_eq _ _ _ _ hr hg hb]
  unfold to_uint32
  omega

/-- C8: for every 32-bit color_a and color_b, `blend_linear(color_a, color_b, 0)`
is color_b and `blend_linear(color_a, color_b, 255)` is color_a, whatever the
order of the channels of the two colours (the destination range of the remap
may be reversed). -/
theorem C8_blend_linear_endpoints (color_a color_b : Nat) (ha : color_a < 4294967296)
    (hb : color_b < 4294967296) :
    be_animation_ntv_blend_linear color_a color_b 0 = color_b ∧
    be_animation_ntv_blend_linear color_a color_b 255 = color_a := by
  have hends := blend_linear_ends (color_a / 2 ^ 24 % 256) (color_a / 2 ^ 16 % 256)
    (color_a / 2 ^ 8 % 256) (color_a % 256) (color_b / 2 ^ 24 % 256) (color_b / 2 ^ 16 % 256)
    (color_b / 2 ^ 8 % 256) (color_b % 256) (by omega) (by omega) (by omega) (by omega)
    (by omega) (by omega) (by omega) (by omega)
  simp only [be_animation_ntv_blend_linear, and_ff_eq, Nat.shiftRight_eq_div_pow]
  rw [hends.1, hends.2]
  constructor <;> omega

theorem C8_blend_linear_endpoints_witness :
    be_animation_ntv_blend_linear 0x10F020E0 0xF010E020 0 = 0xF010E020 ∧
    be_animation_ntv_blend_linear 0x10F020E0 0xF010E020 255 = 0x10F020E0 :=
  C8_blend_linear_endpoints 0x10F020E0 0xF010E020 (by decide) (by decide)

/-! ## No operation leaves its buffers -/

theorem mask_end_bounds (len mlen : Nat) (e : Int) (hlen : len < 2147483648)
    (he : e < len) :
    mask_end_pos len mlen e ≤ e ∧ mask_end_pos len mlen e < mlen := by
  unfold mask_end_pos to_int32
  simp only
  split_ifs <;> omega

theorem fill_pixels_ok (pixels_buf : List Nat) (color : Nat) (start_pos end_pos : Int)
    (hw : pixels_buf.length < 2147483648)
    (hs1 : -2147483648 ≤ start_pos) (hs2 : start_pos < 2147483648)
    (he1 : -2147483648 ≤ end_pos) (he2 : end_pos < 2147483648) :
    ∃ buf1, be_animation_ntv_fill_pixels pixels_buf color start_pos end_pos = Except.ok buf1 ∧
      buf1.length = pixels_buf.length := by
  cases hres : resolve_region pixels_buf.length start_pos end_pos with
  | none => exact ⟨pixels_buf, fill_pixels_unresolved _ _ _ _ hres, rfl⟩
  | some p =>
    obtain ⟨s, e⟩ := p
    have hb := resolve_region_bounds _ _ _ s e hw hs1 hs2 he1 he2 hres
    rw [fill_pixels_resolved _ _ _ _ s e hres]
    obtain ⟨buf1, h1, h2, _⟩ := for_le_pointwise (fill_pixels_body color) (fun _ _ => color)
      pixels_buf s e hb.1 (by omega) (by omega)
      (fun i b _ _ hlen => fill_pixels_body_eq color i b (by omega))
    exact ⟨buf1, h1, h2⟩

theorem gradient_fill_ok (pixels_buf : List Nat) (color1 color2 : Nat) (start_pos end_pos : Int)
    (hw : pixels_buf.length < 2147483648)
    (hs1 : -2147483648 ≤ start_pos) (hs2 : start_pos < 2147483648)
    (he1 : -2147483648 ≤ end_pos) (he2 : end_pos < 2147483648) :
    ∃ buf1, be_animation_ntv_gradient_fill pixels_buf color1 color2 start_pos end_pos
        = Except.ok buf1 ∧ buf1.length = pixels_buf.length := by
  cases hres : resolve_region pixels_buf.length start_pos end_pos with
  | none => exact ⟨pixels_buf, gradient_fill_unresolved _ _ _ _ _ hres, rfl⟩
  | some p =>
    obtain ⟨s, e⟩ := p
    have hb := resolve_region_bounds _ _ _ s e hw hs1 hs2 he1 he2 hres
    rw [gradient_fill_resolved _ _ _ _ _ s e hres hb.1 hb.2.1 hb.2.2]
    by_cases h1 : s = e
    · rw [if_pos h1]
      exact ⟨_, rfl, by simp only [List.length_set]⟩
    · rw [if_neg h1]
      by_cases h2 : e - s ≤ 1
      · rw [if_pos h2]
        exact ⟨_, rfl, by simp only [List.length_set]⟩
      · rw [if_neg h2, for_lt_eq_for_le]
        have hlen2 : ((pixels_buf.set s.toNat color1).set e.toNat color2).length
            = pixels_buf.length := by simp only [List.length_set]
        obtain ⟨buf1, h3, h4, _⟩ := for_le_pointwise
          (gradient_fill_body ((color1 >>> 24) &&& 0xFF) ((color1 >>> 16) &&& 0xFF)
            ((color1 >>> 8) &&& 0xFF) (color1 &&& 0xFF) ((color2 >>> 24) &&& 0xFF)
            ((color2 >>> 16) &&& 0xFF) ((color2 >>> 8) &&& 0xFF) (color2 &&& 0xFF) s (e - s))
          (fun i _ => gradient_fill_pixel ((color1 >>> 24) &&& 0xFF) ((color1 >>> 16) &&& 0xFF)
            ((color1 >>> 8) &&& 0xFF) (color1 &&& 0xFF) ((color2 >>> 24) &&& 0xFF)
            ((color2 >>> 16) &&& 0xFF) ((color2 >>> 8) &&& 0xFF) (color2 &&& 0xFF) s (e - s) i)
          ((pixels_buf.set s.toNat color1).set e.toNat color2) (s + 1) (e - 1)
          (by omega) (by rw [hlen2]; omega) (by rw [hlen2]; omega)
          (fun i b _ _ hlen => gradient_fill_body_eq _ _ _ _ _ _ _ _ _ _ i b
            (by rw [hlen, hlen2]; omega))
        exact ⟨buf1, h3, by rw [h4, hlen2]⟩

theorem blend_color_ok (pixels_buf : List Nat) (color : Nat) (start_pos end_pos : Int)
    (hw : pixels_buf.length < 2147483648)
    (hs1 : -2147483648 ≤ start_pos) (hs2 : start_pos < 2147483648)
    (he1 : -2147483648 ≤ end_pos) (he2 : end_pos < 2147483648) :
    ∃ buf1, be_animation_ntv_blend_color pixels_buf color start_pos end_pos = Except.ok buf1 ∧
      buf1.length = pixels_buf.length := by
  cases hres : resolve_region pixels_buf.length start_pos end_pos with
  | none => exact ⟨pixels_buf, blend_color_unresolved _ _ _ _ hres, rfl⟩
  | some p =>
    obtain ⟨s, e⟩ := p
    have hb := resolve_region_bounds _ _ _ s e hw hs1 hs2 he1 he2 hres
    rw [blend_color_resolved _ _ _ _ s e hres]
    by_cases h0 : (color >>> 24) &&& 0xFF = 0
    · rw [if_pos h0]
      exact ⟨pixels_buf, rfl, rfl⟩
    · rw [if_neg h0]
      obtain ⟨buf1, h1, h2, _⟩ := for_le_pointwise
        (blend_color_body ((color >>> 24) &&& 0xFF) ((color >>> 16) &&& 0xFF)
          ((color >>> 8) &&& 0xFF) (color &&& 0xFF))
        (fun _ c => blend_color_mix ((color >>> 24) &&& 0xFF) ((color >>> 16) &&& 0xFF)
          ((color >>> 8) &&& 0xFF) (color &&& 0xFF) c)
        pixels_buf s e hb.1 (by omega) (by omega)
        (fun i b _ _ hlen => blend_color_body_eq _ _ _ _ i b (by omega))
      exact ⟨buf1, h1, h2⟩

theorem apply_opacity_ok (pixels_buf : List Nat) (opacity : ScaleArg) (start_pos end_pos : Int)
    (hw : pixels_buf.length < 2147483648)
    (hs1 : -2147483648 ≤ start_pos) (hs2 : start_pos < 2147483648)
    (he1 : -2147483648 ≤ end_pos) (he2 : end_pos < 2147483648) :
    ∃ buf1, be_animation_ntv_apply_opacity pixels_buf opacity start_pos end_pos
        = Except.ok buf1 ∧ buf1.length = pixels_buf.length := by
  cases hres : resolve_region pixels_buf.length start_pos end_pos with
  | none => exact ⟨pixels_buf, apply_opacity_unresolved _ _ _ _ hres, rfl⟩
  | some p =>
    obtain ⟨s, e⟩ := p
    have hb := resolve_region_bounds _ _ _ s e hw hs1 hs2 he1 he2 hres
    by_cases hm : ∃ mask_buf, opacity = ScaleArg.bytes mask_buf
    · obtain ⟨mask_buf, rfl⟩ := hm
      rw [apply_opacity_resolved_mask _ _ _ _ s e hres]
      have hme := mask_end_bounds pixels_buf.length mask_buf.length e hw hb.2.2
      obtain ⟨buf1, h1, h2, _⟩ := for_le_pointwise (apply_opacity_mask_body mask_buf)
        (fun i c => apply_opacity_mask_pixel c (mask_buf.getD i 0)) pixels_buf s
        (mask_end_pos pixels_buf.length mask_buf.length e) hb.1 (by omega) (by omega)
        (fun i b _ hi hlen => apply_opacity_mask_body_eq mask_buf i b (by omega) (by omega))
      exact ⟨buf1, h1, h2⟩
    · rw [apply_opacity_resolved_value _ _ _ _ s e hres (fun m hm2 => hm ⟨m, hm2⟩)]
      obtain ⟨buf1, h1, h2, _⟩ := for_le_pointwise
        (apply_opacity_value_body (scale_value opacity))
        (fun _ c => apply_opacity_value_pixel (scale_value opacity) c) pixels_buf s e
        hb.1 (by omega) (by omega)
        (fun i b _ _ hlen => apply_opacity_value_body_eq _ i b (by omega))
      exact ⟨buf1, h1, h2⟩

theorem apply_brightness_ok (pixels_buf : List Nat) (brightness : ScaleArg)
    (start_pos end_pos : Int) (hw : pixels_buf.length < 2147483648)
    (hs1 : -2147483648 ≤ start_pos) (hs2 : start_pos < 2147483648)
    (he1 : -2147483648 ≤ end_pos) (he2 : end_pos < 2147483648) :
    ∃ buf1, be_animation_ntv_apply_brightness pixels_buf brightness start_pos end_pos
        = Except.ok buf1 ∧ buf1.length = pixels_buf.length := by
  cases hres : resolve_region pixels_buf.length start_pos end_pos with
  | none => exact ⟨pixels_buf, apply_brightness_unresolved _ _ _ _ hres, rfl⟩
  | some p =>
    obtain ⟨s, e⟩ := p
    have hb := resolve_region_bounds _ _ _ s e hw hs1 hs2 he1 he2 hres
    by_cases hm : ∃ mask_buf, brightness = ScaleArg.bytes mask_buf
    · obtain ⟨mask_buf, rfl⟩ := hm
      rw [apply_brightness_resolved_mask _ _ _ _ s e hres]
      have hme := mask_end_bounds pixels_buf.length mask_buf.length e hw hb.2.2
      obtain ⟨buf1, h1, h2, _⟩ := for_le_pointwise (apply_brightness_mask_body mask_buf)
        (fun i c => apply_brightness_mask_pixel c (mask_buf.getD i 0)) pixels_buf s
        (mask_end_pos pixels_buf.length mask_buf.length e) hb.1 (by omega) (by omega)
        (fun i b _ hi hlen => apply_brightness_mask_body_eq mask_buf i b (by omega) (by omega))
      exact ⟨buf1, h1, h2⟩
    · rw [apply_brightness_resolved_value _ _ _ _ s e hres (fun m hm2 => hm ⟨m, hm2⟩)]
      obtain ⟨buf1, h1, h2, _⟩ := for_le_pointwise
        (apply_brightness_value_body (scale_value brightness))
        (fun _ c => apply_brightness_value_pixel (scale_value brightness) c) pixels_buf s e
        hb.1 (by omega) (by omega)
        (fun i b _ _ hlen => apply_brightness_value_body_eq _ i b (by omega))
      exact ⟨buf1, h1, h2⟩

/-! ## Claims on the range resolver -/

theorem resolve_region_inverted (width : Nat) (start_pos end_pos : Int)
    (h : resolved_end width end_pos < resolved_start width start_pos) :
    resolve_region width start_pos end_pos = none := by
  unfold resolved_end resolved_start at h
  unfold resolve_region
  simp only at h ⊢
  split_ifs at h ⊢ <;> rfl

theorem resolve_region_nonneg_inverted (width : Nat) (start_pos end_pos : Int)
    (h0 : 0 ≤ end_pos) (h : end_pos < start_pos) :
    resolve_region width start_pos end_pos = none := by
  unfold resolve_region to_int32
  simp only
  split_ifs <;> first | rfl | omega

theorem resolve_region_above (width : Nat) (start_pos end_pos : Int)
    (h : (width : Int) ≤ start_pos) :
    resolve_region width start_pos end_pos = none := by
  unfold resolve_region
  simp only
  split_ifs <;> first | rfl | omega

theorem resolve_region_below (width : Nat) (start_pos end_pos : Int)
    (hw1 : 1 ≤ width) (hw : width < 2147483648)
    (hs1 : -2147483648 ≤ start_pos) (he1 : -2147483648 ≤ end_pos)
    (hs : start_pos + width < 0) (he : end_pos + width < 0) :
    resolve_region width start_pos end_pos = some (0, 0) := by
  unfold resolve_region to_int32
  simp only
  split_ifs <;> first | rfl | omega

/-- C2: for every buffer of w pixels (w below 2^31) and every signed 32-bit
start, end, the region resolution of fill_pixels, gradient_fill, blend_color,
apply_opacity and apply_brightness either yields the empty region, and then the
operation returns the buffer unchanged, or yields indices with
`0 <= start_pos <= end_pos <= w-1`; in both cases every one of the five
operations ends without an access outside its buffers. -/
theorem C2_region_resolution_in_bounds (pixels_buf : List Nat) (start_pos end_pos : Int)
    (hw : pixels_buf.length < 2147483648)
    (hs1 : -2147483648 ≤ start_pos) (hs2 : start_pos < 2147483648)
    (he1 : -2147483648 ≤ end_pos) (he2 : end_pos < 2147483648) :
    ((resolve_region pixels_buf.length start_pos end_pos = none ∧
        (∀ color, be_animation_ntv_fill_pixels pixels_buf color start_pos end_pos
          = Except.ok pixels_buf) ∧
        (∀ color1 color2, be_animation_ntv_gradient_fill pixels_buf color1 color2
          start_pos end_pos = Except.ok pixels_buf) ∧
        (∀ color, be_animation_ntv_blend_color pixels_buf color start_pos end_pos
          = Except.ok pixels_buf) ∧
        (∀ opacity, be_animation_ntv_apply_opacity pixels_buf opacity start_pos end_pos
          = Except.ok pixels_buf) ∧
        (∀ brightness, be_animation_ntv_apply_brightness pixels_buf brightness
          start_pos end_pos = Except.ok pixels_buf)) ∨
      (∃ s e, resolve_region pixels_buf.length start_pos end_pos = some (s, e) ∧
        0 ≤ s ∧ s ≤ e ∧ e ≤ (pixels_buf.length : Int) - 1)) ∧
    (∀ color, ∃ buf1, be_animation_ntv_fill_pixels pixels_buf color start_pos end_pos
      = Except.ok buf1 ∧ buf1.length = pixels_buf.length) ∧
    (∀ color1 color2, ∃ buf1, be_animation_ntv_gradient_fill pixels_buf color1 color2
      start_pos end_pos = Except.ok buf1 ∧ buf1.length = pixels_buf.length) ∧
    (∀ color, ∃ buf1, be_animation_ntv_blend_color pixels_buf color start_pos end_pos
      = Except.ok buf1 ∧ buf1.length = pixels_buf.length) ∧
    (∀ opacity, ∃ buf1, be_animation_ntv_apply_opacity pixels_buf opacity start_pos end_pos
      = Except.ok buf1 ∧ buf1.length = pixels_buf.length) ∧
    (∀ brightness, ∃ buf1, be_animation_ntv_apply_brightness pixels_buf brightness
      start_pos end_pos = Except.ok buf1 ∧ buf1.length = pixels_buf.length) := by
  refine ⟨?_, fun c => fill_pixels_ok _ c _ _ hw hs1 hs2 he1 he2,
    fun c1 c2 => gradient_fill_ok _ c1 c2 _ _ hw hs1 hs2 he1 he2,
    fun c => blend_color_ok _ c _ _ hw hs1 hs2 he1 he2,
    fun a => apply_opacity_ok _ a _ _ hw hs1 hs2 he1 he2,
    fun a => apply_brightness_ok _ a _ _ hw hs1 hs2 he1 he2⟩
  cases hres : resolve_region pixels_buf.length start_pos end_pos with
  | none =>
    exact Or.inl ⟨rfl, fun c => fill_pixels_unresolved _ c _ _ hres,
      fun c1 c2 => gradient_fill_unresolved _ c1 c2 _ _ hres,
      fun c => blend_color_unresolved _ c _ _ hres,
      fun a => apply_opacity_unresolved _ a _ _ hres,
      fun a => apply_brightness_unresolved _ a _ _ hres⟩
  | some p =>
    obtain ⟨s, e⟩ := p
    have hb := resolve_region_bounds _ _ _ s e hw hs1 hs2 he1 he2 hres
    exact Or.inr ⟨s, e, rfl, hb.1, hb.2.1, by omega⟩

theorem C2_region_resolution_in_bounds_witness :
    resolve_region [1, 2, 3].length (-2) 5 = some (1, 2) ∧
    ∃ buf1, be_animation_ntv_fill_pixels [1, 2, 3] 7 (-2) 5 = Except.ok buf1 ∧
      buf1.length = [1, 2, 3].length :=
  ⟨by decide, (C2_region_resolution_in_bounds [1, 2, 3] (-2) 5 (by decide) (by decide)
    (by decide) (by decide) (by decide)).2.1 7⟩

/-- C3, as the code has it: for every buffer of w >= 1 pixels, a region whose
two bounds both lie at or above w makes each of fill_pixels, gradient_fill,
blend_color, apply_opacity and apply_brightness return without error and
change no pixel; a region whose two bounds, after adding w, both still lie
below 0 is clamped to the one-pixel region [0, 0], and fill_pixels then sets
pixel 0 to the colour and changes no other pixel. -/
theorem C3_out_of_bounds_region (pixels_buf : List Nat) (start_pos end_pos : Int)
    (hw1 : 1 ≤ pixels_buf.length) (hw : pixels_buf.length < 2147483648)
    (hs1 : -2147483648 ≤ start_pos) (he1 : -2147483648 ≤ end_pos) :
    ((pixels_buf.length : Int) ≤ start_pos → (pixels_buf.length : Int) ≤ end_pos →
      (∀ color, be_animation_ntv_fill_pixels pixels_buf color start_pos end_pos
        = Except.ok pixels_buf) ∧
      (∀ color1 color2, be_animation_ntv_gradient_fill pixels_buf color1 color2
        start_pos end_pos = Except.ok pixels_buf) ∧
      (∀ color, be_animation_ntv_blend_color pixels_buf color start_pos end_pos
        = Except.ok pixels_buf) ∧
      (∀ opacity, be_animation_ntv_apply_opacity pixels_buf opacity start_pos end_pos
        = Except.ok pixels_buf) ∧
      (∀ brightness, be_animation_ntv_apply_brightness pixels_buf brightness
        start_pos end_pos = Except.ok pixels_buf)) ∧
    (start_pos + pixels_buf.length < 0 → end_pos + pixels_buf.length < 0 →
      resolve_region pixels_buf.length start_pos end_pos = some (0, 0) ∧
      ∀ color, be_animation_ntv_fill_pixels pixels_buf color start_pos end_pos
        = Except.ok (pixels_buf.set 0 color)) := by
  constructor
  · intro hs _
    have hres := resolve_region_above pixels_buf.length start_pos end_pos hs
    exact ⟨fun c => fill_pixels_unresolved _ c _ _ hres,
      fun c1 c2 => gradient_fill_unresolved _ c1 c2 _ _ hres,
      fun c => blend_color_unresolved _ c _ _ hres,
      fun a => apply_opacity_unresolved _ a _ _ hres,
      fun a => apply_brightness_unresolved _ a _ _ hres⟩
  · intro hs he
    have hres := resolve_region_below pixels_buf.length start_pos end_pos hw1 hw hs1 he1 hs he
    refine ⟨hres, fun color => ?_⟩
    rw [fill_pixels_resolved _ _ _ _ 0 0 hres, for_le_single]
    exact wr_in_bounds_int pixels_buf 0 color (le_refl 0) (by omega)

theorem C3_out_of_bounds_region_witness :
    (∀ color, be_animation_ntv_fill_pixels [1, 2, 3] color 3 7 = Except.ok [1, 2, 3]) ∧
    (∀ color, be_animation_ntv_fill_pixels [1, 2, 3] color (-20) (-15)
      = Except.ok ([1, 2, 3].set 0 color)) :=
  ⟨((C3_out_of_bounds_region [1, 2, 3] 3 7 (by decide) (by decide) (by decide)
      (by decide)).1 (by decide) (by decide)).1,
   ((C3_out_of_bounds_region [1, 2, 3] (-20) (-15) (by decide) (by decide) (by decide)
      (by decide)).2 (by decide) (by decide)).2⟩

/-- Counterexample to C3 as stated: on a 10-pixel buffer the region
start=-20, end=-15 is fully out of bounds (both bounds stay below 0 after
adding 10), yet fill_pixels overwrites pixel 0. -/
theorem C3_fully_below_region_writes_pixel_0 :
    (-20 : Int) + 10 < 0 ∧ (-15 : Int) + 10 < 0 ∧
    be_animation_ntv_fill_pixels [0, 0, 0, 0, 0, 0, 0, 0, 0, 0] 0xFFFFFFFF (-20) (-15)
      = Except.ok [0xFFFFFFFF, 0, 0, 0, 0, 0, 0, 0, 0, 0] ∧
    be_animation_ntv_fill_pixels [0, 0, 0, 0, 0, 0, 0, 0, 0, 0] 0xFFFFFFFF (-20) (-15)
      ≠ Except.ok [0, 0, 0, 0, 0, 0, 0, 0, 0, 0] := by
  decide

/-- C1 at a destination shorter than the source: with a destination of one
pixel, a source of two opaque pixels and the default region (0, -1), lines
128-129 take the larger pixel count 2, the region resolves to [0, 1], and the
loop accesses the destination at index 1, past its last pixel; with the two
buffers exchanged it is the source that is read at index 1. -/
theorem C1_blend_pixels_leaves_shorter_buffer :
    resolve_region
      (if [0].length < [0xFF000001, 0xFF000002].length then [0xFF000001, 0xFF000002].length
        else [0].length) 0 (-1) = some (0, 1) ∧
    be_animation_ntv_blend_pixels [0] [0xFF000001, 0xFF000002] 0 (-1)
      = Except.error Err.out_of_bounds ∧
    be_animation_ntv_blend_pixels [0xFF000001, 0xFF000002] [0] 0 (-1)
      = Except.error Err.out_of_bounds := by
  decide

/-- C10: for every buffer (the non-empty ones included) and the inverted region
start=3, end=1, each of fill_pixels, gradient_fill, blend_color, blend_pixels,
apply_opacity and apply_brightness returns normally with every pixel
unchanged; and the same holds for every region whose resolved end (the value
of `end_pos` at the test `end_pos < start_pos`) is smaller than its resolved
start, for blend_pixels with the pixel count it resolves the region against. -/
theorem C10_inverted_region_noop (pixels_buf src_buf : List Nat) :
    ((∀ color, be_animation_ntv_fill_pixels pixels_buf color 3 1 = Except.ok pixels_buf) ∧
      (∀ color1 color2, be_animation_ntv_gradient_fill pixels_buf color1 color2 3 1
        = Except.ok pixels_buf) ∧
      (∀ color, be_animation_ntv_blend_color pixels_buf color 3 1 = Except.ok pixels_buf) ∧
      be_animation_ntv_blend_pixels pixels_buf src_buf 3 1 = Except.ok (pixels_buf, src_buf) ∧
      (∀ opacity, be_animation_ntv_apply_opacity pixels_buf opacity 3 1
        = Except.ok pixels_buf) ∧
      (∀ brightness, be_animation_ntv_apply_brightness pixels_buf brightness 3 1
        = Except.ok pixels_buf)) ∧
    (∀ start_pos end_pos : Int,
      resolved_end pixels_buf.length end_pos < resolved_start pixels_buf.length start_pos →
      (∀ color, be_animation_ntv_fill_pixels pixels_buf color start_pos end_pos
        = Except.ok pixels_buf) ∧
      (∀ color1 color2, be_animation_ntv_gradient_fill pixels_buf color1 color2
        start_pos end_pos = Except.ok pixels_buf) ∧
      (∀ color, be_animation_ntv_blend_color pixels_buf color start_pos end_pos
        = Except.ok pixels_buf) ∧
      (∀ opacity, be_animation_ntv_apply_opacity pixels_buf opacity start_pos end_pos
        = Except.ok pixels_buf) ∧
      (∀ brightness, be_animation_ntv_apply_brightness pixels_buf brightness
        start_pos end_pos = Except.ok pixels_buf)) ∧
    (∀ region_start region_end : Int,
      resolved_end (if pixels_buf.length < src_buf.length then src_buf.length
          else pixels_buf.length) region_end
        < resolved_start (if pixels_buf.length < src_buf.length then src_buf.length
          else pixels_buf.length) region_start →
      be_animation_ntv_blend_pixels pixels_buf src_buf region_start region_end
        = Except.ok (pixels_buf, src_buf)) := by
  have h31 : ∀ width : Nat, resolve_region width 3 1 = none := fun width =>
    resolve_region_nonneg_inverted width 3 1 (by norm_num) (by norm_num)
  refine ⟨⟨fun c => fill_pixels_unresolved _ c _ _ (h31 _),
    fun c1 c2 => gradient_fill_unresolved _ c1 c2 _ _ (h31 _),
    fun c => blend_color_unresolved _ c _ _ (h31 _),
    blend_pixels_unresolved _ _ _ _ (h31 _),
    fun a => apply_opacity_unresolved _ a _ _ (h31 _),
    fun a => apply_brightness_unresolved _ a _ _ (h31 _)⟩, ?_, ?_⟩
  · intro start_pos end_pos h
    have hres := resolve_region_inverted _ _ _ h
    exact ⟨fun c => fill_pixels_unresolved _ c _ _ hres,
      fun c1 c2 => gradient_fill_unresolved _ c1 c2 _ _ hres,
      fun c => blend_color_unresolved _ c _ _ hres,
      fun a => apply_opacity_unresolved _ a _ _ hres,
      fun a => apply_brightness_unresolved _ a _ _ hres⟩
  · intro region_start region_end h
    exact blend_pixels_unresolved _ _ _ _ (resolve_region_inverted _ _ _ h)

theorem C10_inverted_region_noop_witness :
    resolved_end [1, 2, 3, 4, 5, 6].length (-5) = 1 ∧
    resolved_start [1, 2, 3, 4, 5, 6].length 4 = 4 ∧
    (∀ color, be_animation_ntv_fill_pixels [1, 2, 3, 4, 5, 6] color 3 1
      = Except.ok [1, 2, 3, 4, 5, 6]) ∧
    (∀ color, be_animation_ntv_fill_pixels [1, 2, 3, 4, 5, 6] color 4 (-5)
      = Except.ok [1, 2, 3, 4, 5, 6]) :=
  ⟨by decide, by decide, (C10_inverted_region_noop [1, 2, 3, 4, 5, 6] [7, 8]).1.1,
    ((C10_inverted_region_noop [1, 2, 3, 4, 5, 6] [7, 8]).2.1 4 (-5) (by decide)).1⟩

/-! ## Claims on the region blend -/

theorem getD_lt_of_forall (buf : List Nat) (i : Nat) (bound : Nat) (h0 : 0 < bound)
    (h : ∀ p ∈ buf, p < bound) : buf.getD i 0 < bound := by
  by_cases hi : i < buf.length
  · rw [List.getD_eq_getElem buf 0 hi]
    exact h _ (List.getElem_mem hi)
  · rw [List.getD_eq_getElem?_getD, List.getElem?_eq_none (by omega)]
    exact h0

/-- C9: for every destination and source buffer of the same pixel count (pixels
of the source being 32-bit values) and every region, `blend_pixels` returns
normally, hands the source buffer back unchanged, and leaves at each index i of
the resolved region the pixel `blend(dest[i], src[i])` of the single-pair
operation on the old destination pixel: the old pixel where the source alpha is
0, the source pixel where it is 255. -/
theorem C9_blend_pixels_is_pointwise_blend (dest_buf src_buf : List Nat)
    (region_start region_end : Int) (hlen : dest_buf.length = src_buf.length)
    (hw : dest_buf.length < 2147483648)
    (hs1 : -2147483648 ≤ region_start) (hs2 : region_start < 2147483648)
    (he1 : -2147483648 ≤ region_end) (he2 : region_end < 2147483648)
    (hsrc : ∀ p ∈ src_buf, p < 4294967296) :
    ∃ dest1, be_animation_ntv_blend_pixels dest_buf src_buf region_start region_end
        = Except.ok (dest1, src_buf) ∧
      dest1.length = dest_buf.length ∧
      ∀ s e, resolve_region dest_buf.length region_start region_end = some (s, e) →
        ∀ i : Nat, s ≤ (i : Int) → (i : Int) ≤ e →
          dest1[i]? = some (be_animation_ntv_blend (dest_buf.getD i 0) (src_buf.getD i 0)) ∧
          (pixel_alpha (src_buf.getD i 0) = 0 → dest1[i]? = dest_buf[i]?) ∧
          (pixel_alpha (src_buf.getD i 0) = 255 → dest1[i]? = src_buf[i]?) := by
  have hcount : (if dest_buf.length < src_buf.length then src_buf.length else dest_buf.length)
      = dest_buf.length := by
    rw [if_neg (by omega)]
  cases hres : resolve_region dest_buf.length region_start region_end with
  | none =>
    refine ⟨dest_buf, blend_pixels_unresolved _ _ _ _ (by rw [hcount]; exact hres), rfl, ?_⟩
    intro s e h
    exact absurd h (by simp)
  | some p =>
    obtain ⟨s, e⟩ := p
    have hb := resolve_region_bounds _ _ _ s e hw hs1 hs2 he1 he2 hres
    obtain ⟨dest1, hrun, hlen1, hpt⟩ := for_le_blend_pixels dest_buf src_buf s e hb.1
      (by omega) hb.2.2 (by omega) (by omega)
    refine ⟨dest1, ?_, hlen1, ?_⟩
    · rw [blend_pixels_resolved _ _ _ _ s e (by rw [hcount]; exact hres)]
      exact hrun
    · intro s1 e1 h i hi1 hi2
      have hse : s1 = s ∧ e1 = e := by
        simp only [Option.some.injEq, Prod.mk.injEq] at h
        exact ⟨h.1.symm, h.2.symm⟩
      obtain ⟨rfl, rfl⟩ := hse
      have hid : i < dest_buf.length := by omega
      have his : i < src_buf.length := by omega
      have h32 := getD_lt_of_forall src_buf i 4294967296 (by norm_num) hsrc
      have hval : dest1[i]?
          = some (be_animation_ntv_blend (dest_buf.getD i 0) (src_buf.getD i 0)) := by
        rw [hpt i, if_pos ⟨hi1, hi2⟩, List.getElem?_eq_getElem hid, Option.map_some',
          blend_pixels_pixel_eq_blend _ _ h32, List.getD_eq_getElem dest_buf 0 hid]
      refine ⟨hval, ?_, ?_⟩
      · intro ha
        simp only [pixel_alpha] at ha
        rw [hval, List.getElem?_eq_getElem hid, List.getD_eq_getElem dest_buf 0 hid]
        simp only [be_animation_ntv_blend, ha, if_true]
      · intro ha
        simp only [pixel_alpha] at ha
        rw [hval, blend_opaque_source _ _ h32 ha, List.getElem?_eq_getElem his,
          List.getD_eq_getElem src_buf 0 his]

theorem C9_blend_pixels_is_pointwise_blend_witness :
    ∃ dest1, be_animation_ntv_blend_pixels [0xFF102030, 0x80405060, 0x00708090]
        [0x00FFFFFF, 0x80FFFFFF, 0xFF010203] 0 (-1)
        = Except.ok (dest1, [0x00FFFFFF, 0x80FFFFFF, 0xFF010203]) ∧
      dest1.length = [0xFF102030, 0x80405060, 0x00708090].length ∧
      ∀ s e, resolve_region [0xFF102030, 0x80405060, 0x00708090].length 0 (-1) = some (s, e) →
        ∀ i : Nat, s ≤ (i : Int) → (i : Int) ≤ e →
          dest1[i]? = some (be_animation_ntv_blend
            ([0xFF102030, 0x80405060, 0x00708090].getD i 0)
            ([0x00FFFFFF, 0x80FFFFFF, 0xFF010203].getD i 0)) ∧
          (pixel_alpha ([0x00FFFFFF, 0x80FFFFFF, 0xFF010203].getD i 0) = 0 →
            dest1[i]? = [0xFF102030, 0x80405060, 0x00708090][i]?) ∧
          (pixel_alpha ([0x00FFFFFF, 0x80FFFFFF, 0xFF010203].getD i 0) = 255 →
            dest1[i]? = [0x00FFFFFF, 0x80FFFFFF, 0xFF010203][i]?) :=
  C9_blend_pixels_is_pointwise_blend [0xFF102030, 0x80405060, 0x00708090]
    [0x00FFFFFF, 0x80FFFFFF, 0xFF010203] 0 (-1) (by decide) (by decide) (by decide)
    (by decide) (by decide) (by decide) (by decide)

/-! ## What each operation leaves at every index -/

theorem getElem?_set_map (buf : List Nat) (i j : Nat) (v : Nat) :
    (buf.set i v)[j]? = if j = i then (buf[j]?).map (fun _ => v) else buf[j]? := by
  by_cases hji : j = i
  · subst hji
    rw [if_pos rfl]
    by_cases hj : j < buf.length
    · simp [hj]
    · have hle : buf.length ≤ j := Nat.le_of_not_lt hj
      rw [List.getElem?_eq_none hle, List.getElem?_eq_none (by simpa using hle)]
      rfl
  · rw [if_neg hji, List.getElem?_set_ne (Ne.symm hji)]

theorem fill_pixels_spec (pixels_buf : List Nat) (color : Nat) (start_pos end_pos s e : Int)
    (hres : resolve_region pixels_buf.length start_pos end_pos = some (s, e))
    (hs : 0 ≤ s) (hse : s ≤ e) (he : e < pixels_buf.length) :
    ∃ buf1, be_animation_ntv_fill_pixels pixels_buf color start_pos end_pos = Except.ok buf1 ∧
      buf1.length = pixels_buf.length ∧
      ∀ j : Nat, buf1[j]? =
        if s ≤ (j : Int) ∧ (j : Int) ≤ e then (pixels_buf[j]?).map (fun _ => color)
        else pixels_buf[j]? := by
  rw [fill_pixels_resolved _ _ _ _ s e hres]
  exact for_le_pointwise (fill_pixels_body color) (fun _ _ => color)
    pixels_buf s e hs (by omega) (by omega)
    (fun i b _ _ hlen => fill_pixels_body_eq color i b (by omega))

theorem blend_color_spec (pixels_buf : List Nat) (color : Nat) (start_pos end_pos s e : Int)
    (hres : resolve_region pixels_buf.length start_pos end_pos = some (s, e))
    (hs : 0 ≤ s) (hse : s ≤ e) (he : e < pixels_buf.length)
    (ha : (color >>> 24) &&& 0xFF ≠ 0) :
    ∃ buf1, be_animation_ntv_blend_color pixels_buf color start_pos end_pos = Except.ok buf1 ∧
      buf1.length = pixels_buf.length ∧
      ∀ j : Nat, buf1[j]? =
        if s ≤ (j : Int) ∧ (j : Int) ≤ e then
          (pixels_buf[j]?).map (fun c => blend_color_mix ((color >>> 24) &&& 0xFF)
            ((color >>> 16) &&& 0xFF) ((color >>> 8) &&& 0xFF) (color &&& 0xFF) c)
        else pixels_buf[j]? := by
  rw [blend_color_resolved _ _ _ _ s e hres, if_neg ha]
  exact for_le_pointwise
    (blend_color_body ((color >>> 24) &&& 0xFF) ((color >>> 16) &&& 0xFF)
      ((color >>> 8) &&& 0xFF) (color &&& 0xFF))
    (fun _ c => blend_color_mix ((color >>> 24) &&& 0xFF) ((color >>> 16) &&& 0xFF)
      ((color >>> 8) &&& 0xFF) (color &&& 0xFF) c)
    pixels_buf s e hs (by omega) (by omega)
    (fun i b _ _ hlen => blend_color_body_eq _ _ _ _ i b (by omega))

theorem apply_opacity_value_spec (pixels_buf : List Nat) (opacity : ScaleArg)
    (start_pos end_pos s e : Int)
    (hres : resolve_region pixels_buf.length start_pos end_pos = some (s, e))
    (hs : 0 ≤ s) (hse : s ≤ e) (he : e < pixels_buf.length)
    (hm : ∀ mask_buf, opacity ≠ ScaleArg.bytes mask_buf) :
    ∃ buf1, be_animation_ntv_apply_opacity pixels_buf opacity start_pos end_pos
        = Except.ok buf1 ∧ buf1.length = pixels_buf.length ∧
      ∀ j : Nat, buf1[j]? =
        if s ≤ (j : Int) ∧ (j : Int) ≤ e then
          (pixels_buf[j]?).map (fun c => apply_opacity_value_pixel (scale_value opacity) c)
        else pixels_buf[j]? := by
  rw [apply_opacity_resolved_value _ _ _ _ s e hres hm]
  exact for_le_pointwise (apply_opacity_value_body (scale_value opacity))
    (fun _ c => apply_opacity_value_pixel (scale_value opacity) c) pixels_buf s e
    hs (by omega) (by omega)
    (fun i b _ _ hlen => apply_opacity_value_body_eq _ i b (by omega))

theorem apply_opacity_mask_spec (pixels_buf mask_buf : List Nat)
    (start_pos end_pos s e : Int) (hw : pixels_buf.length < 2147483648)
    (hres : resolve_region pixels_buf.length start_pos end_pos = some (s, e))
    (hs : 0 ≤ s) (hse : s ≤ e) (he : e < pixels_buf.length) :
    ∃ buf1, be_animation_ntv_apply_opacity pixels_buf (ScaleArg.bytes mask_buf)
        start_pos end_pos = Except.ok buf1 ∧ buf1.length = pixels_buf.length ∧
      ∀ j : Nat, buf1[j]? =
        if s ≤ (j : Int) ∧ (j : Int) ≤ mask_end_pos pixels_buf.length mask_buf.length e then
          (pixels_buf[j]?).map (fun c => apply_opacity_mask_pixel c (mask_buf.getD j 0))
        else pixels_buf[j]? := by
  rw [apply_opacity_resolved_mask _ _ _ _ s e hres]
  have hme := mask_end_bounds pixels_buf.length mask_buf.length e hw he
  exact for_le_pointwise (apply_opacity_mask_body mask_buf)
    (fun i c => apply_opacity_mask_pixel c (mask_buf.getD i 0)) pixels_buf s
    (mask_end_pos pixels_buf.length mask_buf.length e) hs (by omega) (by omega)
    (fun i b _ hi hlen => apply_opacity_mask_body_eq mask_buf i b (by omega) (by omega))

theorem apply_brightness_value_spec (pixels_buf : List Nat) (brightness : ScaleArg)
    (start_pos end_pos s e : Int)
    (hres : resolve_region pixels_buf.length start_pos end_pos = some (s, e))
    (hs : 0 ≤ s) (hse : s ≤ e) (he : e < pixels_buf.length)
    (hm : ∀ mask_buf, brightness ≠ ScaleArg.bytes mask_buf) :
    ∃ buf1, be_animation_ntv_apply_brightness pixels_buf brightness start_pos end_pos
        = Except.ok buf1 ∧ buf1.length = pixels_buf.length ∧
      ∀ j : Nat, buf1[j]? =
        if s ≤ (j : Int) ∧ (j : Int) ≤ e then
          (pixels_buf[j]?).map
            (fun c => apply_brightness_value_pixel (scale_value brightness) c)
        else pixels_buf[j]? := by
  rw [apply_brightness_resolved_value _ _ _ _ s e hres hm]
  exact for_le_pointwise (apply_brightness_value_body (scale_value brightness))
    (fun _ c => apply_brightness_value_pixel (scale_value brightness) c) pixels_buf s e
    hs (by omega) (by omega)
    (fun i b _ _ hlen => apply_brightness_value_body_eq _ i b (by omega))

theorem apply_brightness_mask_spec (pixels_buf mask_buf : List Nat)
    (start_pos end_pos s e : Int) (hw : pixels_buf.length < 2147483648)
    (hres : resolve_region pixels_buf.length start_pos end_pos = some (s, e))
    (hs : 0 ≤ s) (hse : s ≤ e) (he : e < pixels_buf.length) :
    ∃ buf1, be_animation_ntv_apply_brightness pixels_buf (ScaleArg.bytes mask_buf)
        start_pos end_pos = Except.ok buf1 ∧ buf1.length = pixels_buf.length ∧
      ∀ j : Nat, buf1[j]? =
        if s ≤ (j : Int) ∧ (j : Int) ≤ mask_end_pos pixels_buf.length mask_buf.length e then
          (pixels_buf[j]?).map (fun c => apply_brightness_mask_pixel c (mask_buf.getD j 0))
        else pixels_buf[j]? := by
  rw [apply_brightness_resolved_mask _ _ _ _ s e hres]
  have hme := mask_end_bounds pixels_buf.length mask_buf.length e hw he
  exact for_le_pointwise (apply_brightness_mask_body mask_buf)
    (fun i c => apply_brightness_mask_pixel c (mask_buf.getD i 0)) pixels_buf s
    (mask_end_pos pixels_buf.length mask_buf.length e) hs (by omega) (by omega)
    (fun i b _ hi hlen => apply_brightness_mask_body_eq mask_buf i b (by omega) (by omega))

theorem getElem?_set_set (buf : List Nat) (i k j : Nat) (v w : Nat) (hne : i ≠ k) :
    ((buf.set i v).set k w)[j]? =
      if j = i then (buf[j]?).map (fun _ => v)
      else if j = k then (buf[j]?).map (fun _ => w) else buf[j]? := by
  rw [getElem?_set_map, getElem?_set_map]
  by_cases h1 : j = i
  · have h2 : ¬ j = k := by omega
    simp only [if_neg h2, if_pos h1]
  · by_cases h2 : j = k
    · simp only [if_neg h1, if_pos h2]
    · simp only [if_neg h1, if_neg h2]

theorem gradient_fill_spec (pixels_buf : List Nat) (color1 color2 : Nat)
    (start_pos end_pos s e : Int)
    (hres : resolve_region pixels_buf.length start_pos end_pos = some (s, e))
    (hs : 0 ≤ s) (hse : s ≤ e) (he : e < pixels_buf.length) :
    ∃ buf1, be_animation_ntv_gradient_fill pixels_buf color1 color2 start_pos end_pos
        = Except.ok buf1 ∧ buf1.length = pixels_buf.length ∧
      ∀ j : Nat, buf1[j]? =
        if (j : Int) = s then (pixels_buf[j]?).map (fun _ => color1)
        else if (j : Int) = e then (pixels_buf[j]?).map (fun _ => color2)
        else if s < (j : Int) ∧ (j : Int) < e then
          (pixels_buf[j]?).map (fun _ => gradient_fill_pixel ((color1 >>> 24) &&& 0xFF)
            ((color1 >>> 16) &&& 0xFF) ((color1 >>> 8) &&& 0xFF) (color1 &&& 0xFF)
            ((color2 >>> 24) &&& 0xFF) ((color2 >>> 16) &&& 0xFF) ((color2 >>> 8) &&& 0xFF)
            (color2 &&& 0xFF) s (e - s) j)
        else pixels_buf[j]? := by
  rw [gradient_fill_resolved _ _ _ _ _ s e hres hs hse he]
  by_cases h1 : s = e
  · rw [if_pos h1]
    refine ⟨_, rfl, by simp only [List.length_set], ?_⟩
    intro j
    rw [getElem?_set_map]
    by_cases hj : (j : Int) = s
    · have n1 : j = s.toNat := by omega
      simp only [if_pos hj, if_pos n1]
    · have n1 : ¬ j = s.toNat := by omega
      have n2 : ¬ (j : Int) = e := by omega
      have n3 : ¬ (s < (j : Int) ∧ (j : Int) < e) := by omega
      simp only [if_neg hj, if_neg n1, if_neg n2, if_neg n3]
  · rw [if_neg h1]
    have hne : s.toNat ≠ e.toNat := by omega
    by_cases h2 : e - s ≤ 1
    · rw [if_pos h2]
      refine ⟨_, rfl, by simp only [List.length_set], ?_⟩
      intro j
      rw [getElem?_set_set _ _ _ _ _ _ hne]
      by_cases hj : (j : Int) = s
      · have n1 : j = s.toNat := by omega
        simp only [if_pos hj, if_pos n1]
      · have n1 : ¬ j = s.toNat := by omega
        by_cases hj2 : (j : Int) = e
        · have n2 : j = e.toNat := by omega
          simp only [if_neg hj, if_neg n1, if_pos hj2, if_pos n2]
        · have n2 : ¬ j = e.toNat := by omega
          have n3 : ¬ (s < (j : Int) ∧ (j : Int) < e) := by omega
          simp only [if_neg hj, if_neg n1, if_neg hj2, if_neg n2, if_neg n3]
    · rw [if_neg h2, for_lt_eq_for_le]
      have hlen2 : ((pixels_buf.set s.toNat color1).set e.toNat color2).length
          = pixels_buf.length := by simp only [List.length_set]
      obtain ⟨buf1, h3, h4, h5⟩ := for_le_pointwise
        (gradient_fill_body ((color1 >>> 24) &&& 0xFF) ((color1 >>> 16) &&& 0xFF)
          ((color1 >>> 8) &&& 0xFF) (color1 &&& 0xFF) ((color2 >>> 24) &&& 0xFF)
          ((color2 >>> 16) &&& 0xFF) ((color2 >>> 8) &&& 0xFF) (color2 &&& 0xFF) s (e - s))
        (fun i _ => gradient_fill_pixel ((color1 >>> 24) &&& 0xFF) ((color1 >>> 16) &&& 0xFF)
          ((color1 >>> 8) &&& 0xFF) (color1 &&& 0xFF) ((color2 >>> 24) &&& 0xFF)
          ((color2 >>> 16) &&& 0xFF) ((color2 >>> 8) &&& 0xFF) (color2 &&& 0xFF) s (e - s) i)
        ((pixels_buf.set s.toNat color1).set e.toNat color2) (s + 1) (e - 1)
        (by omega) (by rw [hlen2]; omega) (by rw [hlen2]; omega)
        (fun i b _ _ hlen => gradient_fill_body_eq _ _ _ _ _ _ _ _ _ _ i b
          (by rw [hlen, hlen2]; omega))
      refine ⟨buf1, h3, by rw [h4, hlen2], ?_⟩
      intro j
      rw [h5 j, getElem?_set_set _ _ _ _ _ _ hne]
      by_cases hj : (j : Int) = s
      · have n1 : j = s.toNat := by omega
        have n0 : ¬ (s + 1 ≤ (j : Int) ∧ (j : Int) ≤ e - 1) := by omega
        simp only [if_pos hj, if_pos n1, if_neg n0]
      · have n1 : ¬ j = s.toNat := by omega
        by_cases hj2 : (j : Int) = e
        · have n2 : j = e.toNat := by omega
          have n0 : ¬ (s + 1 ≤ (j : Int) ∧ (j : Int) ≤ e - 1) := by omega
          simp only [if_neg hj, if_neg n1, if_pos hj2, if_pos n2, if_neg n0]
        · have n2 : ¬ j = e.toNat := by omega
          by_cases hj3 : s < (j : Int) ∧ (j : Int) < e
          · have n0 : s + 1 ≤ (j : Int) ∧ (j : Int) ≤ e - 1 := by omega
            simp only [if_neg hj, if_neg n1, if_neg hj2, if_neg n2, if_pos hj3, if_pos n0]
          · have n0 : ¬ (s + 1 ≤ (j : Int) ∧ (j : Int) ≤ e - 1) := by omega
            simp only [if_neg hj, if_neg n1, if_neg hj2, if_neg n2, if_neg hj3, if_neg n0]

/-! ## Claims on the solid fill -/

theorem resolve_region_negative (width : Nat) (k : Int) (hw : width < 2147483648)
    (hk1 : -(width : Int) ≤ k) (hk2 : k ≤ -1) :
    resolve_region width k k = some (width + k, width + k) := by
  unfold resolve_region to_int32
  simp only
  split_ifs <;>
    first
    | omega
    | (simp only [Option.some.injEq, Prod.mk.injEq]; constructor <;> first | trivial | omega)

theorem resolve_region_last_then_smaller (width : Nat) (e : Int) (hw : width < 2147483648)
    (he0 : 0 ≤ e) (he : e < (width : Int) - 1) :
    resolve_region width (-1) e = none := by
  unfold resolve_region to_int32
  simp only
  split_ifs <;> first | rfl | omega

theorem resolve_region_whole (width : Nat) (e : Int) (hw1 : 1 ≤ width)
    (hw : width < 2147483648) (he : e = -1 ∨ (width : Int) ≤ e) :
    resolve_region width 0 e = some (0, (width : Int) - 1) := by
  unfold resolve_region to_int32
  simp only
  rcases he with he | he
  · subst he
    split_ifs <;>
      first
      | omega
      | (simp only [Option.some.injEq, Prod.mk.injEq]; constructor <;> first | trivial | omega)
  · split_ifs <;>
      first
      | omega
      | (simp only [Option.some.injEq, Prod.mk.injEq]; constructor <;> first | trivial | omega)

/-- C11: for every buffer of w >= 1 pixels and every negative index k with
`-w <= k <= -1`, the region resolution maps k to `w + k`:
`fill_pixels(buf, c, k, k)` writes the pixel at index `w + k` and no other; and
start=-1 with a non-negative end smaller than `w - 1` resolves to the empty
region (the fill changes nothing). -/
theorem C11_negative_index_counts_from_end (pixels_buf : List Nat) (color : Nat) (k : Int)
    (hw : pixels_buf.length < 2147483648)
    (hk1 : -(pixels_buf.length : Int) ≤ k) (hk2 : k ≤ -1) :
    resolve_region pixels_buf.length k k
      = some ((pixels_buf.length : Int) + k, (pixels_buf.length : Int) + k) ∧
    be_animation_ntv_fill_pixels pixels_buf color k k
      = Except.ok (pixels_buf.set ((pixels_buf.length : Int) + k).toNat color) ∧
    (∀ e : Int, 0 ≤ e → e < (pixels_buf.length : Int) - 1 →
      resolve_region pixels_buf.length (-1) e = none ∧
      be_animation_ntv_fill_pixels pixels_buf color (-1) e = Except.ok pixels_buf) := by
  have hres := resolve_region_negative pixels_buf.length k hw hk1 hk2
  refine ⟨hres, ?_, ?_⟩
  · rw [fill_pixels_resolved _ _ _ _ _ _ hres, for_le_single]
    exact wr_in_bounds_int pixels_buf _ color (by omega) (by omega)
  · intro e he0 he
    have hnone := resolve_region_last_then_smaller pixels_buf.length e hw he0 he
    exact ⟨hnone, fill_pixels_unresolved _ _ _ _ hnone⟩

theorem C11_negative_index_counts_from_end_witness :
    resolve_region [0, 1, 2, 3, 4, 5, 6, 7, 8, 9].length (-1) (-1) = some (9, 9) ∧
    be_animation_ntv_fill_pixels [0, 1, 2, 3, 4, 5, 6, 7, 8, 9] 0xFF0000FF (-1) (-1)
      = Except.ok [0, 1, 2, 3, 4, 5, 6, 7, 8, 0xFF0000FF] ∧
    be_animation_ntv_fill_pixels [0, 1, 2, 3, 4, 5, 6, 7, 8, 9] 0xFF0000FF (-1) 4
      = Except.ok [0, 1, 2, 3, 4, 5, 6, 7, 8, 9] :=
  ⟨(C11_negative_index_counts_from_end [0, 1, 2, 3, 4, 5, 6, 7, 8, 9] 0xFF0000FF (-1)
      (by decide) (by decide) (by decide)).1,
    (C11_negative_index_counts_from_end [0, 1, 2, 3, 4, 5, 6, 7, 8, 9] 0xFF0000FF (-1)
      (by decide) (by decide) (by decide)).2.1,
    ((C11_negative_index_counts_from_end [0, 1, 2, 3, 4, 5, 6, 7, 8, 9] 0xFF0000FF (-1)
      (by decide) (by decide) (by decide)).2.2 4 (by decide) (by decide)).2⟩

theorem eq_replicate_of_getElem? (buf1 : List Nat) (n : Nat) (c : Nat)
    (h : ∀ j : Nat, buf1[j]? = if j < n then some c else none) :
    buf1 = List.replicate n c := by
  apply List.ext_getElem?
  intro j
  rw [h j, List.getElem?_replicate]

theorem fill_pixels_whole (pixels_buf : List Nat) (color : Nat) (e : Int)
    (hw1 : 1 ≤ pixels_buf.length) (hw : pixels_buf.length < 2147483648)
    (he : e = -1 ∨ (pixels_buf.length : Int) ≤ e) :
    be_animation_ntv_fill_pixels pixels_buf color 0 e
      = Except.ok (List.replicate pixels_buf.length color) := by
  have hres := resolve_region_whole pixels_buf.length e hw1 hw he
  obtain ⟨buf1, hrun, _, hpt⟩ := fill_pixels_spec pixels_buf color 0 e 0
    ((pixels_buf.length : Int) - 1) hres (le_refl 0) (by omega) (by omega)
  rw [hrun]
  congr 1
  apply eq_replicate_of_getElem?
  intro j
  rw [hpt j]
  by_cases hj : j < pixels_buf.length
  · rw [if_pos (by omega), if_pos hj, List.getElem?_eq_getElem hj]
    rfl
  · rw [if_neg (by omega), if_neg hj, List.getElem?_eq_none (by omega)]

/-- C12: for every buffer of w >= 1 pixels the default region (start=0, end=-1)
resolves to `[0, w-1]` and an end at or above w is clamped to `w-1`:
`fill_pixels(buf, c)` without region arguments, and `fill_pixels(buf, c, 0, e)`
for every `e >= w`, set every pixel of the buffer to c. -/
theorem C12_default_region_is_whole_buffer (pixels_buf : List Nat) (color : Nat)
    (hw1 : 1 ≤ pixels_buf.length) (hw : pixels_buf.length < 2147483648) :
    region_args none none = (0, -1) ∧
    resolve_region pixels_buf.length 0 (-1) = some (0, (pixels_buf.length : Int) - 1) ∧
    fill_pixels_with_args pixels_buf color none none
      = Except.ok (List.replicate pixels_buf.length color) ∧
    (∀ e : Int, (pixels_buf.length : Int) ≤ e →
      resolve_region pixels_buf.length 0 e = some (0, (pixels_buf.length : Int) - 1) ∧
      be_animation_ntv_fill_pixels pixels_buf color 0 e
        = Except.ok (List.replicate pixels_buf.length color)) := by
  refine ⟨rfl, resolve_region_whole _ _ hw1 hw (Or.inl rfl),
    fill_pixels_whole pixels_buf color (-1) hw1 hw (Or.inl rfl), ?_⟩
  intro e he
  exact ⟨resolve_region_whole _ _ hw1 hw (Or.inr he),
    fill_pixels_whole pixels_buf color e hw1 hw (Or.inr he)⟩

theorem C12_default_region_is_whole_buffer_witness :
    fill_pixels_with_args [1, 2, 3, 4] 0x80FF0000 none none
      = Except.ok [0x80FF0000, 0x80FF0000, 0x80FF0000, 0x80FF0000] ∧
    be_animation_ntv_fill_pixels [1, 2, 3, 4] 0x80FF0000 0 4
      = Except.ok [0x80FF0000, 0x80FF0000, 0x80FF0000, 0x80FF0000] :=
  ⟨(C12_default_region_is_whole_buffer [1, 2, 3, 4] 0x80FF0000 (by decide) (by decide)).2.2.1,
    ((C12_default_region_is_whole_buffer [1, 2, 3, 4] 0x80FF0000 (by decide)
      (by decide)).2.2.2 4 (by decide)).2⟩

/-- C13: for every buffer, colour and region, `fill_pixels` returns normally,
every pixel whose index lies in the resolved region then equals the colour
(whatever it was before, whatever the alpha of the colour), and the same call
on the result returns the result unchanged. -/
theorem C13_fill_pixels_overwrites_and_is_idempotent (pixels_buf : List Nat) (color : Nat)
    (start_pos end_pos : Int) (hw : pixels_buf.length < 2147483648)
    (hs1 : -2147483648 ≤ start_pos) (hs2 : start_pos < 2147483648)
    (he1 : -2147483648 ≤ end_pos) (he2 : end_pos < 2147483648) :
    ∃ buf1, be_animation_ntv_fill_pixels pixels_buf color start_pos end_pos = Except.ok buf1 ∧
      (∀ s e, resolve_region pixels_buf.length start_pos end_pos = some (s, e) →
        ∀ i : Nat, s ≤ (i : Int) → (i : Int) ≤ e → buf1[i]? = some color) ∧
      be_animation_ntv_fill_pixels buf1 color start_pos end_pos = Except.ok buf1 := by
  cases hres : resolve_region pixels_buf.length start_pos end_pos with
  | none =>
    refine ⟨pixels_buf, fill_pixels_unresolved _ _ _ _ hres, ?_,
      fill_pixels_unresolved _ _ _ _ hres⟩
    intro s e h
    exact absurd h (by simp)
  | some p =>
    obtain ⟨s, e⟩ := p
    have hb := resolve_region_bounds _ _ _ s e hw hs1 hs2 he1 he2 hres
    obtain ⟨buf1, hrun, hlen, hpt⟩ := fill_pixels_spec pixels_buf color start_pos end_pos s e
      hres hb.1 hb.2.1 hb.2.2
    have hin : ∀ i : Nat, s ≤ (i : Int) → (i : Int) ≤ e → buf1[i]? = some color := by
      intro i h1 h2
      rw [hpt i, if_pos ⟨h1, h2⟩, List.getElem?_eq_getElem (by omega)]
      rfl
    refine ⟨buf1, hrun, ?_, ?_⟩
    · intro s1 e1 h i h1 h2
      simp only [Option.some.injEq, Prod.mk.injEq] at h
      exact hin i (by omega) (by omega)
    · have hres1 : resolve_region buf1.length start_pos end_pos = some (s, e) := by
        rw [hlen]; exact hres
      obtain ⟨buf2, hrun2, _, hpt2⟩ := fill_pixels_spec buf1 color start_pos end_pos s e
        hres1 hb.1 hb.2.1 (by omega)
      rw [hrun2]
      congr 1
      apply List.ext_getElem?
      intro j
      rw [hpt2 j]
      by_cases hj : s ≤ (j : Int) ∧ (j : Int) ≤ e
      · rw [if_pos hj, hin j hj.1 hj.2]
        rfl
      · rw [if_neg hj]

theorem C13_fill_pixels_overwrites_and_is_idempotent_witness :
    ∃ buf1, be_animation_ntv_fill_pixels [1, 2, 3, 4, 5] 0x00ABCDEF 1 (-2) = Except.ok buf1 ∧
      (∀ s e, resolve_region [1, 2, 3, 4, 5].length 1 (-2) = some (s, e) →
        ∀ i : Nat, s ≤ (i : Int) → (i : Int) ≤ e → buf1[i]? = some 0x00ABCDEF) ∧
      be_animation_ntv_fill_pixels buf1 0x00ABCDEF 1 (-2) = Except.ok buf1 :=
  C13_fill_pixels_overwrites_and_is_idempotent [1, 2, 3, 4, 5] 0x00ABCDEF 1 (-2) (by decide)
    (by decide) (by decide) (by decide) (by decide)

/-! ## Pixels outside the region -/

theorem same_outside_of_none (width : Nat) (start_pos end_pos : Int) (buf : List Nat)
    (hres : resolve_region width start_pos end_pos = none) :
    same_outside_region width start_pos end_pos buf buf := by
  unfold same_outside_region
  rw [hres]
  exact ⟨rfl, rfl⟩

theorem same_outside_of_pointwise (width : Nat) (start_pos end_pos s e hi : Int)
    (buf buf1 : List Nat) (g : Nat → Option Nat)
    (hres : resolve_region width start_pos end_pos = some (s, e))
    (hlen : buf1.length = buf.length) (hhi : hi ≤ e)
    (hpt : ∀ j : Nat, buf1[j]? = if s ≤ (j : Int) ∧ (j : Int) ≤ hi then g j else buf[j]?) :
    same_outside_region width start_pos end_pos buf buf1 := by
  unfold same_outside_region
  rw [hres]
  refine ⟨hlen, ?_⟩
  intro j hj
  have hno : ¬ (s ≤ (j : Int) ∧ (j : Int) ≤ hi) := by omega
  rw [hpt j, if_neg hno]

theorem fill_pixels_frame (pixels_buf : List Nat) (color : Nat) (start_pos end_pos : Int)
    (hw : pixels_buf.length < 2147483648)
    (hs1 : -2147483648 ≤ start_pos) (hs2 : start_pos < 2147483648)
    (he1 : -2147483648 ≤ end_pos) (he2 : end_pos < 2147483648) :
    ∃ buf1, be_animation_ntv_fill_pixels pixels_buf color start_pos end_pos = Except.ok buf1 ∧
      same_outside_region pixels_buf.length start_pos end_pos pixels_buf buf1 := by
  cases hres : resolve_region pixels_buf.length start_pos end_pos with
  | none =>
    exact ⟨pixels_buf, fill_pixels_unresolved _ _ _ _ hres, same_outside_of_none _ _ _ _ hres⟩
  | some p =>
    obtain ⟨s, e⟩ := p
    have hb := resolve_region_bounds _ _ _ s e hw hs1 hs2 he1 he2 hres
    obtain ⟨buf1, hrun, hlen, hpt⟩ := fill_pixels_spec pixels_buf color start_pos end_pos s e
      hres hb.1 hb.2.1 hb.2.2
    exact ⟨buf1, hrun, same_outside_of_pointwise _ _ _ s e e _ _ _ hres hlen (le_refl e) hpt⟩

theorem gradient_fill_frame (pixels_buf : List Nat) (color1 color2 : Nat)
    (start_pos end_pos : Int) (hw : pixels_buf.length < 2147483648)
    (hs1 : -2147483648 ≤ start_pos) (hs2 : start_pos < 2147483648)
    (he1 : -2147483648 ≤ end_pos) (he2 : end_pos < 2147483648) :
    ∃ buf1, be_animation_ntv_gradient_fill pixels_buf color1 color2 start_pos end_pos
        = Except.ok buf1 ∧
      same_outside_region pixels_buf.length start_pos end_pos pixels_buf buf1 := by
  cases hres : resolve_region pixels_buf.length start_pos end_pos with
  | none =>
    exact ⟨pixels_buf, gradient_fill_unresolved _ _ _ _ _ hres,
      same_outside_of_none _ _ _ _ hres⟩
  | some p =>
    obtain ⟨s, e⟩ := p
    have hb := resolve_region_bounds _ _ _ s e hw hs1 hs2 he1 he2 hres
    obtain ⟨buf1, hrun, hlen, hpt⟩ := gradient_fill_spec pixels_buf color1 color2
      start_pos end_pos s e hres hb.1 hb.2.1 hb.2.2
    refine ⟨buf1, hrun, ?_⟩
    unfold same_outside_region
    rw [hres]
    refine ⟨hlen, ?_⟩
    intro j hj
    have n1 : ¬ (j : Int) = s := by omega
    have n2 : ¬ (j : Int) = e := by omega
    have n3 : ¬ (s < (j : Int) ∧ (j : Int) < e) := by omega
    rw [hpt j, if_neg n1, if_neg n2, if_neg n3]

theorem blend_color_frame (pixels_buf : List Nat) (color : Nat) (start_pos end_pos : Int)
    (hw : pixels_buf.length < 2147483648)
    (hs1 : -2147483648 ≤ start_pos) (hs2 : start_pos < 2147483648)
    (he1 : -2147483648 ≤ end_pos) (he2 : end_pos < 2147483648) :
    ∃ buf1, be_animation_ntv_blend_color pixels_buf color start_pos end_pos = Except.ok buf1 ∧
      same_outside_region pixels_buf.length start_pos end_pos pixels_buf buf1 := by
  cases hres : resolve_region pixels_buf.length start_pos end_pos with
  | none =>
    exact ⟨pixels_buf, blend_color_unresolved _ _ _ _ hres, same_outside_of_none _ _ _ _ hres⟩
  | some p =>
    obtain ⟨s, e⟩ := p
    have hb := resolve_region_bounds _ _ _ s e hw hs1 hs2 he1 he2 hres
    by_cases ha : (color >>> 24) &&& 0xFF = 0
    · refine ⟨pixels_buf, ?_, ?_⟩
      · rw [blend_color_resolved _ _ _ _ s e hres, if_pos ha]
      · unfold same_outside_region
        rw [hres]
        exact ⟨rfl, fun _ _ => rfl⟩
    · obtain ⟨buf1, hrun, hlen, hpt⟩ := blend_color_spec pixels_buf color start_pos end_pos
        s e hres hb.1 hb.2.1 hb.2.2 ha
      exact ⟨buf1, hrun, same_outside_of_pointwise _ _ _ s e e _ _ _ hres hlen (le_refl e) hpt⟩

theorem apply_opacity_frame (pixels_buf : List Nat) (opacity : ScaleArg)
    (start_pos end_pos : Int) (hw : pixels_buf.length < 2147483648)
    (hs1 : -2147483648 ≤ start_pos) (hs2 : start_pos < 2147483648)
    (he1 : -2147483648 ≤ end_pos) (he2 : end_pos < 2147483648) :
    ∃ buf1, be_animation_ntv_apply_opacity pixels_buf opacity start_pos end_pos
        = Except.ok buf1 ∧
      same_outside_region pixels_buf.length start_pos end_pos pixels_buf buf1 := by
  cases hres : resolve_region pixels_buf.length start_pos end_pos with
  | none =>
    exact ⟨pixels_buf, apply_opacity_unresolved _ _ _ _ hres,
      same_outside_of_none _ _ _ _ hres⟩
  | some p =>
    obtain ⟨s, e⟩ := p
    have hb := resolve_region_bounds _ _ _ s e hw hs1 hs2 he1 he2 hres
    by_cases hm : ∃ mask_buf, opacity = ScaleArg.bytes mask_buf
    · obtain ⟨mask_buf, rfl⟩ := hm
      obtain ⟨buf1, hrun, hlen, hpt⟩ := apply_opacity_mask_spec pixels_buf mask_buf
        start_pos end_pos s e hw hres hb.1 hb.2.1 hb.2.2
      exact ⟨buf1, hrun, same_outside_of_pointwise _ _ _ s e _ _ _ _ hres hlen
        (mask_end_bounds pixels_buf.length mask_buf.length e hw hb.2.2).1 hpt⟩
    · obtain ⟨buf1, hrun, hlen, hpt⟩ := apply_opacity_value_spec pixels_buf opacity
        start_pos end_pos s e hres hb.1 hb.2.1 hb.2.2 (fun m hm2 => hm ⟨m, hm2⟩)
      exact ⟨buf1, hrun, same_outside_of_pointwise _ _ _ s e e _ _ _ hres hlen (le_refl e) hpt⟩

theorem apply_brightness_frame (pixels_buf : List Nat) (brightness : ScaleArg)
    (start_pos end_pos : Int) (hw : pixels_buf.length < 2147483648)
    (hs1 : -2147483648 ≤ start_pos) (hs2 : start_pos < 2147483648)
    (he1 : -2147483648 ≤ end_pos) (he2 : end_pos < 2147483648) :
    ∃ buf1, be_animation_ntv_apply_brightness pixels_buf brightness start_pos end_pos
        = Except.ok buf1 ∧
      same_outside_region pixels_buf.length start_pos end_pos pixels_buf buf1 := by
  cases hres : resolve_region pixels_buf.length start_pos end_pos with
  | none =>
    exact ⟨pixels_buf, apply_brightness_unresolved _ _ _ _ hres,
      same_outside_of_none _ _ _ _ hres⟩
  | some p =>
    obtain ⟨s, e⟩ := p
    have hb := resolve_region_bounds _ _ _ s e hw hs1 hs2 he1 he2 hres
    by_cases hm : ∃ mask_buf, brightness = ScaleArg.bytes mask_buf
    · obtain ⟨mask_buf, rfl⟩ := hm
      obtain ⟨buf1, hrun, hlen, hpt⟩ := apply_brightness_mask_spec pixels_buf mask_buf
        start_pos end_pos s e hw hres hb.1 hb.2.1 hb.2.2
      exact ⟨buf1, hrun, same_outside_of_pointwise _ _ _ s e _ _ _ _ hres hlen
        (mask_end_bounds pixels_buf.length mask_buf.length e hw hb.2.2).1 hpt⟩
    · obtain ⟨buf1, hrun, hlen, hpt⟩ := apply_brightness_value_spec pixels_buf brightness
        start_pos end_pos s e hres hb.1 hb.2.1 hb.2.2 (fun m hm2 => hm ⟨m, hm2⟩)
      exact ⟨buf1, hrun, same_outside_of_pointwise _ _ _ s e e _ _ _ hres hlen (le_refl e) hpt⟩

theorem wr_ok_inv (buf : List Nat) (i : Int) (v : Nat) (b1 : List Nat)
    (h : wr buf i v = Except.ok b1) :
    0 ≤ i ∧ i < buf.length ∧ b1 = buf.set i.toNat v := by
  unfold wr at h
  split at h
  · rename_i hc
    simp only [Except.ok.injEq] at h
    exact ⟨hc.1, hc.2, h.symm⟩
  · exact absurd h (by simp)

theorem wr_ok_frame (buf : List Nat) (i : Int) (v : Nat) (b1 : List Nat)
    (h : wr buf i v = Except.ok b1) :
    b1.length = buf.length ∧ ∀ j : Nat, (j : Int) ≠ i → b1[j]? = buf[j]? := by
  obtain ⟨h0, _, rfl⟩ := wr_ok_inv buf i v b1 h
  refine ⟨by simp only [List.length_set], ?_⟩
  intro j hj
  rw [getElem?_set_map, if_neg (by omega)]

/-- One turn of the loop of `blend_pixels` that ends normally keeps the source,
the length of the destination, and every destination pixel but the one at its
index. -/
theorem blend_pixels_body_frame (i : Int) (d s d1 s1 : List Nat)
    (h : blend_pixels_body i (d, s) = Except.ok (d1, s1)) :
    s1 = s ∧ d1.length = d.length ∧ ∀ j : Nat, (j : Int) ≠ i → d1[j]? = d[j]? := by
  unfold blend_pixels_body at h
  simp only at h
  split at h
  · exact absurd h (by simp)
  · split at h
    · split at h
      · split at h
        · exact absurd h (by simp)
        · rename_i dest hwr
          simp only [Except.ok.injEq, Prod.mk.injEq] at h
          obtain ⟨rfl, rfl⟩ := h
          exact ⟨rfl, wr_ok_frame _ _ _ _ hwr⟩
      · split at h
        · exact absurd h (by simp)
        · split at h
          · exact absurd h (by simp)
          · rename_i dest hwr
            simp only [Except.ok.injEq, Prod.mk.injEq] at h
            obtain ⟨rfl, rfl⟩ := h
            exact ⟨rfl, wr_ok_frame _ _ _ _ hwr⟩
    · simp only [Except.ok.injEq, Prod.mk.injEq] at h
      obtain ⟨rfl, rfl⟩ := h
      exact ⟨rfl, rfl, fun _ _ => rfl⟩

theorem for_loop_blend_pixels_frame (n : Nat) :
    ∀ (lo : Int) (d s d1 s1 : List Nat),
      for_loop blend_pixels_body n lo (d, s) = Except.ok (d1, s1) →
      s1 = s ∧ d1.length = d.length ∧
        ∀ j : Nat, ((j : Int) < lo ∨ lo + n ≤ (j : Int)) → d1[j]? = d[j]? := by
  induction n with
  | zero =>
    intro lo d s d1 s1 h
    simp only [for_loop, Except.ok.injEq, Prod.mk.injEq] at h
    obtain ⟨rfl, rfl⟩ := h
    exact ⟨rfl, rfl, fun _ _ => rfl⟩
  | succ n ih =>
    intro lo d s d1 s1 h
    simp only [for_loop] at h
    cases hb : blend_pixels_body lo (d, s) with
    | error err =>
      rw [hb] at h
      exact absurd h (by simp)
    | ok st =>
      obtain ⟨d2, s2⟩ := st
      rw [hb] at h
      simp only at h
      obtain ⟨hs2, hl2, hf2⟩ := blend_pixels_body_frame lo d s d2 s2 hb
      subst hs2
      obtain ⟨hs1, hl1, hf1⟩ := ih (lo + 1) d2 s2 d1 s1 h
      refine ⟨hs1, by rw [hl1, hl2], ?_⟩
      intro j hj
      rw [hf1 j (by push_cast at hj ⊢; omega), hf2 j (by push_cast at hj; omega)]

theorem blend_pixels_frame (dest_buf src_buf : List Nat) (region_start region_end : Int)
    (d1 s1 : List Nat)
    (h : be_animation_ntv_blend_pixels dest_buf src_buf region_start region_end
      = Except.ok (d1, s1)) :
    s1 = src_buf ∧
    same_outside_region (if dest_buf.length < src_buf.length then src_buf.length
      else dest_buf.length) region_start region_end dest_buf d1 := by
  cases hres : resolve_region (if dest_buf.length < src_buf.length then src_buf.length
      else dest_buf.length) region_start region_end with
  | none =>
    rw [blend_pixels_unresolved _ _ _ _ hres] at h
    simp only [Except.ok.injEq, Prod.mk.injEq] at h
    obtain ⟨rfl, rfl⟩ := h
    exact ⟨rfl, same_outside_of_none _ _ _ _ hres⟩
  | some p =>
    obtain ⟨s, e⟩ := p
    rw [blend_pixels_resolved _ _ _ _ s e hres] at h
    unfold for_le at h
    obtain ⟨hs1, hl1, hf1⟩ := for_loop_blend_pixels_frame _ _ _ _ _ _ h
    refine ⟨hs1, ?_⟩
    unfold same_outside_region
    rw [hres]
    refine ⟨hl1, ?_⟩
    intro j hj
    exact hf1 j (by omega)

/-- C14: for every buffer and every region, each of fill_pixels, gradient_fill,
blend_color, apply_opacity and apply_brightness returns a buffer of the same
length whose pixels at the indices outside the resolved region are those of the
buffer it was given; `blend_pixels` does so with the destination, whenever it
ends without leaving a buffer (as it does for equal pixel counts), and hands
the source back as it was. -/
theorem C14_pixels_outside_region_untouched (pixels_buf src_buf : List Nat)
    (start_pos end_pos : Int) (hw : pixels_buf.length < 2147483648)
    (hs1 : -2147483648 ≤ start_pos) (hs2 : start_pos < 2147483648)
    (he1 : -2147483648 ≤ end_pos) (he2 : end_pos < 2147483648) :
    (∀ color, ∃ buf1,
      be_animation_ntv_fill_pixels pixels_buf color start_pos end_pos = Except.ok buf1 ∧
      same_outside_region pixels_buf.length start_pos end_pos pixels_buf buf1) ∧
    (∀ color1 color2, ∃ buf1,
      be_animation_ntv_gradient_fill pixels_buf color1 color2 start_pos end_pos
        = Except.ok buf1 ∧
      same_outside_region pixels_buf.length start_pos end_pos pixels_buf buf1) ∧
    (∀ color, ∃ buf1,
      be_animation_ntv_blend_color pixels_buf color start_pos end_pos = Except.ok buf1 ∧
      same_outside_region pixels_buf.length start_pos end_pos pixels_buf buf1) ∧
    (∀ opacity, ∃ buf1,
      be_animation_ntv_apply_opacity pixels_buf opacity start_pos end_pos = Except.ok buf1 ∧
      same_outside_region pixels_buf.length start_pos end_pos pixels_buf buf1) ∧
    (∀ brightness, ∃ buf1,
      be_animation_ntv_apply_brightness pixels_buf brightness start_pos end_pos
        = Except.ok buf1 ∧
      same_outside_region pixels_buf.length start_pos end_pos pixels_buf buf1) ∧
    (∀ dest1 src1,
      be_animation_ntv_blend_pixels pixels_buf src_buf start_pos end_pos
        = Except.ok (dest1, src1) →
      src1 = src_buf ∧
      same_outside_region (if pixels_buf.length < src_buf.length then src_buf.length
        else pixels_buf.length) start_pos end_pos pixels_buf dest1) ∧
    (pixels_buf.length = src_buf.length → ∃ dest1,
      be_animation_ntv_blend_pixels pixels_buf src_buf start_pos end_pos
        = Except.ok (dest1, src_buf) ∧
      same_outside_region pixels_buf.length start_pos end_pos pixels_buf dest1) := by
  refine ⟨fun c => fill_pixels_frame _ c _ _ hw hs1 hs2 he1 he2,
    fun c1 c2 => gradient_fill_frame _ c1 c2 _ _ hw hs1 hs2 he1 he2,
    fun c => blend_color_frame _ c _ _ hw hs1 hs2 he1 he2,
    fun a => apply_opacity_frame _ a _ _ hw hs1 hs2 he1 he2,
    fun a => apply_brightness_frame _ a _ _ hw hs1 hs2 he1 he2,
    fun d1 s1 h => blend_pixels_frame _ _ _ _ d1 s1 h, ?_⟩
  intro hlen
  have hcount : (if pixels_buf.length < src_buf.length then src_buf.length
      else pixels_buf.length) = pixels_buf.length := by
    rw [if_neg (by omega)]
  cases hres : resolve_region pixels_buf.length start_pos end_pos with
  | none =>
    exact ⟨pixels_buf, blend_pixels_unresolved _ _ _ _ (by rw [hcount]; exact hres),
      same_outside_of_none _ _ _ _ hres⟩
  | some p =>
    obtain ⟨s, e⟩ := p
    have hb := resolve_region_bounds _ _ _ s e hw hs1 hs2 he1 he2 hres
    obtain ⟨dest1, hrun, hlen1, hpt⟩ := for_le_blend_pixels pixels_buf src_buf s e hb.1
      (by omega) hb.2.2 (by omega) (by omega)
    refine ⟨dest1, ?_, same_outside_of_pointwise _ _ _ s e e _ _ _ hres hlen1 (le_refl e) hpt⟩
    rw [blend_pixels_resolved _ _ _ _ s e (by rw [hcount]; exact hres)]
    exact hrun

theorem C14_pixels_outside_region_untouched_witness :
    ∃ buf1, be_animation_ntv_fill_pixels [1, 2, 3, 4] 9 1 2 = Except.ok buf1 ∧
      same_outside_region [1, 2, 3, 4].length 1 2 [1, 2, 3, 4] buf1 :=
  (C14_pixels_outside_region_untouched [1, 2, 3, 4] [5, 6, 7, 8] 1 2 (by decide) (by decide)
    (by decide) (by decide) (by decide)).1 9

/-! ## Claims on the gradient fill -/

/-- C15: for every buffer, every color1, color2 and every region that resolves
to `[s, e]` with `s < e`, `gradient_fill` returns normally with `buf[s]` equal
to color1 and `buf[e]` equal to color2; when `e = s + 1` every other pixel is
as it was. -/
theorem C15_gradient_fill_endpoints (pixels_buf : List Nat) (color1 color2 : Nat)
    (start_pos end_pos s e : Int) (hw : pixels_buf.length < 2147483648)
    (hs1 : -2147483648 ≤ start_pos) (hs2 : start_pos < 2147483648)
    (he1 : -2147483648 ≤ end_pos) (he2 : end_pos < 2147483648)
    (hres : resolve_region pixels_buf.length start_pos end_pos = some (s, e))
    (hlt : s < e) :
    ∃ buf1, be_animation_ntv_gradient_fill pixels_buf color1 color2 start_pos end_pos
        = Except.ok buf1 ∧
      buf1[s.toNat]? = some color1 ∧ buf1[e.toNat]? = some color2 ∧
      (e = s + 1 → ∀ j : Nat, j ≠ s.toNat → j ≠ e.toNat → buf1[j]? = pixels_buf[j]?) := by
  have hb := resolve_region_bounds _ _ _ s e hw hs1 hs2 he1 he2 hres
  obtain ⟨buf1, hrun, _, hpt⟩ := gradient_fill_spec pixels_buf color1 color2
    start_pos end_pos s e hres hb.1 hb.2.1 hb.2.2
  refine ⟨buf1, hrun, ?_, ?_, ?_⟩
  · have h1 : ((s.toNat : Nat) : Int) = s := Int.toNat_of_nonneg hb.1
    rw [hpt s.toNat, if_pos h1, List.getElem?_eq_getElem (by omega)]
    rfl
  · have h1 : ¬ ((e.toNat : Nat) : Int) = s := by omega
    have h2 : ((e.toNat : Nat) : Int) = e := by omega
    rw [hpt e.toNat, if_neg h1, if_pos h2, List.getElem?_eq_getElem (by omega)]
    rfl
  · intro hse j hj1 hj2
    have h1 : ¬ (j : Int) = s := by omega
    have h2 : ¬ (j : Int) = e := by omega
    have h3 : ¬ (s < (j : Int) ∧ (j : Int) < e) := by omega
    rw [hpt j, if_neg h1, if_neg h2, if_neg h3]

theorem C15_gradient_fill_endpoints_witness :
    ∃ buf1, be_animation_ntv_gradient_fill [1, 2, 3, 4, 5] 0xFF000000 0x00FFFFFF 1 2
        = Except.ok buf1 ∧
      buf1[(1 : Int).toNat]? = some 0xFF000000 ∧ buf1[(2 : Int).toNat]? = some 0x00FFFFFF ∧
      ((2 : Int) = 1 + 1 → ∀ j : Nat, j ≠ (1 : Int).toNat → j ≠ (2 : Int).toNat →
        buf1[j]? = [1, 2, 3, 4, 5][j]?) :=
  C15_gradient_fill_endpoints [1, 2, 3, 4, 5] 0xFF000000 0x00FFFFFF 1 2 1 2 (by decide)
    (by decide) (by decide) (by decide) (by decide) (by decide) (by decide)

/-- C16: for every buffer and every region that resolves to a single index s,
`gradient_fill(buf, color1, color2, ...)` returns the buffer with `buf[s]` set
to color1 and every other pixel as it was, and the result is the same for
every color2. -/
theorem C16_gradient_fill_single_pixel (pixels_buf : List Nat) (color1 color2 : Nat)
    (start_pos end_pos s : Int) (hw : pixels_buf.length < 2147483648)
    (hs1 : -2147483648 ≤ start_pos) (hs2 : start_pos < 2147483648)
    (he1 : -2147483648 ≤ end_pos) (he2 : end_pos < 2147483648)
    (hres : resolve_region pixels_buf.length start_pos end_pos = some (s, s)) :
    be_animation_ntv_gradient_fill pixels_buf color1 color2 start_pos end_pos
      = Except.ok (pixels_buf.set s.toNat color1) ∧
    (pixels_buf.set s.toNat color1)[s.toNat]? = some color1 ∧
    (∀ j : Nat, j ≠ s.toNat → (pixels_buf.set s.toNat color1)[j]? = pixels_buf[j]?) ∧
    (∀ other : Nat,
      be_animation_ntv_gradient_fill pixels_buf color1 other start_pos end_pos
        = be_animation_ntv_gradient_fill pixels_buf color1 color2 start_pos end_pos) := by
  have hb := resolve_region_bounds _ _ _ s s hw hs1 hs2 he1 he2 hres
  have hrun : ∀ c2 : Nat,
      be_animation_ntv_gradient_fill pixels_buf color1 c2 start_pos end_pos
        = Except.ok (pixels_buf.set s.toNat color1) := by
    intro c2
    rw [gradient_fill_resolved _ _ _ _ _ s s hres hb.1 hb.2.1 hb.2.2, if_pos rfl]
  refine ⟨hrun color2, ?_, ?_, ?_⟩
  · rw [getElem?_set_map, if_pos rfl, List.getElem?_eq_getElem (by omega)]
    rfl
  · intro j hj
    rw [getElem?_set_map, if_neg hj]
  · intro other
    rw [hrun other, hrun color2]

theorem C16_gradient_fill_single_pixel_witness :
    be_animation_ntv_gradient_fill [1, 2, 3, 4, 5] 0xFF000000 0x00FFFFFF (-2) 3
      = Except.ok ([1, 2, 3, 4, 5].set (3 : Int).toNat 0xFF000000) ∧
    (∀ other : Nat,
      be_animation_ntv_gradient_fill [1, 2, 3, 4, 5] 0xFF000000 other (-2) 3
        = be_animation_ntv_gradient_fill [1, 2, 3, 4, 5] 0xFF000000 0x00FFFFFF (-2) 3) :=
  ⟨(C16_gradient_fill_single_pixel [1, 2, 3, 4, 5] 0xFF000000 0x00FFFFFF (-2) 3 3 (by decide)
      (by decide) (by decide) (by decide) (by decide) (by decide)).1,
    (C16_gradient_fill_single_pixel [1, 2, 3, 4, 5] 0xFF000000 0x00FFFFFF (-2) 3 3 (by decide)
      (by decide) (by decide) (by decide) (by decide) (by decide)).2.2.2⟩

/-! ## Claims on the blend with a solid colour -/

/-- The pixel `blend_color` writes is the one `blend` returns for the old pixel
and the solid colour, when the alpha of the colour is not 0. -/
theorem blend_color_mix_eq_blend (color1 color : Nat) (ha : (color >>> 24) &&& 0xFF ≠ 0) :
    blend_color_mix ((color >>> 24) &&& 0xFF) ((color >>> 16) &&& 0xFF)
      ((color >>> 8) &&& 0xFF) (color &&& 0xFF) color1
      = be_animation_ntv_blend color1 color := by
  simp only [blend_color_mix, be_animation_ntv_blend, if_neg ha]

/-- C18: for every buffer, colour and region: if the alpha of the colour is 0,
`blend_color` returns the buffer unchanged; otherwise it returns normally and
every pixel at an index i of the resolved region is `blend(old buf[i], color)`,
the single-pair blend with the old pixel as color1 and the solid colour as
color2. -/
theorem C18_blend_color_is_pointwise_blend (pixels_buf : List Nat) (color : Nat)
    (start_pos end_pos : Int) (hw : pixels_buf.length < 2147483648)
    (hs1 : -2147483648 ≤ start_pos) (hs2 : start_pos < 2147483648)
    (he1 : -2147483648 ≤ end_pos) (he2 : end_pos < 2147483648) :
    (pixel_alpha color = 0 →
      be_animation_ntv_blend_color pixels_buf color start_pos end_pos
        = Except.ok pixels_buf) ∧
    (pixel_alpha color ≠ 0 →
      ∃ buf1, be_animation_ntv_blend_color pixels_buf color start_pos end_pos
          = Except.ok buf1 ∧ buf1.length = pixels_buf.length ∧
        ∀ s e, resolve_region pixels_buf.length start_pos end_pos = some (s, e) →
          ∀ i : Nat, s ≤ (i : Int) → (i : Int) ≤ e →
            buf1[i]? = some (be_animation_ntv_blend (pixels_buf.getD i 0) color)) := by
  constructor
  · intro ha
    simp only [pixel_alpha] at ha
    cases hres : resolve_region pixels_buf.length start_pos end_pos with
    | none => exact blend_color_unresolved _ _ _ _ hres
    | some p =>
      obtain ⟨s, e⟩ := p
      rw [blend_color_resolved _ _ _ _ s e hres, if_pos ha]
  · intro ha
    simp only [pixel_alpha] at ha
    cases hres : resolve_region pixels_buf.length start_pos end_pos with
    | none =>
      refine ⟨pixels_buf, blend_color_unresolved _ _ _ _ hres, rfl, ?_⟩
      intro s e h
      exact absurd h (by simp)
    | some p =>
      obtain ⟨s, e⟩ := p
      have hb := resolve_region_bounds _ _ _ s e hw hs1 hs2 he1 he2 hres
      obtain ⟨buf1, hrun, hlen, hpt⟩ := blend_color_spec pixels_buf color start_pos end_pos
        s e hres hb.1 hb.2.1 hb.2.2 ha
      refine ⟨buf1, hrun, hlen, ?_⟩
      intro s1 e1 h i h1 h2
      simp only [Option.some.injEq, Prod.mk.injEq] at h
      have hi : i < pixels_buf.length := by omega
      rw [hpt i, if_pos (by omega), List.getElem?_eq_getElem hi, Option.map_some',
        blend_color_mix_eq_blend _ _ ha, List.getD_eq_getElem pixels_buf 0 hi]

theorem C18_blend_color_is_pointwise_blend_witness :
    be_animation_ntv_blend_color [0xFF102030, 0x80405060] 0x00FFFFFF 0 (-1)
      = Except.ok [0xFF102030, 0x80405060] ∧
    ∃ buf1, be_animation_ntv_blend_color [0xFF102030, 0x80405060] 0x80FFFFFF 0 (-1)
        = Except.ok buf1 ∧ buf1.length = [0xFF102030, 0x80405060].length ∧
      ∀ s e, resolve_region [0xFF102030, 0x80405060].length 0 (-1) = some (s, e) →
        ∀ i : Nat, s ≤ (i : Int) → (i : Int) ≤ e →
          buf1[i]? = some (be_animation_ntv_blend ([0xFF102030, 0x80405060].getD i 0)
            0x80FFFFFF) :=
  ⟨(C18_blend_color_is_pointwise_blend [0xFF102030, 0x80405060] 0x00FFFFFF 0 (-1) (by decide)
      (by decide) (by decide) (by decide) (by decide)).1 (by decide),
    (C18_blend_color_is_pointwise_blend [0xFF102030, 0x80405060] 0x80FFFFFF 0 (-1) (by decide)
      (by decide) (by decide) (by decide) (by decide)).2 (by decide)⟩

/-- The four channels of a pixel packed from four byte values. -/
theorem channels_of_pack (a r g b : Nat) (ha : a < 256) (hr : r < 256) (hg : g < 256)
    (hb : b < 256) :
    pixel_alpha (to_uint32 ((a <<< 24) ||| (r <<< 16) ||| (g <<< 8) ||| b)) = a ∧
    pixel_red (to_uint32 ((a <<< 24) ||| (r <<< 16) ||| (g <<< 8) ||| b)) = r ∧
    pixel_green (to_uint32 ((a <<< 24) ||| (r <<< 16) ||| (g <<< 8) ||| b)) = g ∧
    pixel_blue (to_uint32 ((a <<< 24) ||| (r <<< 16) ||| (g <<< 8) ||| b)) = b := by
  rw [pack_eq a r g b hr hg hb]
  simp only [pixel_alpha, pixel_red, pixel_green, pixel_blue, to_uint32, and_ff_eq,
    Nat.shiftRight_eq_div_pow]
  refine ⟨by omega, by omega, by omega, by omega⟩

/-- The truncated quotient of the remap stays between 0 and the signed distance
of the two ends of the destination range. -/
theorem tdiv_interp_bounds (pos steps c1 c2 : Nat) (hpos : pos ≤ steps) :
    (c1 ≤ c2 → 0 ≤ Int.tdiv ((pos : Int) * ((c2 : Int) - (c1 : Int))) (steps : Int) ∧
      Int.tdiv ((pos : Int) * ((c2 : Int) - (c1 : Int))) (steps : Int) ≤ (c2 : Int) - c1) ∧
    (c2 < c1 → (c2 : Int) - c1 ≤ Int.tdiv ((pos : Int) * ((c2 : Int) - (c1 : Int))) (steps : Int) ∧
      Int.tdiv ((pos : Int) * ((c2 : Int) - (c1 : Int))) (steps : Int) ≤ 0) := by
  have hdiv : ∀ d : Nat, pos * d / steps ≤ d := fun d =>
    Nat.div_le_of_le_mul (Nat.mul_le_mul_right d hpos)
  constructor
  · intro h
    have e1 : (pos : Int) * ((c2 : Int) - (c1 : Int)) = ((pos * (c2 - c1) : Nat) : Int) := by
      rw [Nat.cast_mul, Nat.cast_sub h]
    rw [e1, ← Int.ofNat_tdiv]
    have hq := hdiv (c2 - c1)
    generalize pos * (c2 - c1) / steps = q at hq ⊢
    omega
  · intro h
    have e1 : (pos : Int) * ((c2 : Int) - (c1 : Int)) = -((pos * (c1 - c2) : Nat) : Int) := by
      rw [Nat.cast_mul, Nat.cast_sub (Nat.le_of_lt h)]
      ring
    rw [e1, Int.neg_tdiv, ← Int.ofNat_tdiv]
    have hq := hdiv (c1 - c2)
    generalize pos * (c1 - c2) / steps = q at hq ⊢
    omega

/-- Inside the source range, with byte ends and a step count that fits 16 bits,
`changeUIntScale` is the remap of the specification and gives a byte. -/
theorem changeUIntScale_interp (pos steps c1 c2 : Nat) (hpos : pos ≤ steps)
    (hsteps : steps < 65536) (hc1 : c1 < 256) (hc2 : c2 < 256) :
    (changeUIntScale pos 0 steps c1 c2 : Int) = remap pos 0 steps c1 c2 ∧
    changeUIntScale pos 0 steps c1 c2 < 256 := by
  have hb := tdiv_interp_bounds pos steps c1 c2 hpos
  unfold changeUIntScale remap to_uint16 int_to_uint16
  simp only [Nat.zero_mod, Nat.cast_zero, sub_zero, Nat.mod_eq_of_lt hsteps,
    Nat.mod_eq_of_lt (show pos < 65536 by omega), Nat.mod_eq_of_lt (show c1 < 65536 by omega),
    Nat.mod_eq_of_lt (show c2 < 65536 by omega)]
  generalize Int.tdiv ((pos : Int) * ((c2 : Int) - (c1 : Int))) (steps : Int) = t at hb ⊢
  by_cases h : c1 ≤ c2
  · have := hb.1 h
    omega
  · have := hb.2 (by omega)
    omega

theorem int_to_uint16_of_range (x : Int) (h0 : 0 ≤ x) (h1 : x < 65536) :
    int_to_uint16 x = x.toNat := by
  unfold int_to_uint16
  omega

/-- One channel of an intermediate pixel of the gradient. -/
theorem gradient_channel (s e i : Int) (c1 c2 : Nat) (h1 : s < i) (h2 : i < e)
    (h3 : e - s < 65536) (hc1 : c1 < 256) (hc2 : c2 < 256) :
    (to_uint8 (changeUIntScale (int_to_uint16 (i - s)) 0 (int_to_uint16 (e - s)) c1 c2) : Int)
      = remap (i - s) 0 (e - s) c1 c2 ∧
    to_uint8 (changeUIntScale (int_to_uint16 (i - s)) 0 (int_to_uint16 (e - s)) c1 c2) < 256 := by
  rw [int_to_uint16_of_range (i - s) (by omega) (by omega),
    int_to_uint16_of_range (e - s) (by omega) (by omega)]
  obtain ⟨hv, hlt⟩ := changeUIntScale_interp (i - s).toNat (e - s).toNat c1 c2 (by omega)
    (by omega) hc1 hc2
  have e1 : (((i - s).toNat : Nat) : Int) = i - s := Int.toNat_of_nonneg (by omega)
  have e2 : (((e - s).toNat : Nat) : Int) = e - s := Int.toNat_of_nonneg (by omega)
  rw [e1, e2] at hv
  unfold to_uint8
  rw [Nat.mod_eq_of_lt hlt]
  exact ⟨hv, hlt⟩

/-- The four channels of an intermediate pixel of the gradient, for a step
count that fits 16 bits. -/
theorem gradient_fill_pixel_channels (a1 r1 g1 b1 a2 r2 g2 b2 : Nat) (s e i : Int)
    (ha1 : a1 < 256) (hr1 : r1 < 256) (hg1 : g1 < 256) (hb1 : b1 < 256)
    (ha2 : a2 < 256) (hr2 : r2 < 256) (hg2 : g2 < 256) (hb2 : b2 < 256)
    (h1 : s < i) (h2 : i < e) (h3 : e - s < 65536) :
    (pixel_alpha (gradient_fill_pixel a1 r1 g1 b1 a2 r2 g2 b2 s (e - s) i) : Int)
      = remap (i - s) 0 (e - s) a1 a2 ∧
    (pixel_red (gradient_fill_pixel a1 r1 g1 b1 a2 r2 g2 b2 s (e - s) i) : Int)
      = remap (i - s) 0 (e - s) r1 r2 ∧
    (pixel_green (gradient_fill_pixel a1 r1 g1 b1 a2 r2 g2 b2 s (e - s) i) : Int)
      = remap (i - s) 0 (e - s) g1 g2 ∧
    (pixel_blue (gradient_fill_pixel a1 r1 g1 b1 a2 r2 g2 b2 s (e - s) i) : Int)
      = remap (i - s) 0 (e - s) b1 b2 := by
  obtain ⟨hA, hAlt⟩ := gradient_channel s e i a1 a2 h1 h2 h3 ha1 ha2
  obtain ⟨hR, hRlt⟩ := gradient_channel s e i r1 r2 h1 h2 h3 hr1 hr2
  obtain ⟨hG, hGlt⟩ := gradient_channel s e i g1 g2 h1 h2 h3 hg1 hg2
  obtain ⟨hB, hBlt⟩ := gradient_channel s e i b1 b2 h1 h2 h3 hb1 hb2
  obtain ⟨pA, pR, pG, pB⟩ := channels_of_pack _ _ _ _ hAlt hRlt hGlt hBlt
  unfold gradient_fill_pixel
  simp only
  rw [pA, pR, pG, pB]
  exact ⟨hA, hR, hG, hB⟩

/-- C17, as the code has it: for every region resolving to `[s, e]` with
`2 <= e - s <= 65535` (position and step count fit the 16-bit parameters of
the remap) and every index i with `s < i < e`, `gradient_fill` returns normally
and each of the four channels of `buf[i]` equals
`remap(i - s, 0, e - s, channel of color1, channel of color2)`, whichever of
the two channels is the larger. -/
theorem C17_gradient_fill_interpolates (pixels_buf : List Nat) (color1 color2 : Nat)
    (start_pos end_pos s e : Int) (i : Nat) (hw : pixels_buf.length < 2147483648)
    (hs1 : -2147483648 ≤ start_pos) (hs2 : start_pos < 2147483648)
    (he1 : -2147483648 ≤ end_pos) (he2 : end_pos < 2147483648)
    (hres : resolve_region pixels_buf.length start_pos end_pos = some (s, e))
    (h2 : 2 ≤ e - s) (h16 : e - s ≤ 65535) (hi1 : s < (i : Int)) (hi2 : (i : Int) < e) :
    ∃ buf1 p, be_animation_ntv_gradient_fill pixels_buf color1 color2 start_pos end_pos
        = Except.ok buf1 ∧ buf1[i]? = some p ∧
      (pixel_alpha p : Int)
        = remap ((i : Int) - s) 0 (e - s) (pixel_alpha color1) (pixel_alpha color2) ∧
      (pixel_red p : Int)
        = remap ((i : Int) - s) 0 (e - s) (pixel_red color1) (pixel_red color2) ∧
      (pixel_green p : Int)
        = remap ((i : Int) - s) 0 (e - s) (pixel_green color1) (pixel_green color2) ∧
      (pixel_blue p : Int)
        = remap ((i : Int) - s) 0 (e - s) (pixel_blue color1) (pixel_blue color2) := by
  have hb := resolve_region_bounds _ _ _ s e hw hs1 hs2 he1 he2 hres
  obtain ⟨buf1, hrun, _, hpt⟩ := gradient_fill_spec pixels_buf color1 color2
    start_pos end_pos s e hres hb.1 hb.2.1 hb.2.2
  have n1 : ¬ (i : Int) = s := by omega
  have n2 : ¬ (i : Int) = e := by omega
  have hold : pixels_buf[i]? = some pixels_buf[i] := List.getElem?_eq_getElem (by omega)
  have hval := hpt i
  rw [if_neg n1, if_neg n2, if_pos ⟨hi1, hi2⟩, hold, Option.map_some'] at hval
  have hbyte : ∀ c k : Nat, (c >>> k) &&& 0xFF < 256 := by
    intro c k
    rw [and_ff_eq]
    omega
  have hbyte0 : ∀ c : Nat, c &&& 0xFF < 256 := by
    intro c
    rw [and_ff_eq]
    omega
  exact ⟨buf1, _, hrun, hval, gradient_fill_pixel_channels _ _ _ _ _ _ _ _ s e i
    (hbyte _ _) (hbyte _ _) (hbyte _ _) (hbyte0 _) (hbyte _ _) (hbyte _ _) (hbyte _ _)
    (hbyte0 _) hi1 hi2 (by omega)⟩

theorem C17_gradient_fill_interpolates_witness :
    ∃ buf1 p, be_animation_ntv_gradient_fill [0, 0, 0, 0, 0] 0xFF00FF00 0x00FF00FF 0 (-1)
        = Except.ok buf1 ∧ buf1[1]? = some p ∧
      (pixel_alpha p : Int)
        = remap (((1 : Nat) : Int) - 0) 0 (4 - 0) (pixel_alpha 0xFF00FF00)
          (pixel_alpha 0x00FF00FF) ∧
      (pixel_red p : Int)
        = remap (((1 : Nat) : Int) - 0) 0 (4 - 0) (pixel_red 0xFF00FF00)
          (pixel_red 0x00FF00FF) ∧
      (pixel_green p : Int)
        = remap (((1 : Nat) : Int) - 0) 0 (4 - 0) (pixel_green 0xFF00FF00)
          (pixel_green 0x00FF00FF) ∧
      (pixel_blue p : Int)
        = remap (((1 : Nat) : Int) - 0) 0 (4 - 0) (pixel_blue 0xFF00FF00)
          (pixel_blue 0x00FF00FF) :=
  C17_gradient_fill_interpolates [0, 0, 0, 0, 0] 0xFF00FF00 0x00FF00FF 0 (-1) 0 4 1 (by decide)
    (by decide) (by decide) (by decide) (by decide) (by decide) (by decide) (by decide)
    (by decide) (by decide)

/-- Counterexample to C17 as stated: on a buffer of 65538 pixels with the
default region (s = 0, e = 65537) the step count 65537 reaches the 16-bit
parameter of the remap as 1, and `gradient_fill(buf, 0x00000000, 0xFFFFFFFF)`
leaves `0xFFFFFFFF` at index 1 (every channel 255), whereas
`remap(1, 0, 65537, 0, 255)` is 0. -/
theorem C17_step_count_beyond_16_bits :
    ∃ buf1, be_animation_ntv_gradient_fill (List.replicate 65538 0) 0 0xFFFFFFFF 0 (-1)
        = Except.ok buf1 ∧
      resolve_region (List.replicate 65538 0).length 0 (-1) = some (0, 65537) ∧
      buf1[1]? = some 0xFFFFFFFF ∧
      (pixel_red 0xFFFFFFFF : Int) = 255 ∧
      remap (1 - 0) 0 (65537 - 0) (pixel_red 0) (pixel_red 0xFFFFFFFF) = 0 := by
  have hlen : (List.replicate 65538 (0 : Nat)).length = 65538 := List.length_replicate _ _
  have hres0 : resolve_region 65538 0 (-1) = some (0, 65537) := by decide
  have hres : resolve_region (List.replicate 65538 (0 : Nat)).length 0 (-1)
      = some (0, 65537) := by
    rw [hlen]
    exact hres0
  obtain ⟨buf1, hrun, _, hpt⟩ := gradient_fill_spec (List.replicate 65538 0) 0 0xFFFFFFFF
    0 (-1) 0 65537 hres (by norm_num) (by norm_num) (by rw [hlen]; norm_num)
  have hval := hpt 1
  have c1 : ¬ (((1 : Nat) : Int) = 0) := by norm_num
  have c2 : ¬ (((1 : Nat) : Int) = 65537) := by norm_num
  have c3 : (0 : Int) < ((1 : Nat) : Int) ∧ ((1 : Nat) : Int) < 65537 := by norm_num
  have hold : (List.replicate 65538 (0 : Nat))[1]? = some 0 := by
    rw [List.getElem?_replicate, if_pos (by norm_num)]
  have hpix : gradient_fill_pixel ((0 >>> 24) &&& 0xFF) ((0 >>> 16) &&& 0xFF)
      ((0 >>> 8) &&& 0xFF) (0 &&& 0xFF) ((0xFFFFFFFF >>> 24) &&& 0xFF)
      ((0xFFFFFFFF >>> 16) &&& 0xFF) ((0xFFFFFFFF >>> 8) &&& 0xFF) (0xFFFFFFFF &&& 0xFF)
      0 (65537 - 0) ((1 : Nat) : Int) = 0xFFFFFFFF := by decide
  rw [if_neg c1, if_neg c2, if_pos c3, hold, Option.map_some', hpix] at hval
  exact ⟨buf1, hrun, hres, hval, by decide, by decide⟩

/-! ## Claims on the scalar opacity and brightness -/

theorem unpack_pack (color : Nat) (h32 : color < 4294967296) :
    to_uint32 ((((color >>> 24) &&& 0xFF) <<< 24) ||| (((color >>> 16) &&& 0xFF) <<< 16)
      ||| (((color >>> 8) &&& 0xFF) <<< 8) ||| (color &&& 0xFF)) = color := by
  have hb : ∀ c : Nat, c &&& 0xFF < 256 := by
    intro c
    rw [and_ff_eq]
    omega
  rw [pack_eq _ _ _ _ (hb _) (hb _) (hb _)]
  simp only [and_ff_eq, Nat.shiftRight_eq_div_pow, to_uint32]
  omega

theorem changeUIntScale_full_left (a : Nat) (ha : a < 256) :
    changeUIntScale 255 0 255 0 a = a := by
  rw [changeUIntScale_zero_based 255 255 a (by norm_num) (by norm_num) (by omega)
    (by rw [Nat.mul_div_cancel_left a (by norm_num)]; omega)]
  exact Nat.mul_div_cancel_left a (by norm_num)

theorem changeUIntScale_full_right (c : Nat) (hc : c < 256) :
    changeUIntScale c 0 255 0 255 = c := by
  rw [changeUIntScale_zero_based c 255 255 (by omega) (by norm_num) (by norm_num)
    (by rw [Nat.mul_div_cancel c (by norm_num)]; omega)]
  exact Nat.mul_div_cancel c (by norm_num)

theorem changeUIntScale_to_zero (c : Nat) (hc : c < 256) :
    changeUIntScale c 0 255 0 0 = 0 := by
  rw [changeUIntScale_zero_based c 255 0 (by omega) (by norm_num) (by norm_num)
    (by rw [Nat.mul_zero, Nat.zero_div]; norm_num)]
  rw [Nat.mul_zero, Nat.zero_div]

theorem scale_value_255 : scale_value (ScaleArg.int 255) = 255 := by decide

theorem scale_value_0 : scale_value (ScaleArg.int 0) = 0 := by decide

theorem int_to_uint16_255 : int_to_uint16 255 = 255 := by decide

theorem int_to_uint16_0 : int_to_uint16 0 = 0 := by decide

theorem byte_lt (c : Nat) : c &&& 0xFF < 256 := by
  rw [and_ff_eq]
  omega

/-- The scalar 255 leaves a 32-bit pixel as it is, under `apply_opacity`. -/
theorem apply_opacity_value_pixel_255 (color : Nat) (h32 : color < 4294967296) :
    apply_opacity_value_pixel 255 color = color := by
  unfold apply_opacity_value_pixel
  simp only [le_refl, if_true, int_to_uint16_255]
  rw [changeUIntScale_full_left _ (byte_lt _)]
  exact unpack_pack color h32

/-- The scalar 255 leaves a 32-bit pixel as it is, under `apply_brightness`. -/
theorem apply_brightness_value_pixel_255 (color : Nat) (h32 : color < 4294967296) :
    apply_brightness_value_pixel 255 color = color := by
  unfold apply_brightness_value_pixel brightness_channel
  simp only [le_refl, if_true, int_to_uint16_255]
  rw [changeUIntScale_full_right _ (byte_lt _), changeUIntScale_full_right _ (byte_lt _),
    changeUIntScale_full_right _ (byte_lt _)]
  exact unpack_pack color h32

/-- A buffer rewritten pixel by pixel with a function that fixes its pixels is
the same buffer. -/
theorem eq_of_pointwise_fixed (buf buf1 : List Nat) (cond : Nat → Prop)
    [DecidablePred cond] (f : Nat → Nat) (hf : ∀ p ∈ buf, f p = p)
    (hpt : ∀ j : Nat, buf1[j]? = if cond j then (buf[j]?).map f else buf[j]?) :
    buf1 = buf := by
  apply List.ext_getElem?
  intro j
  rw [hpt j]
  by_cases hc : cond j
  · rw [if_pos hc]
    by_cases hj : j < buf.length
    · rw [List.getElem?_eq_getElem hj, Option.map_some', hf _ (List.getElem_mem hj)]
    · rw [List.getElem?_eq_none (by omega)]
      rfl
  · rw [if_neg hc]

theorem apply_opacity_255 (pixels_buf : List Nat) (start_pos end_pos : Int)
    (hw : pixels_buf.length < 2147483648)
    (hs1 : -2147483648 ≤ start_pos) (hs2 : start_pos < 2147483648)
    (he1 : -2147483648 ≤ end_pos) (he2 : end_pos < 2147483648)
    (h32 : ∀ p ∈ pixels_buf, p < 4294967296) :
    be_animation_ntv_apply_opacity pixels_buf (ScaleArg.int 255) start_pos end_pos
      = Except.ok pixels_buf := by
  cases hres : resolve_region pixels_buf.length start_pos end_pos with
  | none => exact apply_opacity_unresolved _ _ _ _ hres
  | some p =>
    obtain ⟨s, e⟩ := p
    have hb := resolve_region_bounds _ _ _ s e hw hs1 hs2 he1 he2 hres
    obtain ⟨buf1, hrun, _, hpt⟩ := apply_opacity_value_spec pixels_buf (ScaleArg.int 255)
      start_pos end_pos s e hres hb.1 hb.2.1 hb.2.2 (fun m hm => by cases hm)
    rw [hrun]
    congr 1
    rw [scale_value_255] at hpt
    exact eq_of_pointwise_fixed pixels_buf buf1 (fun j => s ≤ (j : Int) ∧ (j : Int) ≤ e)
      (fun c => apply_opacity_value_pixel 255 c)
      (fun p hp => apply_opacity_value_pixel_255 p (h32 p hp)) hpt

theorem apply_brightness_255 (pixels_buf : List Nat) (start_pos end_pos : Int)
    (hw : pixels_buf.length < 2147483648)
    (hs1 : -2147483648 ≤ start_pos) (hs2 : start_pos < 2147483648)
    (he1 : -2147483648 ≤ end_pos) (he2 : end_pos < 2147483648)
    (h32 : ∀ p ∈ pixels_buf, p < 4294967296) :
    be_animation_ntv_apply_brightness pixels_buf (ScaleArg.int 255) start_pos end_pos
      = Except.ok pixels_buf := by
  cases hres : resolve_region pixels_buf.length start_pos end_pos with
  | none => exact apply_brightness_unresolved _ _ _ _ hres
  | some p =>
    obtain ⟨s, e⟩ := p
    have hb := resolve_region_bounds _ _ _ s e hw hs1 hs2 he1 he2 hres
    obtain ⟨buf1, hrun, _, hpt⟩ := apply_brightness_value_spec pixels_buf (ScaleArg.int 255)
      start_pos end_pos s e hres hb.1 hb.2.1 hb.2.2 (fun m hm => by cases hm)
    rw [hrun]
    congr 1
    rw [scale_value_255] at hpt
    exact eq_of_pointwise_fixed pixels_buf buf1 (fun j => s ≤ (j : Int) ∧ (j : Int) ≤ e)
      (fun c => apply_brightness_value_pixel 255 c)
      (fun p hp => apply_brightness_value_pixel_255 p (h32 p hp)) hpt

/-- After `fill_pixels` with a 32-bit colour a buffer of 32-bit pixels is still
one. -/
theorem fill_pixels_keeps_32_bit (pixels_buf buf1 : List Nat) (color : Nat)
    (start_pos end_pos : Int) (hw : pixels_buf.length < 2147483648)
    (hs1 : -2147483648 ≤ start_pos) (hs2 : start_pos < 2147483648)
    (he1 : -2147483648 ≤ end_pos) (he2 : end_pos < 2147483648)
    (h32 : ∀ p ∈ pixels_buf, p < 4294967296) (hc : color < 4294967296)
    (hrun : be_animation_ntv_fill_pixels pixels_buf color start_pos end_pos
      = Except.ok buf1) :
    ∀ p ∈ buf1, p < 4294967296 := by
  cases hres : resolve_region pixels_buf.length start_pos end_pos with
  | none =>
    rw [fill_pixels_unresolved _ _ _ _ hres] at hrun
    simp only [Except.ok.injEq] at hrun
    rw [← hrun]
    exact h32
  | some q =>
    obtain ⟨s, e⟩ := q
    have hb := resolve_region_bounds _ _ _ s e hw hs1 hs2 he1 he2 hres
    obtain ⟨buf2, hrun2, _, hpt⟩ := fill_pixels_spec pixels_buf color start_pos end_pos s e
      hres hb.1 hb.2.1 hb.2.2
    rw [hrun2] at hrun
    simp only [Except.ok.injEq] at hrun
    subst hrun
    intro p hp
    obtain ⟨j, hj⟩ := List.mem_iff_getElem?.mp hp
    rw [hpt j] at hj
    by_cases hcnd : s ≤ (j : Int) ∧ (j : Int) ≤ e
    · rw [if_pos hcnd] at hj
      by_cases hjl : j < pixels_buf.length
      · rw [List.getElem?_eq_getElem hjl, Option.map_some', Option.some.injEq] at hj
        omega
      · rw [List.getElem?_eq_none (by omega)] at hj
        exact absurd hj (by simp)
    · rw [if_neg hcnd] at hj
      exact h32 p (List.mem_iff_getElem?.mpr ⟨j, hj⟩)

/-- C19: for every buffer of 32-bit pixels and every region, `apply_opacity`
with the scalar 255 and `apply_brightness` with the scalar 255 each return the
buffer unchanged; in particular after `fill_pixels` (any region, any 32-bit
colour) `apply_brightness(255)` and `apply_opacity(255)` return the buffer as
the fill left it. -/
theorem C19_scalar_255_is_identity (pixels_buf : List Nat) (start_pos end_pos : Int)
    (hw : pixels_buf.length < 2147483648)
    (hs1 : -2147483648 ≤ start_pos) (hs2 : start_pos < 2147483648)
    (he1 : -2147483648 ≤ end_pos) (he2 : end_pos < 2147483648)
    (h32 : ∀ p ∈ pixels_buf, p < 4294967296) :
    be_animation_ntv_apply_opacity pixels_buf (ScaleArg.int 255) start_pos end_pos
      = Except.ok pixels_buf ∧
    be_animation_ntv_apply_brightness pixels_buf (ScaleArg.int 255) start_pos end_pos
      = Except.ok pixels_buf ∧
    (∀ (color : Nat) (fill_start fill_end : Int), color < 4294967296 →
      -2147483648 ≤ fill_start → fill_start < 2147483648 →
      -2147483648 ≤ fill_end → fill_end < 2147483648 →
      ∃ buf1, be_animation_ntv_fill_pixels pixels_buf color fill_start fill_end
          = Except.ok buf1 ∧
        be_animation_ntv_apply_brightness buf1 (ScaleArg.int 255) start_pos end_pos
          = Except.ok buf1 ∧
        be_animation_ntv_apply_opacity buf1 (ScaleArg.int 255) start_pos end_pos
          = Except.ok buf1) := by
  refine ⟨apply_opacity_255 _ _ _ hw hs1 hs2 he1 he2 h32,
    apply_brightness_255 _ _ _ hw hs1 hs2 he1 he2 h32, ?_⟩
  intro color fs fe hc hf1 hf2 hf3 hf4
  obtain ⟨buf1, hrun, hlen⟩ := fill_pixels_ok pixels_buf color fs fe hw hf1 hf2 hf3 hf4
  have h32b := fill_pixels_keeps_32_bit pixels_buf buf1 color fs fe hw hf1 hf2 hf3 hf4 h32 hc
    hrun
  exact ⟨buf1, hrun, apply_brightness_255 _ _ _ (by omega) hs1 hs2 he1 he2 h32b,
    apply_opacity_255 _ _ _ (by omega) hs1 hs2 he1 he2 h32b⟩

theorem C19_scalar_255_is_identity_witness :
    be_animation_ntv_apply_opacity [0x80112233, 0xFF445566, 0x00778899] (ScaleArg.int 255) 0 (-1)
      = Except.ok [0x80112233, 0xFF445566, 0x00778899] ∧
    be_animation_ntv_apply_brightness [0x80112233, 0xFF445566, 0x00778899] (ScaleArg.int 255)
      0 (-1) = Except.ok [0x80112233, 0xFF445566, 0x00778899] ∧
    ∃ buf1, be_animation_ntv_fill_pixels [0x80112233, 0xFF445566, 0x00778899] 0x40C0FFEE 1 1
        = Except.ok buf1 ∧
      be_animation_ntv_apply_brightness buf1 (ScaleArg.int 255) 0 (-1) = Except.ok buf1 ∧
      be_animation_ntv_apply_opacity buf1 (ScaleArg.int 255) 0 (-1) = Except.ok buf1 :=
  ⟨(C19_scalar_255_is_identity [0x80112233, 0xFF445566, 0x00778899] 0 (-1) (by decide)
      (by decide) (by decide) (by decide) (by decide) (by decide)).1,
    (C19_scalar_255_is_identity [0x80112233, 0xFF445566, 0x00778899] 0 (-1) (by decide)
      (by decide) (by decide) (by decide) (by decide) (by decide)).2.1,
    (C19_scalar_255_is_identity [0x80112233, 0xFF445566, 0x00778899] 0 (-1) (by decide)
      (by decide) (by decide) (by decide) (by decide) (by decide)).2.2 0x40C0FFEE 1 1
      (by decide) (by decide) (by decide) (by decide) (by decide)⟩

/-- The scalar 0 of `apply_opacity` clears the alpha byte and keeps the three
colour bytes. -/
theorem apply_opacity_value_pixel_0 (color : Nat) :
    pixel_alpha (apply_opacity_value_pixel 0 color) = 0 ∧
    pixel_red (apply_opacity_value_pixel 0 color) = pixel_red color ∧
    pixel_green (apply_opacity_value_pixel 0 color) = pixel_green color ∧
    pixel_blue (apply_opacity_value_pixel 0 color) = pixel_blue color := by
  have h0 : (0 : Int) ≤ 255 := by norm_num
  unfold apply_opacity_value_pixel
  simp only [if_pos h0, int_to_uint16_0]
  rw [changeUIntScale_at_min 0 _ (by norm_num)]
  exact channels_of_pack 0 _ _ _ (by norm_num) (byte_lt _) (byte_lt _) (byte_lt _)

/-- The scalar 0 of `apply_brightness` clears the three colour bytes and keeps
the alpha byte. -/
theorem apply_brightness_value_pixel_0 (color : Nat) :
    pixel_alpha (apply_brightness_value_pixel 0 color) = pixel_alpha color ∧
    pixel_red (apply_brightness_value_pixel 0 color) = 0 ∧
    pixel_green (apply_brightness_value_pixel 0 color) = 0 ∧
    pixel_blue (apply_brightness_value_pixel 0 color) = 0 := by
  have h0 : (0 : Int) ≤ 255 := by norm_num
  unfold apply_brightness_value_pixel brightness_channel
  simp only [if_pos h0, int_to_uint16_0]
  rw [changeUIntScale_to_zero _ (byte_lt _), changeUIntScale_to_zero _ (byte_lt _),
    changeUIntScale_to_zero _ (byte_lt _)]
  exact channels_of_pack _ 0 0 0 (byte_lt _) (by norm_num) (by norm_num) (by norm_num)

/-- C20: for every buffer and every region, `apply_opacity` with the scalar 0
returns normally with the alpha byte of every pixel of the resolved region 0
and its red, green and blue bytes as before; `apply_brightness` with the scalar
0 returns normally with the red, green and blue bytes of every pixel of the
resolved region 0 and its alpha byte as before. -/
theorem C20_scalar_0_clears_one_side (pixels_buf : List Nat) (start_pos end_pos : Int)
    (hw : pixels_buf.length < 2147483648)
    (hs1 : -2147483648 ≤ start_pos) (hs2 : start_pos < 2147483648)
    (he1 : -2147483648 ≤ end_pos) (he2 : end_pos < 2147483648) :
    (∃ buf1, be_animation_ntv_apply_opacity pixels_buf (ScaleArg.int 0) start_pos end_pos
        = Except.ok buf1 ∧
      ∀ s e, resolve_region pixels_buf.length start_pos end_pos = some (s, e) →
        ∀ i : Nat, s ≤ (i : Int) → (i : Int) ≤ e →
          ∃ p, buf1[i]? = some p ∧ pixel_alpha p = 0 ∧
            pixel_red p = pixel_red (pixels_buf.getD i 0) ∧
            pixel_green p = pixel_green (pixels_buf.getD i 0) ∧
            pixel_blue p = pixel_blue (pixels_buf.getD i 0)) ∧
    (∃ buf1, be_animation_ntv_apply_brightness pixels_buf (ScaleArg.int 0) start_pos end_pos
        = Except.ok buf1 ∧
      ∀ s e, resolve_region pixels_buf.length start_pos end_pos = some (s, e) →
        ∀ i : Nat, s ≤ (i : Int) → (i : Int) ≤ e →
          ∃ p, buf1[i]? = some p ∧ pixel_alpha p = pixel_alpha (pixels_buf.getD i 0) ∧
            pixel_red p = 0 ∧ pixel_green p = 0 ∧ pixel_blue p = 0) := by
  cases hres : resolve_region pixels_buf.length start_pos end_pos with
  | none =>
    refine ⟨⟨pixels_buf, apply_opacity_unresolved _ _ _ _ hres, ?_⟩,
      ⟨pixels_buf, apply_brightness_unresolved _ _ _ _ hres, ?_⟩⟩
    · intro s e h
      exact absurd h (by simp)
    · intro s e h
      exact absurd h (by simp)
  | some q =>
    obtain ⟨s, e⟩ := q
    have hb := resolve_region_bounds _ _ _ s e hw hs1 hs2 he1 he2 hres
    obtain ⟨buf1, hrun1, _, hpt1⟩ := apply_opacity_value_spec pixels_buf (ScaleArg.int 0)
      start_pos end_pos s e hres hb.1 hb.2.1 hb.2.2 (fun m hm => by cases hm)
    obtain ⟨buf2, hrun2, _, hpt2⟩ := apply_brightness_value_spec pixels_buf (ScaleArg.int 0)
      start_pos end_pos s e hres hb.1 hb.2.1 hb.2.2 (fun m hm => by cases hm)
    rw [scale_value_0] at hpt1 hpt2
    refine ⟨⟨buf1, hrun1, ?_⟩, ⟨buf2, hrun2, ?_⟩⟩
    · intro s1 e1 h i h1 h2
      simp only [Option.some.injEq, Prod.mk.injEq] at h
      have hi : i < pixels_buf.length := by omega
      have hold : pixels_buf[i]? = some pixels_buf[i] := List.getElem?_eq_getElem hi
      refine ⟨apply_opacity_value_pixel 0 (pixels_buf.getD i 0), ?_,
        apply_opacity_value_pixel_0 _⟩
      rw [hpt1 i, if_pos (by omega), hold, Option.map_some',
        List.getD_eq_getElem pixels_buf 0 hi]
    · intro s1 e1 h i h1 h2
      simp only [Option.some.injEq, Prod.mk.injEq] at h
      have hi : i < pixels_buf.length := by omega
      have hold : pixels_buf[i]? = some pixels_buf[i] := List.getElem?_eq_getElem hi
      refine ⟨apply_brightness_value_pixel 0 (pixels_buf.getD i 0), ?_,
        apply_brightness_value_pixel_0 _⟩
      rw [hpt2 i, if_pos (by omega), hold, Option.map_some',
        List.getD_eq_getElem pixels_buf 0 hi]

theorem C20_scalar_0_clears_one_side_witness :
    ∃ buf1, be_animation_ntv_apply_opacity [0x80112233, 0xFF445566, 0x00778899]
        (ScaleArg.int 0) 1 (-1) = Except.ok buf1 ∧
      ∀ s e, resolve_region [0x80112233, 0xFF445566, 0x00778899].length 1 (-1) = some (s, e) →
        ∀ i : Nat, s ≤ (i : Int) → (i : Int) ≤ e →
          ∃ p, buf1[i]? = some p ∧ pixel_alpha p = 0 ∧
            pixel_red p = pixel_red ([0x80112233, 0xFF445566, 0x00778899].getD i 0) ∧
            pixel_green p = pixel_green ([0x80112233, 0xFF445566, 0x00778899].getD i 0) ∧
            pixel_blue p = pixel_blue ([0x80112233, 0xFF445566, 0x00778899].getD i 0) :=
  (C20_scalar_0_clears_one_side [0x80112233, 0xFF445566, 0x00778899] 1 (-1) (by decide)
    (by decide) (by decide) (by decide) (by decide)).1

/-! ## Scalar adjustment in plain arithmetic -/

/-- The up-scale term of lines 438 and 550-552 on a byte `c` and a scalar in
`256..511`: nothing wraps, and the rescale is `c * (v - 255) * 255 / 65280`. -/
theorem scale_up_eq (v : Int) (c : Nat) (hv1 : 255 < v) (hv2 : v ≤ 511) (hc : c ≤ 255) :
    to_uint32 (c + changeUIntScale (to_uint32 (c * int_to_uint32 (v - 255))) 0 (255 * 256) 0 255)
      = c + c * (v - 255).toNat * 255 / 65280 := by
  have hm : int_to_uint32 (v - 255) = (v - 255).toNat := by
    unfold int_to_uint32
    omega
  rw [hm]
  have hm2 : (v - 255).toNat ≤ 256 := by omega
  generalize (v - 255).toNat = m at hm2
  have hp : c * m ≤ 255 * 256 := Nat.mul_le_mul hc hm2
  have hq : c * m * 255 / 65280 ≤ 255 := by
    calc c * m * 255 / 65280 ≤ 255 * 256 * 255 / 65280 :=
          Nat.div_le_div_right (Nat.mul_le_mul_right _ hp)
      _ = 255 := by norm_num
  have h1 : to_uint32 (c * m) = c * m := by
    unfold to_uint32
    exact Nat.mod_eq_of_lt (by omega)
  rw [h1, changeUIntScale_zero_based (c * m) (255 * 256) 255 (by omega) (by norm_num)
    (by norm_num) (by norm_num; omega)]
  unfold to_uint32
  norm_num
  generalize c * m * 255 / 65280 = q at hq
  omega

/-- The up-scale term never exceeds the byte it is added to by more than the
byte itself: `c * m * 255 / 65280 ≤ c` for a multiplier `m ≤ 256`. -/
theorem scale_up_le (c m : Nat) (hm : m ≤ 256) : c * m * 255 / 65280 ≤ c := by
  calc c * m * 255 / 65280 ≤ c * 256 * 255 / 65280 :=
        Nat.div_le_div_right (Nat.mul_le_mul_right _ (Nat.mul_le_mul_left _ hm))
    _ = c := by omega

/-- One colour channel under a scalar of `0..511` (lines 542-555), in plain
arithmetic on the byte `c`. -/
theorem brightness_channel_eq (v : Int) (c : Nat) (hv0 : 0 ≤ v) (hv : v ≤ 511)
    (hc : c ≤ 255) :
    brightness_channel v c =
      if v ≤ 255 then c * v.toNat / 255
      else min 255 (c + c * (v - 255).toNat * 255 / 65280) := by
  unfold brightness_channel
  by_cases h : v ≤ 255
  · simp only [if_pos h]
    have h16 : int_to_uint16 v = v.toNat := by
      unfold int_to_uint16
      omega
    have ht : v.toNat ≤ 255 := by omega
    rw [h16]
    generalize v.toNat = t at ht
    have hle : c * t / 255 ≤ t := scale_le c t hc
    exact changeUIntScale_zero_based c 255 t (by omega) (by norm_num) (by omega)
      (by generalize c * t / 255 = q at hle; omega)
  · simp only [if_neg h]
    rw [scale_up_eq v c (by omega) hv hc]
    generalize c + c * (v - 255).toNat * 255 / 65280 = x
    by_cases hx : x > 255
    · simp only [if_pos hx]
      omega
    · simp only [if_neg hx]
      omega

/-- One colour channel under a scalar of `0..511` stays a byte. -/
theorem brightness_channel_le (v : Int) (c : Nat) (hv0 : 0 ≤ v) (hv : v ≤ 511)
    (hc : c ≤ 255) : brightness_channel v c ≤ 255 := by
  rw [brightness_channel_eq v c hv0 hv hc]
  by_cases h : v ≤ 255
  · simp only [if_pos h]
    have ht : v.toNat ≤ 255 := by omega
    generalize v.toNat = t at ht
    have hle : c * t / 255 ≤ t := scale_le c t hc
    generalize c * t / 255 = q at hle
    omega
  · simp only [if_neg h]
    exact Nat.min_le_left _ _

/-- The alpha written in the number mode of `apply_opacity` (lines 434-440) is
the value `brightness_channel` gives for the same scalar and byte: the two
down-scale calls have their arguments in the other order, with the same
product. -/
theorem opacity_alpha_eq (v : Int) (a : Nat) (hv0 : 0 ≤ v) (hv : v ≤ 511) (ha : a ≤ 255) :
    (if v ≤ 255 then changeUIntScale (int_to_uint16 v) 0 255 0 a
      else
        let a1 := to_uint32 (a + changeUIntScale
          (to_uint32 (a * int_to_uint32 (v - 255))) 0 (255 * 256) 0 255)
        if a1 > 255 then 255 else a1) =
      if v ≤ 255 then v.toNat * a / 255
      else min 255 (a + a * (v - 255).toNat * 255 / 65280) := by
  by_cases h : v ≤ 255
  · simp only [if_pos h]
    have h16 : int_to_uint16 v = v.toNat := by
      unfold int_to_uint16
      omega
    have ht : v.toNat ≤ 255 := by omega
    rw [h16]
    generalize v.toNat = t at ht
    have hle : t * a / 255 ≤ a := scale_le t a ht
    exact changeUIntScale_zero_based t 255 a (by omega) (by norm_num) (by omega)
      (by generalize t * a / 255 = q at hle; omega)
  · simp only [if_neg h]
    rw [scale_up_eq v a (by omega) hv ha]
    generalize a + a * (v - 255).toNat * 255 / 65280 = x
    by_cases hx : x > 255
    · simp only [if_pos hx]
      omega
    · simp only [if_neg hx]
      omega

/-- The scalar of the number mode is always inside `0..511`. -/
theorem scale_value_range (arg : ScaleArg) : 0 ≤ scale_value arg ∧ scale_value arg ≤ 511 := by
  unfold scale_value
  simp only
  split_ifs <;> omega

/-- An integer scalar inside `0..511` is used as it is. -/
theorem scale_value_int (v : Int) (hv0 : 0 ≤ v) (hv : v ≤ 511) :
    scale_value (ScaleArg.int v) = v := by
  unfold scale_value
  simp only
  rw [to_int32_of_range v (by omega) (by omega)]
  split_ifs <;> omega

/-! ## Channels of the pixels of `apply_opacity` and `apply_brightness` -/

/-- The number mode of `apply_opacity` with a scalar of `0..511`: the new alpha
in plain arithmetic, and the three colour bytes as before. -/
theorem apply_opacity_value_pixel_channels (v : Int) (color : Nat) (hv0 : 0 ≤ v)
    (hv : v ≤ 511) :
    pixel_alpha (apply_opacity_value_pixel v color) =
      (if v ≤ 255 then v.toNat * pixel_alpha color / 255
        else min 255 (pixel_alpha color + pixel_alpha color * (v - 255).toNat * 255 / 65280)) ∧
    pixel_red (apply_opacity_value_pixel v color) = pixel_red color ∧
    pixel_green (apply_opacity_value_pixel v color) = pixel_green color ∧
    pixel_blue (apply_opacity_value_pixel v color) = pixel_blue color := by
  have ha : (color >>> 24) &&& 0xFF ≤ 255 := by
    have := byte_lt (color >>> 24)
    omega
  have hA := opacity_alpha_eq v ((color >>> 24) &&& 0xFF) hv0 hv ha
  have hlt : (if v ≤ 255 then v.toNat * ((color >>> 24) &&& 0xFF) / 255
      else min 255 (((color >>> 24) &&& 0xFF)
        + ((color >>> 24) &&& 0xFF) * (v - 255).toNat * 255 / 65280)) < 256 := by
    by_cases h : v ≤ 255
    · simp only [if_pos h]
      have ht : v.toNat ≤ 255 := by omega
      have hle := scale_le v.toNat ((color >>> 24) &&& 0xFF) ht
      generalize v.toNat * ((color >>> 24) &&& 0xFF) / 255 = q at hle
      omega
    · simp only [if_neg h]
      have := Nat.min_le_left 255 (((color >>> 24) &&& 0xFF)
        + ((color >>> 24) &&& 0xFF) * (v - 255).toNat * 255 / 65280)
      omega
  have key : apply_opacity_value_pixel v color =
      to_uint32 (((if v ≤ 255 then v.toNat * ((color >>> 24) &&& 0xFF) / 255
        else min 255 (((color >>> 24) &&& 0xFF)
          + ((color >>> 24) &&& 0xFF) * (v - 255).toNat * 255 / 65280)) <<< 24)
        ||| (((color >>> 16) &&& 0xFF) <<< 16) ||| (((color >>> 8) &&& 0xFF) <<< 8)
        ||| (color &&& 0xFF)) := by
    unfold apply_opacity_value_pixel
    exact congrArg (fun x => to_uint32 ((x <<< 24) ||| (((color >>> 16) &&& 0xFF) <<< 16)
      ||| (((color >>> 8) &&& 0xFF) <<< 8) ||| (color &&& 0xFF))) hA
  rw [key]
  exact channels_of_pack _ _ _ _ hlt (byte_lt _) (byte_lt _) (byte_lt _)

/-- The number mode of `apply_brightness` with a scalar of `0..511`: the alpha
byte as before, and each colour byte the value of `brightness_channel`. -/
theorem apply_brightness_value_pixel_channels (v : Int) (color : Nat) (hv0 : 0 ≤ v)
    (hv : v ≤ 511) :
    pixel_alpha (apply_brightness_value_pixel v color) = pixel_alpha color ∧
    pixel_red (apply_brightness_value_pixel v color)
      = brightness_channel v (pixel_red color) ∧
    pixel_green (apply_brightness_value_pixel v color)
      = brightness_channel v (pixel_green color) ∧
    pixel_blue (apply_brightness_value_pixel v color)
      = brightness_channel v (pixel_blue color) := by
  have hr := brightness_channel_le v ((color >>> 16) &&& 0xFF) hv0 hv
    (by have := byte_lt (color >>> 16); omega)
  have hg := brightness_channel_le v ((color >>> 8) &&& 0xFF) hv0 hv
    (by have := byte_lt (color >>> 8); omega)
  have hb := brightness_channel_le v (color &&& 0xFF) hv0 hv
    (by have := byte_lt color; omega)
  unfold apply_brightness_value_pixel
  exact channels_of_pack _ _ _ _ (byte_lt _) (by omega) (by omega) (by omega)

/-- The rescale by a mask byte `m` of a byte `c` (lines 405 and 511-513). -/
theorem mask_scale_eq (m c : Nat) (hm : m ≤ 255) (hc : c ≤ 255) :
    changeUIntScale m 0 255 0 c = m * c / 255 ∧ m * c / 255 ≤ c := by
  have hle : m * c / 255 ≤ c := scale_le m c hm
  refine ⟨?_, hle⟩
  exact changeUIntScale_zero_based m 255 c (by omega) (by norm_num) (by omega)
    (by generalize m * c / 255 = q at hle; omega)

/-- The mask mode of `apply_opacity`: the new alpha in plain arithmetic, from
the alpha byte of the mask pixel alone, and the three colour bytes as before. -/
theorem apply_opacity_mask_pixel_channels (color mask_color : Nat) :
    pixel_alpha (apply_opacity_mask_pixel color mask_color)
      = pixel_alpha mask_color * pixel_alpha color / 255 ∧
    pixel_red (apply_opacity_mask_pixel color mask_color) = pixel_red color ∧
    pixel_green (apply_opacity_mask_pixel color mask_color) = pixel_green color ∧
    pixel_blue (apply_opacity_mask_pixel color mask_color) = pixel_blue color := by
  have hm : (mask_color >>> 24) &&& 0xFF ≤ 255 := by
    have := byte_lt (mask_color >>> 24)
    omega
  have ha : (color >>> 24) &&& 0xFF ≤ 255 := by
    have := byte_lt (color >>> 24)
    omega
  obtain ⟨h1, h2⟩ := mask_scale_eq _ _ hm ha
  unfold apply_opacity_mask_pixel
  simp only [pixel_alpha]
  rw [h1]
  exact channels_of_pack _ _ _ _ (by omega) (byte_lt _) (byte_lt _) (byte_lt _)

/-- The mask mode of `apply_brightness`: the alpha byte as before, and each
colour byte rescaled by the alpha byte of the mask pixel alone. -/
theorem apply_brightness_mask_pixel_channels (color mask_color : Nat) :
    pixel_alpha (apply_brightness_mask_pixel color mask_color) = pixel_alpha color ∧
    pixel_red (apply_brightness_mask_pixel color mask_color)
      = pixel_alpha mask_color * pixel_red color / 255 ∧
    pixel_green (apply_brightness_mask_pixel color mask_color)
      = pixel_alpha mask_color * pixel_green color / 255 ∧
    pixel_blue (apply_brightness_mask_pixel color mask_color)
      = pixel_alpha mask_color * pixel_blue color / 255 := by
  have hm : (mask_color >>> 24) &&& 0xFF ≤ 255 := by
    have := byte_lt (mask_color >>> 24)
    omega
  have hr : (color >>> 16) &&& 0xFF ≤ 255 := by
    have := byte_lt (color >>> 16)
    omega
  have hg : (color >>> 8) &&& 0xFF ≤ 255 := by
    have := byte_lt (color >>> 8)
    omega
  have hb : color &&& 0xFF ≤ 255 := by
    have := byte_lt color
    omega
  obtain ⟨r1, r2⟩ := mask_scale_eq _ _ hm hr
  obtain ⟨g1, g2⟩ := mask_scale_eq _ _ hm hg
  obtain ⟨b1, b2⟩ := mask_scale_eq _ _ hm hb
  unfold apply_brightness_mask_pixel
  simp only [pixel_alpha, pixel_red, pixel_green, pixel_blue]
  rw [r1, g1, b1]
  exact channels_of_pack _ _ _ _ (byte_lt _) (by omega) (by omega) (by omega)

/-- From the pointwise form of a result buffer to the pixel at one index. -/
theorem getD_of_pointwise (buf buf1 : List Nat) (cond : Nat → Prop) [DecidablePred cond]
    (g : Nat → Nat → Nat)
    (hpt : ∀ j : Nat, buf1[j]? = if cond j then (buf[j]?).map (g j) else buf[j]?)
    (j : Nat) :
    buf1.getD j 0 = if cond j ∧ j < buf.length then g j (buf.getD j 0) else buf.getD j 0 := by
  have h := hpt j
  rw [List.getD_eq_getElem?_getD, List.getD_eq_getElem?_getD, h]
  by_cases hj : j < buf.length
  · have hold : buf[j]? = some buf[j] := List.getElem?_eq_getElem hj
    by_cases hc : cond j
    · simp only [if_pos hc, if_pos (And.intro hc hj), hold, Option.map_some',
        Option.getD_some]
    · simp only [if_neg hc, if_neg (fun h : cond j ∧ j < buf.length => hc h.1)]
  · have hold : buf[j]? = none := List.getElem?_eq_none (Nat.le_of_not_lt hj)
    simp only [if_neg (fun h : cond j ∧ j < buf.length => hj h.2), hold, Option.map_none',
      ite_self]

/-- A second argument is a mask or is not. -/
theorem scale_arg_cases (arg : ScaleArg) :
    (∃ mask_buf, arg = ScaleArg.bytes mask_buf) ∨ ∀ mask_buf, arg ≠ ScaleArg.bytes mask_buf := by
  cases arg with
  | absent => exact Or.inr (fun m h => by cases h)
  | bytes m => exact Or.inl ⟨m, rfl⟩
  | int v => exact Or.inr (fun m h => by cases h)
  | other => exact Or.inr (fun m h => by cases h)

/-! ## Claim on the channels an adjustment leaves alone -/

/-- For every second argument `apply_opacity` returns normally, and every pixel
of the result is the old pixel, or the pixel the number mode writes for it, or
the pixel the mask mode writes for it with some mask pixel. -/
theorem apply_opacity_pixelwise (pixels_buf : List Nat) (arg : ScaleArg)
    (start_pos end_pos : Int) (hw : pixels_buf.length < 2147483648)
    (hs1 : -2147483648 ≤ start_pos) (hs2 : start_pos < 2147483648)
    (he1 : -2147483648 ≤ end_pos) (he2 : end_pos < 2147483648) :
    ∃ buf1, be_animation_ntv_apply_opacity pixels_buf arg start_pos end_pos = Except.ok buf1 ∧
      buf1.length = pixels_buf.length ∧
      ∀ j : Nat, buf1.getD j 0 = pixels_buf.getD j 0 ∨
        buf1.getD j 0 = apply_opacity_value_pixel (scale_value arg) (pixels_buf.getD j 0) ∨
        ∃ m, buf1.getD j 0 = apply_opacity_mask_pixel (pixels_buf.getD j 0) m := by
  cases hres : resolve_region pixels_buf.length start_pos end_pos with
  | none =>
    exact ⟨pixels_buf, apply_opacity_unresolved _ _ _ _ hres, rfl, fun j => Or.inl rfl⟩
  | some q =>
    obtain ⟨s, e⟩ := q
    have hb := resolve_region_bounds _ _ _ s e hw hs1 hs2 he1 he2 hres
    rcases scale_arg_cases arg with ⟨mask_buf, hmask⟩ | hm
    · subst hmask
      obtain ⟨buf1, hrun, hlen, hpt⟩ := apply_opacity_mask_spec pixels_buf mask_buf
        start_pos end_pos s e hw hres hb.1 hb.2.1 hb.2.2
      refine ⟨buf1, hrun, hlen, fun j => ?_⟩
      have h := getD_of_pointwise pixels_buf buf1
        (fun j : Nat => s ≤ (j : Int) ∧
          (j : Int) ≤ mask_end_pos pixels_buf.length mask_buf.length e)
        (fun j c => apply_opacity_mask_pixel c (mask_buf.getD j 0)) hpt j
      rw [h]
      split_ifs
      · exact Or.inr (Or.inr ⟨_, rfl⟩)
      · exact Or.inl rfl
    · obtain ⟨buf1, hrun, hlen, hpt⟩ := apply_opacity_value_spec pixels_buf arg
        start_pos end_pos s e hres hb.1 hb.2.1 hb.2.2 hm
      refine ⟨buf1, hrun, hlen, fun j => ?_⟩
      have h := getD_of_pointwise pixels_buf buf1
        (fun j : Nat => s ≤ (j : Int) ∧ (j : Int) ≤ e)
        (fun _ c => apply_opacity_value_pixel (scale_value arg) c) hpt j
      rw [h]
      split_ifs
      · exact Or.inr (Or.inl rfl)
      · exact Or.inl rfl

/-- For every second argument `apply_brightness` returns normally, and every
pixel of the result is the old pixel, or the pixel the number mode writes for
it, or the pixel the mask mode writes for it with some mask pixel. -/
theorem apply_brightness_pixelwise (pixels_buf : List Nat) (arg : ScaleArg)
    (start_pos end_pos : Int) (hw : pixels_buf.length < 2147483648)
    (hs1 : -2147483648 ≤ start_pos) (hs2 : start_pos < 2147483648)
    (he1 : -2147483648 ≤ end_pos) (he2 : end_pos < 2147483648) :
    ∃ buf1, be_animation_ntv_apply_brightness pixels_buf arg start_pos end_pos
        = Except.ok buf1 ∧ buf1.length = pixels_buf.length ∧
      ∀ j : Nat, buf1.getD j 0 = pixels_buf.getD j 0 ∨
        buf1.getD j 0 = apply_brightness_value_pixel (scale_value arg) (pixels_buf.getD j 0) ∨
        ∃ m, buf1.getD j 0 = apply_brightness_mask_pixel (pixels_buf.getD j 0) m := by
  cases hres : resolve_region pixels_buf.length start_pos end_pos with
  | none =>
    exact ⟨pixels_buf, apply_brightness_unresolved _ _ _ _ hres, rfl, fun j => Or.inl rfl⟩
  | some q =>
    obtain ⟨s, e⟩ := q
    have hb := resolve_region_bounds _ _ _ s e hw hs1 hs2 he1 he2 hres
    rcases scale_arg_cases arg with ⟨mask_buf, hmask⟩ | hm
    · subst hmask
      obtain ⟨buf1, hrun, hlen, hpt⟩ := apply_brightness_mask_spec pixels_buf mask_buf
        start_pos end_pos s e hw hres hb.1 hb.2.1 hb.2.2
      refine ⟨buf1, hrun, hlen, fun j => ?_⟩
      have h := getD_of_pointwise pixels_buf buf1
        (fun j : Nat => s ≤ (j : Int) ∧
          (j : Int) ≤ mask_end_pos pixels_buf.length mask_buf.length e)
        (fun j c => apply_brightness_mask_pixel c (mask_buf.getD j 0)) hpt j
      rw [h]
      split_ifs
      · exact Or.inr (Or.inr ⟨_, rfl⟩)
      · exact Or.inl rfl
    · obtain ⟨buf1, hrun, hlen, hpt⟩ := apply_brightness_value_spec pixels_buf arg
        start_pos end_pos s e hres hb.1 hb.2.1 hb.2.2 hm
      refine ⟨buf1, hrun, hlen, fun j => ?_⟩
      have h := getD_of_pointwise pixels_buf buf1
        (fun j : Nat => s ≤ (j : Int) ∧ (j : Int) ≤ e)
        (fun _ c => apply_brightness_value_pixel (scale_value arg) c) hpt j
      rw [h]
      split_ifs
      · exact Or.inr (Or.inl rfl)
      · exact Or.inl rfl

/-- C21: for every buffer, every region and every second argument (absent, a
mask buffer of any length, an integer of any value, or any other value),
`apply_opacity` returns normally with the red, green and blue bytes of every
pixel as before, and `apply_brightness` returns normally with the alpha byte of
every pixel as before. -/
theorem C21_adjustments_keep_the_other_channels (pixels_buf : List Nat) (arg : ScaleArg)
    (start_pos end_pos : Int) (hw : pixels_buf.length < 2147483648)
    (hs1 : -2147483648 ≤ start_pos) (hs2 : start_pos < 2147483648)
    (he1 : -2147483648 ≤ end_pos) (he2 : end_pos < 2147483648) :
    (∃ buf1, be_animation_ntv_apply_opacity pixels_buf arg start_pos end_pos
        = Except.ok buf1 ∧ buf1.length = pixels_buf.length ∧
      ∀ j : Nat, pixel_red (buf1.getD j 0) = pixel_red (pixels_buf.getD j 0) ∧
        pixel_green (buf1.getD j 0) = pixel_green (pixels_buf.getD j 0) ∧
        pixel_blue (buf1.getD j 0) = pixel_blue (pixels_buf.getD j 0)) ∧
    (∃ buf1, be_animation_ntv_apply_brightness pixels_buf arg start_pos end_pos
        = Except.ok buf1 ∧ buf1.length = pixels_buf.length ∧
      ∀ j : Nat, pixel_alpha (buf1.getD j 0) = pixel_alpha (pixels_buf.getD j 0)) := by
  obtain ⟨hv0, hv⟩ := scale_value_range arg
  constructor
  · obtain ⟨buf1, hrun, hlen, hpix⟩ := apply_opacity_pixelwise pixels_buf arg start_pos end_pos
      hw hs1 hs2 he1 he2
    refine ⟨buf1, hrun, hlen, fun j => ?_⟩
    rcases hpix j with h | h | ⟨m, h⟩
    · rw [h]
      exact ⟨rfl, rfl, rfl⟩
    · rw [h]
      exact (apply_opacity_value_pixel_channels _ _ hv0 hv).2
    · rw [h]
      exact (apply_opacity_mask_pixel_channels _ m).2
  · obtain ⟨buf1, hrun, hlen, hpix⟩ := apply_brightness_pixelwise pixels_buf arg
      start_pos end_pos hw hs1 hs2 he1 he2
    refine ⟨buf1, hrun, hlen, fun j => ?_⟩
    rcases hpix j with h | h | ⟨m, h⟩
    · rw [h]
    · rw [h]
      exact (apply_brightness_value_pixel_channels _ _ hv0 hv).1
    · rw [h]
      exact (apply_brightness_mask_pixel_channels _ m).1

theorem C21_adjustments_keep_the_other_channels_witness :
    ∃ buf1, be_animation_ntv_apply_opacity [0x80112233, 0xFF445566, 0x40778899]
        (ScaleArg.bytes [0x7F000000, 0x10FFFFFF]) 0 (-1) = Except.ok buf1 ∧
      buf1.length = [0x80112233, 0xFF445566, 0x40778899].length ∧
      ∀ j : Nat,
        pixel_red (buf1.getD j 0) = pixel_red ([0x80112233, 0xFF445566, 0x40778899].getD j 0) ∧
        pixel_green (buf1.getD j 0)
          = pixel_green ([0x80112233, 0xFF445566, 0x40778899].getD j 0) ∧
        pixel_blue (buf1.getD j 0)
          = pixel_blue ([0x80112233, 0xFF445566, 0x40778899].getD j 0) :=
  (C21_adjustments_keep_the_other_channels [0x80112233, 0xFF445566, 0x40778899]
    (ScaleArg.bytes [0x7F000000, 0x10FFFFFF]) 0 (-1) (by decide) (by decide) (by decide)
    (by decide) (by decide)).1

/-! ## Claims on the scalar mode -/

/-- The down-scale of the specification with an integer scalar that is not
negative, as a natural number. -/
theorem remap_down_left (v : Int) (a : Nat) (hv0 : 0 ≤ v) :
    remap v 0 255 0 (a : Int) = ((v.toNat * a / 255 : Nat) : Int) := by
  have h := remap_byte v.toNat a
  rw [Int.toNat_of_nonneg hv0] at h
  exact h

/-- The down-scale of the specification with the scalar as the end of the
destination range, as a natural number. -/
theorem remap_down_right (v : Int) (c : Nat) (hv0 : 0 ≤ v) :
    remap (c : Int) 0 255 0 v = ((c * v.toNat / 255 : Nat) : Int) := by
  have h := remap_byte c v.toNat
  rw [Int.toNat_of_nonneg hv0] at h
  exact h

/-- The up-scale term of the specification, as a natural number. -/
theorem remap_up (v : Int) (c : Nat) (hv : 255 ≤ v) :
    remap ((c : Int) * (v - 255)) 0 (255 * 256) 0 255
      = ((c * (v - 255).toNat * 255 / 65280 : Nat) : Int) := by
  have h := remap_zero_based (c * (v - 255).toNat) 65280 255
  have hm : (((v - 255).toNat : Nat) : Int) = v - 255 := Int.toNat_of_nonneg (by omega)
  rw [Nat.cast_mul, hm] at h
  exact_mod_cast h

/-- The number mode of `apply_opacity`, read at one index of the resolved
region. -/
theorem apply_opacity_value_region (pixels_buf : List Nat) (arg : ScaleArg)
    (start_pos end_pos : Int) (hw : pixels_buf.length < 2147483648)
    (hs1 : -2147483648 ≤ start_pos) (hs2 : start_pos < 2147483648)
    (he1 : -2147483648 ≤ end_pos) (he2 : end_pos < 2147483648)
    (hm : ∀ mask_buf, arg ≠ ScaleArg.bytes mask_buf) :
    ∃ buf1, be_animation_ntv_apply_opacity pixels_buf arg start_pos end_pos = Except.ok buf1 ∧
      buf1.length = pixels_buf.length ∧
      ∀ s e, resolve_region pixels_buf.length start_pos end_pos = some (s, e) →
        ∀ i : Nat, s ≤ (i : Int) → (i : Int) ≤ e →
          buf1.getD i 0 = apply_opacity_value_pixel (scale_value arg) (pixels_buf.getD i 0) := by
  cases hres : resolve_region pixels_buf.length start_pos end_pos with
  | none =>
    refine ⟨pixels_buf, apply_opacity_unresolved _ _ _ _ hres, rfl, ?_⟩
    intro s e h
    exact absurd h (by simp)
  | some q =>
    obtain ⟨s, e⟩ := q
    have hb := resolve_region_bounds _ _ _ s e hw hs1 hs2 he1 he2 hres
    obtain ⟨buf1, hrun, hlen, hpt⟩ := apply_opacity_value_spec pixels_buf arg
      start_pos end_pos s e hres hb.1 hb.2.1 hb.2.2 hm
    refine ⟨buf1, hrun, hlen, ?_⟩
    intro s1 e1 h i h1 h2
    simp only [Option.some.injEq, Prod.mk.injEq] at h
    have hc : s ≤ (i : Int) ∧ (i : Int) ≤ e := by omega
    have hi : i < pixels_buf.length := by omega
    have hg := getD_of_pointwise pixels_buf buf1
      (fun j : Nat => s ≤ (j : Int) ∧ (j : Int) ≤ e)
      (fun _ c => apply_opacity_value_pixel (scale_value arg) c) hpt i
    rw [hg, if_pos (And.intro hc hi)]

/-- The number mode of `apply_brightness`, read at one index of the resolved
region. -/
theorem apply_brightness_value_region (pixels_buf : List Nat) (arg : ScaleArg)
    (start_pos end_pos : Int) (hw : pixels_buf.length < 2147483648)
    (hs1 : -2147483648 ≤ start_pos) (hs2 : start_pos < 2147483648)
    (he1 : -2147483648 ≤ end_pos) (he2 : end_pos < 2147483648)
    (hm : ∀ mask_buf, arg ≠ ScaleArg.bytes mask_buf) :
    ∃ buf1, be_animation_ntv_apply_brightness pixels_buf arg start_pos end_pos
        = Except.ok buf1 ∧ buf1.length = pixels_buf.length ∧
      ∀ s e, resolve_region pixels_buf.length start_pos end_pos = some (s, e) →
        ∀ i : Nat, s ≤ (i : Int) → (i : Int) ≤ e →
          buf1.getD i 0
            = apply_brightness_value_pixel (scale_value arg) (pixels_buf.getD i 0) := by
  cases hres : resolve_region pixels_buf.length start_pos end_pos with
  | none =>
    refine ⟨pixels_buf, apply_brightness_unresolved _ _ _ _ hres, rfl, ?_⟩
    intro s e h
    exact absurd h (by simp)
  | some q =>
    obtain ⟨s, e⟩ := q
    have hb := resolve_region_bounds _ _ _ s e hw hs1 hs2 he1 he2 hres
    obtain ⟨buf1, hrun, hlen, hpt⟩ := apply_brightness_value_spec pixels_buf arg
      start_pos end_pos s e hres hb.1 hb.2.1 hb.2.2 hm
    refine ⟨buf1, hrun, hlen, ?_⟩
    intro s1 e1 h i h1 h2
    simp only [Option.some.injEq, Prod.mk.injEq] at h
    have hc : s ≤ (i : Int) ∧ (i : Int) ≤ e := by omega
    have hi : i < pixels_buf.length := by omega
    have hg := getD_of_pointwise pixels_buf buf1
      (fun j : Nat => s ≤ (j : Int) ∧ (j : Int) ≤ e)
      (fun _ c => apply_brightness_value_pixel (scale_value arg) c) hpt i
    rw [hg, if_pos (And.intro hc hi)]

/-- C22: for every buffer, every region and every scalar opacity in [0,511],
`apply_opacity` returns normally and the alpha of every pixel of the resolved
region, a being its old alpha, is `remap(opacity,0,255,0,a)` when opacity is at
most 255 and `min(255, a + remap(a*(opacity-255),0,255*256,0,255))` when it is
larger, with `remap` the truncating rescale of the specification. -/
theorem C22_scalar_opacity_rescales_alpha (pixels_buf : List Nat) (opacity : Int)
    (start_pos end_pos : Int) (hw : pixels_buf.length < 2147483648)
    (hs1 : -2147483648 ≤ start_pos) (hs2 : start_pos < 2147483648)
    (he1 : -2147483648 ≤ end_pos) (he2 : end_pos < 2147483648)
    (hv0 : 0 ≤ opacity) (hv : opacity ≤ 511) :
    ∃ buf1, be_animation_ntv_apply_opacity pixels_buf (ScaleArg.int opacity)
        start_pos end_pos = Except.ok buf1 ∧ buf1.length = pixels_buf.length ∧
      ∀ s e, resolve_region pixels_buf.length start_pos end_pos = some (s, e) →
        ∀ i : Nat, s ≤ (i : Int) → (i : Int) ≤ e →
          ((pixel_alpha (buf1.getD i 0) : Nat) : Int) =
            if opacity ≤ 255 then
              remap opacity 0 255 0 (pixel_alpha (pixels_buf.getD i 0))
            else
              min 255 ((pixel_alpha (pixels_buf.getD i 0) : Int)
                + remap ((pixel_alpha (pixels_buf.getD i 0) : Int) * (opacity - 255))
                    0 (255 * 256) 0 255) := by
  obtain ⟨buf1, hrun, hlen, hpix⟩ := apply_opacity_value_region pixels_buf
    (ScaleArg.int opacity) start_pos end_pos hw hs1 hs2 he1 he2 (fun m hm => by cases hm)
  refine ⟨buf1, hrun, hlen, ?_⟩
  intro s e hres i h1 h2
  rw [hpix s e hres i h1 h2, scale_value_int opacity hv0 hv,
    (apply_opacity_value_pixel_channels opacity _ hv0 hv).1]
  by_cases h : opacity ≤ 255
  · simp only [if_pos h]
    rw [remap_down_left opacity _ hv0]
  · simp only [if_neg h]
    rw [remap_up opacity _ (by omega)]
    push_cast
    rfl

theorem C22_scalar_opacity_rescales_alpha_witness :
    ∃ buf1, be_animation_ntv_apply_opacity [0x80112233, 0xFF445566, 0x40778899]
        (ScaleArg.int 300) 1 (-1) = Except.ok buf1 ∧
      buf1.length = [0x80112233, 0xFF445566, 0x40778899].length ∧
      ∀ s e, resolve_region [0x80112233, 0xFF445566, 0x40778899].length 1 (-1) = some (s, e) →
        ∀ i : Nat, s ≤ (i : Int) → (i : Int) ≤ e →
          ((pixel_alpha (buf1.getD i 0) : Nat) : Int) =
            if (300 : Int) ≤ 255 then
              remap 300 0 255 0 (pixel_alpha ([0x80112233, 0xFF445566, 0x40778899].getD i 0))
            else
              min 255 ((pixel_alpha ([0x80112233, 0xFF445566, 0x40778899].getD i 0) : Int)
                + remap ((pixel_alpha ([0x80112233, 0xFF445566, 0x40778899].getD i 0) : Int)
                    * (300 - 255)) 0 (255 * 256) 0 255) :=
  C22_scalar_opacity_rescales_alpha [0x80112233, 0xFF445566, 0x40778899] 300 1 (-1)
    (by decide) (by decide) (by decide) (by decide) (by decide) (by decide) (by decide)

/-- One colour channel under a scalar of `0..511`, in the words of the
specification. -/
theorem brightness_channel_remap (v : Int) (c : Nat) (hv0 : 0 ≤ v) (hv : v ≤ 511)
    (hc : c ≤ 255) :
    ((brightness_channel v c : Nat) : Int) =
      if v ≤ 255 then remap (c : Int) 0 255 0 v
      else min 255 ((c : Int) + remap ((c : Int) * (v - 255)) 0 (255 * 256) 0 255) := by
  rw [brightness_channel_eq v c hv0 hv hc]
  by_cases h : v ≤ 255
  · simp only [if_pos h]
    rw [remap_down_right v c hv0]
  · simp only [if_neg h]
    rw [remap_up v c (by omega)]
    push_cast
    rfl

/-- C23: for every buffer, every region and every scalar brightness in
[0,511], `apply_brightness` returns normally and each of the red, green and
blue bytes of every pixel of the resolved region, c being its old value, is
`remap(c,0,255,0,brightness)` when brightness is at most 255 and
`min(255, c + remap(c*(brightness-255),0,255*256,0,255))` when it is larger. -/
theorem C23_scalar_brightness_rescales_colour (pixels_buf : List Nat) (brightness : Int)
    (start_pos end_pos : Int) (hw : pixels_buf.length < 2147483648)
    (hs1 : -2147483648 ≤ start_pos) (hs2 : start_pos < 2147483648)
    (he1 : -2147483648 ≤ end_pos) (he2 : end_pos < 2147483648)
    (hv0 : 0 ≤ brightness) (hv : brightness ≤ 511) :
    ∃ buf1, be_animation_ntv_apply_brightness pixels_buf (ScaleArg.int brightness)
        start_pos end_pos = Except.ok buf1 ∧ buf1.length = pixels_buf.length ∧
      ∀ s e, resolve_region pixels_buf.length start_pos end_pos = some (s, e) →
        ∀ i : Nat, s ≤ (i : Int) → (i : Int) ≤ e →
          ∀ channel ∈ [pixel_red, pixel_green, pixel_blue],
            ((channel (buf1.getD i 0) : Nat) : Int) =
              if brightness ≤ 255 then
                remap (channel (pixels_buf.getD i 0)) 0 255 0 brightness
              else
                min 255 ((channel (pixels_buf.getD i 0) : Int)
                  + remap ((channel (pixels_buf.getD i 0) : Int) * (brightness - 255))
                      0 (255 * 256) 0 255) := by
  obtain ⟨buf1, hrun, hlen, hpix⟩ := apply_brightness_value_region pixels_buf
    (ScaleArg.int brightness) start_pos end_pos hw hs1 hs2 he1 he2 (fun m hm => by cases hm)
  refine ⟨buf1, hrun, hlen, ?_⟩
  intro s e hres i h1 h2 channel hch
  rw [hpix s e hres i h1 h2, scale_value_int brightness hv0 hv]
  obtain ⟨_, hr, hg, hb⟩ :=
    apply_brightness_value_pixel_channels brightness (pixels_buf.getD i 0) hv0 hv
  simp only [List.mem_cons, List.mem_singleton, List.not_mem_nil, or_false] at hch
  rcases hch with rfl | rfl | rfl
  · rw [hr]
    exact brightness_channel_remap brightness _ hv0 hv
      (by have := byte_lt (pixels_buf.getD i 0 >>> 16); simp only [pixel_red]; omega)
  · rw [hg]
    exact brightness_channel_remap brightness _ hv0 hv
      (by have := byte_lt (pixels_buf.getD i 0 >>> 8); simp only [pixel_green]; omega)
  · rw [hb]
    exact brightness_channel_remap brightness _ hv0 hv
      (by have := byte_lt (pixels_buf.getD i 0); simp only [pixel_blue]; omega)

theorem C23_scalar_brightness_rescales_colour_witness :
    ∃ buf1, be_animation_ntv_apply_brightness [0x80112233, 0xFF445566, 0x40778899]
        (ScaleArg.int 128) 0 1 = Except.ok buf1 ∧
      buf1.length = [0x80112233, 0xFF445566, 0x40778899].length ∧
      ∀ s e, resolve_region [0x80112233, 0xFF445566, 0x40778899].length 0 1 = some (s, e) →
        ∀ i : Nat, s ≤ (i : Int) → (i : Int) ≤ e →
          ∀ channel ∈ [pixel_red, pixel_green, pixel_blue],
            ((channel (buf1.getD i 0) : Nat) : Int) =
              if (128 : Int) ≤ 255 then
                remap (channel ([0x80112233, 0xFF445566, 0x40778899].getD i 0)) 0 255 0 128
              else
                min 255 ((channel ([0x80112233, 0xFF445566, 0x40778899].getD i 0) : Int)
                  + remap ((channel ([0x80112233, 0xFF445566, 0x40778899].getD i 0) : Int)
                      * (128 - 255)) 0 (255 * 256) 0 255) :=
  C23_scalar_brightness_rescales_colour [0x80112233, 0xFF445566, 0x40778899] 128 0 1
    (by decide) (by decide) (by decide) (by decide) (by decide) (by decide) (by decide)

/-! ## Claims on the mask mode -/

/-- The final `end_pos` of the mask mode still covers every index of the region
that the mask has. -/
theorem mask_end_covers (len mlen : Nat) (e : Int) (i : Nat) (hlen : len < 2147483648)
    (he : e < len) (hie : (i : Int) ≤ e) (him : i < mlen) :
    (i : Int) ≤ mask_end_pos len mlen e := by
  unfold mask_end_pos to_int32
  simp only
  split_ifs <;> omega

/-- The mask mode of `apply_opacity`, read at one index: inside the resolved
region and the mask the pixel is the one computed from the old pixel and the
mask pixel of the same index; from the end of the mask on nothing changes. -/
theorem apply_opacity_mask_region (pixels_buf mask_buf : List Nat)
    (start_pos end_pos : Int) (hw : pixels_buf.length < 2147483648)
    (hs1 : -2147483648 ≤ start_pos) (hs2 : start_pos < 2147483648)
    (he1 : -2147483648 ≤ end_pos) (he2 : end_pos < 2147483648) :
    ∃ buf1, be_animation_ntv_apply_opacity pixels_buf (ScaleArg.bytes mask_buf)
        start_pos end_pos = Except.ok buf1 ∧ buf1.length = pixels_buf.length ∧
      (∀ s e, resolve_region pixels_buf.length start_pos end_pos = some (s, e) →
        ∀ i : Nat, s ≤ (i : Int) → (i : Int) ≤ e → i < mask_buf.length →
          buf1.getD i 0
            = apply_opacity_mask_pixel (pixels_buf.getD i 0) (mask_buf.getD i 0)) ∧
      ∀ j : Nat, mask_buf.length ≤ j → buf1.getD j 0 = pixels_buf.getD j 0 := by
  cases hres : resolve_region pixels_buf.length start_pos end_pos with
  | none =>
    refine ⟨pixels_buf, apply_opacity_unresolved _ _ _ _ hres, rfl, ?_, fun _ _ => rfl⟩
    intro s e h
    exact absurd h (by simp)
  | some q =>
    obtain ⟨s, e⟩ := q
    have hb := resolve_region_bounds _ _ _ s e hw hs1 hs2 he1 he2 hres
    obtain ⟨buf1, hrun, hlen, hpt⟩ := apply_opacity_mask_spec pixels_buf mask_buf
      start_pos end_pos s e hw hres hb.1 hb.2.1 hb.2.2
    have hg := getD_of_pointwise pixels_buf buf1
      (fun j : Nat => s ≤ (j : Int) ∧
        (j : Int) ≤ mask_end_pos pixels_buf.length mask_buf.length e)
      (fun j c => apply_opacity_mask_pixel c (mask_buf.getD j 0)) hpt
    have hme := mask_end_bounds pixels_buf.length mask_buf.length e hw hb.2.2
    refine ⟨buf1, hrun, hlen, ?_, ?_⟩
    · intro s1 e1 h i h1 h2 h3
      simp only [Option.some.injEq, Prod.mk.injEq] at h
      have hcov := mask_end_covers pixels_buf.length mask_buf.length e i hw hb.2.2
        (by omega) h3
      have hc : s ≤ (i : Int) ∧
          (i : Int) ≤ mask_end_pos pixels_buf.length mask_buf.length e := ⟨by omega, hcov⟩
      have hi : i < pixels_buf.length := by omega
      rw [hg i, if_pos (And.intro hc hi)]
    · intro j hj
      rw [hg j, if_neg]
      intro hc
      omega

/-- The mask mode of `apply_brightness`, read at one index: inside the resolved
region and the mask the pixel is the one computed from the old pixel and the
mask pixel of the same index; from the end of the mask on nothing changes. -/
theorem apply_brightness_mask_region (pixels_buf mask_buf : List Nat)
    (start_pos end_pos : Int) (hw : pixels_buf.length < 2147483648)
    (hs1 : -2147483648 ≤ start_pos) (hs2 : start_pos < 2147483648)
    (he1 : -2147483648 ≤ end_pos) (he2 : end_pos < 2147483648) :
    ∃ buf1, be_animation_ntv_apply_brightness pixels_buf (ScaleArg.bytes mask_buf)
        start_pos end_pos = Except.ok buf1 ∧ buf1.length = pixels_buf.length ∧
      (∀ s e, resolve_region pixels_buf.length start_pos end_pos = some (s, e) →
        ∀ i : Nat, s ≤ (i : Int) → (i : Int) ≤ e → i < mask_buf.length →
          buf1.getD i 0
            = apply_brightness_mask_pixel (pixels_buf.getD i 0) (mask_buf.getD i 0)) ∧
      ∀ j : Nat, mask_buf.length ≤ j → buf1.getD j 0 = pixels_buf.getD j 0 := by
  cases hres : resolve_region pixels_buf.length start_pos end_pos with
  | none =>
    refine ⟨pixels_buf, apply_brightness_unresolved _ _ _ _ hres, rfl, ?_, fun _ _ => rfl⟩
    intro s e h
    exact absurd h (by simp)
  | some q =>
    obtain ⟨s, e⟩ := q
    have hb := resolve_region_bounds _ _ _ s e hw hs1 hs2 he1 he2 hres
    obtain ⟨buf1, hrun, hlen, hpt⟩ := apply_brightness_mask_spec pixels_buf mask_buf
      start_pos end_pos s e hw hres hb.1 hb.2.1 hb.2.2
    have hg := getD_of_pointwise pixels_buf buf1
      (fun j : Nat => s ≤ (j : Int) ∧
        (j : Int) ≤ mask_end_pos pixels_buf.length mask_buf.length e)
      (fun j c => apply_brightness_mask_pixel c (mask_buf.getD j 0)) hpt
    have hme := mask_end_bounds pixels_buf.length mask_buf.length e hw hb.2.2
    refine ⟨buf1, hrun, hlen, ?_, ?_⟩
    · intro s1 e1 h i h1 h2 h3
      simp only [Option.some.injEq, Prod.mk.injEq] at h
      have hcov := mask_end_covers pixels_buf.length mask_buf.length e i hw hb.2.2
        (by omega) h3
      have hc : s ≤ (i : Int) ∧
          (i : Int) ≤ mask_end_pos pixels_buf.length mask_buf.length e := ⟨by omega, hcov⟩
      have hi : i < pixels_buf.length := by omega
      rw [hg i, if_pos (And.intro hc hi)]
    · intro j hj
      rw [hg j, if_neg]
      intro hc
      omega

/-- Two masks with the same alpha bytes have the same alpha byte at every
index, also beyond their end. -/
theorem alpha_getD_of_map_eq (mask1 mask2 : List Nat)
    (h : mask1.map pixel_alpha = mask2.map pixel_alpha) (j : Nat) :
    pixel_alpha (mask1.getD j 0) = pixel_alpha (mask2.getD j 0) := by
  have hlen : mask1.length = mask2.length := by
    have := congrArg List.length h
    simpa only [List.length_map] using this
  by_cases hj : j < mask1.length
  · have hj2 : j < mask2.length := by omega
    have h1 := congrArg (fun l : List Nat => l[j]?) h
    simp only [List.getElem?_map, List.getElem?_eq_getElem hj, List.getElem?_eq_getElem hj2,
      Option.map_some', Option.some.injEq] at h1
    rw [List.getD_eq_getElem mask1 0 hj, List.getD_eq_getElem mask2 0 hj2]
    exact h1
  · rw [List.getD_eq_default mask1 0 (by omega), List.getD_eq_default mask2 0 (by omega)]

/-- The pixel the mask mode of `apply_opacity` writes takes only the alpha byte
of the mask pixel. -/
theorem apply_opacity_mask_pixel_congr (color m1 m2 : Nat)
    (h : pixel_alpha m1 = pixel_alpha m2) :
    apply_opacity_mask_pixel color m1 = apply_opacity_mask_pixel color m2 := by
  simp only [pixel_alpha] at h
  simp only [apply_opacity_mask_pixel, h]

/-- The pixel the mask mode of `apply_brightness` writes takes only the alpha
byte of the mask pixel. -/
theorem apply_brightness_mask_pixel_congr (color m1 m2 : Nat)
    (h : pixel_alpha m1 = pixel_alpha m2) :
    apply_brightness_mask_pixel color m1 = apply_brightness_mask_pixel color m2 := by
  simp only [pixel_alpha] at h
  simp only [apply_brightness_mask_pixel, h]

/-- Two masks with the same alpha bytes give the same result of
`apply_opacity`. -/
theorem apply_opacity_mask_congr (pixels_buf mask1 mask2 : List Nat)
    (start_pos end_pos : Int) (hw : pixels_buf.length < 2147483648)
    (hs1 : -2147483648 ≤ start_pos) (hs2 : start_pos < 2147483648)
    (he1 : -2147483648 ≤ end_pos) (he2 : end_pos < 2147483648)
    (h : mask1.map pixel_alpha = mask2.map pixel_alpha) :
    be_animation_ntv_apply_opacity pixels_buf (ScaleArg.bytes mask1) start_pos end_pos
      = be_animation_ntv_apply_opacity pixels_buf (ScaleArg.bytes mask2) start_pos end_pos := by
  have hlen : mask1.length = mask2.length := by
    have := congrArg List.length h
    simpa only [List.length_map] using this
  cases hres : resolve_region pixels_buf.length start_pos end_pos with
  | none =>
    rw [apply_opacity_unresolved _ _ _ _ hres, apply_opacity_unresolved _ _ _ _ hres]
  | some q =>
    obtain ⟨s, e⟩ := q
    have hb := resolve_region_bounds _ _ _ s e hw hs1 hs2 he1 he2 hres
    obtain ⟨buf1, hrun1, _, hpt1⟩ := apply_opacity_mask_spec pixels_buf mask1
      start_pos end_pos s e hw hres hb.1 hb.2.1 hb.2.2
    obtain ⟨buf2, hrun2, _, hpt2⟩ := apply_opacity_mask_spec pixels_buf mask2
      start_pos end_pos s e hw hres hb.1 hb.2.1 hb.2.2
    rw [hrun1, hrun2]
    congr 1
    apply List.ext_getElem?
    intro j
    rw [hpt1 j, hpt2 j, hlen]
    have hf : (fun c => apply_opacity_mask_pixel c (mask1.getD j 0))
        = (fun c => apply_opacity_mask_pixel c (mask2.getD j 0)) := by
      funext c
      exact apply_opacity_mask_pixel_congr c _ _ (alpha_getD_of_map_eq mask1 mask2 h j)
    rw [hf]

/-- Two masks with the same alpha bytes give the same result of
`apply_brightness`. -/
theorem apply_brightness_mask_congr (pixels_buf mask1 mask2 : List Nat)
    (start_pos end_pos : Int) (hw : pixels_buf.length < 2147483648)
    (hs1 : -2147483648 ≤ start_pos) (hs2 : start_pos < 2147483648)
    (he1 : -2147483648 ≤ end_pos) (he2 : end_pos < 2147483648)
    (h : mask1.map pixel_alpha = mask2.map pixel_alpha) :
    be_animation_ntv_apply_brightness pixels_buf (ScaleArg.bytes mask1) start_pos end_pos
      = be_animation_ntv_apply_brightness pixels_buf (ScaleArg.bytes mask2)
          start_pos end_pos := by
  have hlen : mask1.length = mask2.length := by
    have := congrArg List.length h
    simpa only [List.length_map] using this
  cases hres : resolve_region pixels_buf.length start_pos end_pos with
  | none =>
    rw [apply_brightness_unresolved _ _ _ _ hres, apply_brightness_unresolved _ _ _ _ hres]
  | some q =>
    obtain ⟨s, e⟩ := q
    have hb := resolve_region_bounds _ _ _ s e hw hs1 hs2 he1 he2 hres
    obtain ⟨buf1, hrun1, _, hpt1⟩ := apply_brightness_mask_spec pixels_buf mask1
      start_pos end_pos s e hw hres hb.1 hb.2.1 hb.2.2
    obtain ⟨buf2, hrun2, _, hpt2⟩ := apply_brightness_mask_spec pixels_buf mask2
      start_pos end_pos s e hw hres hb.1 hb.2.1 hb.2.2
    rw [hrun1, hrun2]
    congr 1
    apply List.ext_getElem?
    intro j
    rw [hpt1 j, hpt2 j, hlen]
    have hf : (fun c => apply_brightness_mask_pixel c (mask1.getD j 0))
        = (fun c => apply_brightness_mask_pixel c (mask2.getD j 0)) := by
      funext c
      exact apply_brightness_mask_pixel_congr c _ _ (alpha_getD_of_map_eq mask1 mask2 h j)
    rw [hf]

/-- C24: in mask mode, for every buffer, mask and region both operations return
normally, and at every index i of the resolved region that is smaller than the
pixel count of the mask, with m the alpha byte of mask[i]: the alpha of buf[i]
after `apply_opacity` is `remap(m,0,255,0,a)`, a being its old alpha, and each
of the red, green and blue bytes of buf[i] after `apply_brightness` is
`remap(m,0,255,0,c)`, c being its old value.  A mask with the same alpha bytes
and any other red, green and blue bytes gives the same result buffer. -/
theorem C24_mask_mode_rescales_by_mask_alpha (pixels_buf mask_buf : List Nat)
    (start_pos end_pos : Int) (hw : pixels_buf.length < 2147483648)
    (hs1 : -2147483648 ≤ start_pos) (hs2 : start_pos < 2147483648)
    (he1 : -2147483648 ≤ end_pos) (he2 : end_pos < 2147483648) :
    (∃ buf1, be_animation_ntv_apply_opacity pixels_buf (ScaleArg.bytes mask_buf)
        start_pos end_pos = Except.ok buf1 ∧ buf1.length = pixels_buf.length ∧
      ∀ s e, resolve_region pixels_buf.length start_pos end_pos = some (s, e) →
        ∀ i : Nat, s ≤ (i : Int) → (i : Int) ≤ e → i < mask_buf.length →
          ((pixel_alpha (buf1.getD i 0) : Nat) : Int)
            = remap (pixel_alpha (mask_buf.getD i 0)) 0 255 0
                (pixel_alpha (pixels_buf.getD i 0))) ∧
    (∃ buf1, be_animation_ntv_apply_brightness pixels_buf (ScaleArg.bytes mask_buf)
        start_pos end_pos = Except.ok buf1 ∧ buf1.length = pixels_buf.length ∧
      ∀ s e, resolve_region pixels_buf.length start_pos end_pos = some (s, e) →
        ∀ i : Nat, s ≤ (i : Int) → (i : Int) ≤ e → i < mask_buf.length →
          ∀ channel ∈ [pixel_red, pixel_green, pixel_blue],
            ((channel (buf1.getD i 0) : Nat) : Int)
              = remap (pixel_alpha (mask_buf.getD i 0)) 0 255 0
                  (channel (pixels_buf.getD i 0))) ∧
    (∀ mask2 : List Nat, mask2.map pixel_alpha = mask_buf.map pixel_alpha →
      be_animation_ntv_apply_opacity pixels_buf (ScaleArg.bytes mask2) start_pos end_pos
        = be_animation_ntv_apply_opacity pixels_buf (ScaleArg.bytes mask_buf)
            start_pos end_pos ∧
      be_animation_ntv_apply_brightness pixels_buf (ScaleArg.bytes mask2) start_pos end_pos
        = be_animation_ntv_apply_brightness pixels_buf (ScaleArg.bytes mask_buf)
            start_pos end_pos) := by
  refine ⟨?_, ?_, ?_⟩
  · obtain ⟨buf1, hrun, hlen, hpix, _⟩ := apply_opacity_mask_region pixels_buf mask_buf
      start_pos end_pos hw hs1 hs2 he1 he2
    refine ⟨buf1, hrun, hlen, ?_⟩
    intro s e hres i h1 h2 h3
    rw [hpix s e hres i h1 h2 h3, (apply_opacity_mask_pixel_channels _ _).1, remap_byte]
  · obtain ⟨buf1, hrun, hlen, hpix, _⟩ := apply_brightness_mask_region pixels_buf mask_buf
      start_pos end_pos hw hs1 hs2 he1 he2
    refine ⟨buf1, hrun, hlen, ?_⟩
    intro s e hres i h1 h2 h3 channel hch
    obtain ⟨_, hr, hg, hb⟩ :=
      apply_brightness_mask_pixel_channels (pixels_buf.getD i 0) (mask_buf.getD i 0)
    rw [hpix s e hres i h1 h2 h3, remap_byte]
    simp only [List.mem_cons, List.mem_singleton, List.not_mem_nil, or_false] at hch
    rcases hch with rfl | rfl | rfl
    · rw [hr]
    · rw [hg]
    · rw [hb]
  · intro mask2 h
    exact ⟨apply_opacity_mask_congr pixels_buf mask2 mask_buf start_pos end_pos hw hs1 hs2
        he1 he2 h,
      apply_brightness_mask_congr pixels_buf mask2 mask_buf start_pos end_pos hw hs1 hs2
        he1 he2 h⟩

theorem C24_mask_mode_rescales_by_mask_alpha_witness :
    ∃ buf1, be_animation_ntv_apply_opacity [0x80112233, 0xFF445566, 0x40778899]
        (ScaleArg.bytes [0x7F000000, 0x10FFFFFF]) 0 (-1) = Except.ok buf1 ∧
      buf1.length = [0x80112233, 0xFF445566, 0x40778899].length ∧
      ∀ s e, resolve_region [0x80112233, 0xFF445566, 0x40778899].length 0 (-1) = some (s, e) →
        ∀ i : Nat, s ≤ (i : Int) → (i : Int) ≤ e → i < [0x7F000000, 0x10FFFFFF].length →
          ((pixel_alpha (buf1.getD i 0) : Nat) : Int)
            = remap (pixel_alpha ([0x7F000000, 0x10FFFFFF].getD i 0)) 0 255 0
                (pixel_alpha ([0x80112233, 0xFF445566, 0x40778899].getD i 0)) :=
  (C24_mask_mode_rescales_by_mask_alpha [0x80112233, 0xFF445566, 0x40778899]
    [0x7F000000, 0x10FFFFFF] 0 (-1) (by decide) (by decide) (by decide) (by decide)
    (by decide)).1

/-- C25: for every target buffer, every mask of k pixels (shorter than the
target or not, k = 0 included) and every region, `apply_opacity` and
`apply_brightness` in mask mode return normally, so every read of the mask was
inside it; the loop runs from the resolved start, which is not negative, to a
final `end_pos` smaller than k; and every target pixel at an index of k or more
is as before. -/
theorem C25_short_mask_limits_the_region (pixels_buf mask_buf : List Nat)
    (start_pos end_pos : Int) (hw : pixels_buf.length < 2147483648)
    (hs1 : -2147483648 ≤ start_pos) (hs2 : start_pos < 2147483648)
    (he1 : -2147483648 ≤ end_pos) (he2 : end_pos < 2147483648) :
    (∃ buf1, be_animation_ntv_apply_opacity pixels_buf (ScaleArg.bytes mask_buf)
        start_pos end_pos = Except.ok buf1 ∧ buf1.length = pixels_buf.length ∧
      (∀ j : Nat, mask_buf.length ≤ j → buf1.getD j 0 = pixels_buf.getD j 0) ∧
      ∀ s e, resolve_region pixels_buf.length start_pos end_pos = some (s, e) →
        be_animation_ntv_apply_opacity pixels_buf (ScaleArg.bytes mask_buf) start_pos end_pos
          = for_le (apply_opacity_mask_body mask_buf) s
              (mask_end_pos pixels_buf.length mask_buf.length e) pixels_buf ∧
        0 ≤ s ∧ mask_end_pos pixels_buf.length mask_buf.length e < mask_buf.length) ∧
    (∃ buf1, be_animation_ntv_apply_brightness pixels_buf (ScaleArg.bytes mask_buf)
        start_pos end_pos = Except.ok buf1 ∧ buf1.length = pixels_buf.length ∧
      (∀ j : Nat, mask_buf.length ≤ j → buf1.getD j 0 = pixels_buf.getD j 0) ∧
      ∀ s e, resolve_region pixels_buf.length start_pos end_pos = some (s, e) →
        be_animation_ntv_apply_brightness pixels_buf (ScaleArg.bytes mask_buf)
            start_pos end_pos
          = for_le (apply_brightness_mask_body mask_buf) s
              (mask_end_pos pixels_buf.length mask_buf.length e) pixels_buf ∧
        0 ≤ s ∧ mask_end_pos pixels_buf.length mask_buf.length e < mask_buf.length) := by
  constructor
  · obtain ⟨buf1, hrun, hlen, _, hout⟩ := apply_opacity_mask_region pixels_buf mask_buf
      start_pos end_pos hw hs1 hs2 he1 he2
    refine ⟨buf1, hrun, hlen, hout, ?_⟩
    intro s e hres
    have hb := resolve_region_bounds _ _ _ s e hw hs1 hs2 he1 he2 hres
    exact ⟨apply_opacity_resolved_mask _ _ _ _ s e hres, hb.1,
      (mask_end_bounds pixels_buf.length mask_buf.length e hw hb.2.2).2⟩
  · obtain ⟨buf1, hrun, hlen, _, hout⟩ := apply_brightness_mask_region pixels_buf mask_buf
      start_pos end_pos hw hs1 hs2 he1 he2
    refine ⟨buf1, hrun, hlen, hout, ?_⟩
    intro s e hres
    have hb := resolve_region_bounds _ _ _ s e hw hs1 hs2 he1 he2 hres
    exact ⟨apply_brightness_resolved_mask _ _ _ _ s e hres, hb.1,
      (mask_end_bounds pixels_buf.length mask_buf.length e hw hb.2.2).2⟩

theorem C25_short_mask_limits_the_region_witness :
    ∃ buf1, be_animation_ntv_apply_opacity [0x80112233, 0xFF445566, 0x40778899]
        (ScaleArg.bytes []) 0 (-1) = Except.ok buf1 ∧
      buf1.length = [0x80112233, 0xFF445566, 0x40778899].length ∧
      (∀ j : Nat, ([] : List Nat).length ≤ j →
        buf1.getD j 0 = [0x80112233, 0xFF445566, 0x40778899].getD j 0) ∧
      ∀ s e, resolve_region [0x80112233, 0xFF445566, 0x40778899].length 0 (-1) = some (s, e) →
        be_animation_ntv_apply_opacity [0x80112233, 0xFF445566, 0x40778899]
            (ScaleArg.bytes []) 0 (-1)
          = for_le (apply_opacity_mask_body []) s
              (mask_end_pos [0x80112233, 0xFF445566, 0x40778899].length
                ([] : List Nat).length e) [0x80112233, 0xFF445566, 0x40778899] ∧
        0 ≤ s ∧ mask_end_pos [0x80112233, 0xFF445566, 0x40778899].length
          ([] : List Nat).length e < ([] : List Nat).length :=
  (C25_short_mask_limits_the_region [0x80112233, 0xFF445566, 0x40778899] [] 0 (-1)
    (by decide) (by decide) (by decide) (by decide) (by decide)).1

/-! ## Claims on the range of the scalar -/

/-- The pixel of the number mode of `apply_opacity` is packed from
`opacity_channel` of the old alpha and the three old colour bytes. -/
theorem apply_opacity_value_pixel_eq (v : Int) (color : Nat) :
    apply_opacity_value_pixel v color =
      to_uint32 ((opacity_channel v ((color >>> 24) &&& 0xFF) <<< 24)
        ||| (((color >>> 16) &&& 0xFF) <<< 16) ||| (((color >>> 8) &&& 0xFF) <<< 8)
        ||| (color &&& 0xFF)) := rfl

/-- The alpha under a scalar of `0..511`, in plain arithmetic on the byte. -/
theorem opacity_channel_eq (v : Int) (a : Nat) (hv0 : 0 ≤ v) (hv : v ≤ 511) (ha : a ≤ 255) :
    opacity_channel v a =
      if v ≤ 255 then v.toNat * a / 255
      else min 255 (a + a * (v - 255).toNat * 255 / 65280) :=
  opacity_alpha_eq v a hv0 hv ha

/-- The alpha under a scalar of `0..511` stays a byte. -/
theorem opacity_channel_le (v : Int) (a : Nat) (hv0 : 0 ≤ v) (hv : v ≤ 511) (ha : a ≤ 255) :
    opacity_channel v a ≤ 255 := by
  rw [opacity_channel_eq v a hv0 hv ha]
  by_cases h : v ≤ 255
  · simp only [if_pos h]
    have ht : v.toNat ≤ 255 := by omega
    have hle : v.toNat * a / 255 ≤ a := scale_le v.toNat a ht
    generalize v.toNat * a / 255 = q at hle
    omega
  · simp only [if_neg h]
    exact Nat.min_le_left _ _

/-- The alpha byte of the pixel of the number mode of `apply_opacity` is
`opacity_channel` of the old alpha byte. -/
theorem apply_opacity_value_pixel_alpha (v : Int) (color : Nat) (hv0 : 0 ≤ v)
    (hv : v ≤ 511) :
    pixel_alpha (apply_opacity_value_pixel v color) = opacity_channel v (pixel_alpha color) := by
  have ha : pixel_alpha color ≤ 255 := by
    have := byte_lt (color >>> 24)
    simp only [pixel_alpha]
    omega
  rw [(apply_opacity_value_pixel_channels v color hv0 hv).1,
    opacity_channel_eq v (pixel_alpha color) hv0 hv ha]

/-- C26: for every channel value c in [0,255], the scalar 256 leaves c as it is
and the scalar 511 maps c to min(255, 2*c), both for the alpha under
`apply_opacity` (`opacity_channel`) and for a colour byte under
`apply_brightness` (`brightness_channel`); for every second argument in number
mode the result of both is in [0,255]; and for every scalar in [0,511] these
two functions give the alpha byte, and the red, green and blue bytes, of the
pixel that the operation writes. -/
theorem C26_scalar_256_and_511 (c : Nat) (hc : c ≤ 255) :
    opacity_channel 256 c = c ∧ opacity_channel 511 c = min 255 (2 * c) ∧
    brightness_channel 256 c = c ∧ brightness_channel 511 c = min 255 (2 * c) ∧
    (∀ arg : ScaleArg, opacity_channel (scale_value arg) c ≤ 255 ∧
      brightness_channel (scale_value arg) c ≤ 255) ∧
    (∀ (v : Int) (color : Nat), 0 ≤ v → v ≤ 511 →
      pixel_alpha (apply_opacity_value_pixel v color) = opacity_channel v (pixel_alpha color) ∧
      pixel_red (apply_brightness_value_pixel v color)
        = brightness_channel v (pixel_red color) ∧
      pixel_green (apply_brightness_value_pixel v color)
        = brightness_channel v (pixel_green color) ∧
      pixel_blue (apply_brightness_value_pixel v color)
        = brightness_channel v (pixel_blue color)) := by
  have e256 : ((256 : Int) - 255).toNat = 1 := by decide
  have e511 : ((511 : Int) - 255).toNat = 256 := by decide
  have n256 : ¬ ((256 : Int) ≤ 255) := by decide
  have n511 : ¬ ((511 : Int) ≤ 255) := by decide
  refine ⟨?_, ?_, ?_, ?_, ?_, ?_⟩
  · rw [opacity_channel_eq 256 c (by decide) (by decide) hc, if_neg n256, e256]
    omega
  · rw [opacity_channel_eq 511 c (by decide) (by decide) hc, if_neg n511, e511]
    omega
  · rw [brightness_channel_eq 256 c (by decide) (by decide) hc, if_neg n256, e256]
    omega
  · rw [brightness_channel_eq 511 c (by decide) (by decide) hc, if_neg n511, e511]
    omega
  · intro arg
    obtain ⟨hv0, hv⟩ := scale_value_range arg
    exact ⟨opacity_channel_le _ c hv0 hv hc, brightness_channel_le _ c hv0 hv hc⟩
  · intro v color hv0 hv
    exact ⟨apply_opacity_value_pixel_alpha v color hv0 hv,
      (apply_brightness_value_pixel_channels v color hv0 hv).2⟩

theorem C26_scalar_256_and_511_witness :
    opacity_channel 256 200 = 200 ∧ opacity_channel 511 200 = min 255 (2 * 200) ∧
    brightness_channel 256 200 = 200 ∧ brightness_channel 511 200 = min 255 (2 * 200) :=
  ⟨(C26_scalar_256_and_511 200 (by decide)).1,
    (C26_scalar_256_and_511 200 (by decide)).2.1,
    (C26_scalar_256_and_511 200 (by decide)).2.2.1,
    (C26_scalar_256_and_511 200 (by decide)).2.2.2.1⟩

/-- In number mode `apply_opacity` takes its second argument only through the
clamped scalar. -/
theorem apply_opacity_scale_congr (pixels_buf : List Nat) (arg1 arg2 : ScaleArg)
    (start_pos end_pos : Int) (h1 : ∀ mask_buf, arg1 ≠ ScaleArg.bytes mask_buf)
    (h2 : ∀ mask_buf, arg2 ≠ ScaleArg.bytes mask_buf)
    (h : scale_value arg1 = scale_value arg2) :
    be_animation_ntv_apply_opacity pixels_buf arg1 start_pos end_pos
      = be_animation_ntv_apply_opacity pixels_buf arg2 start_pos end_pos := by
  cases hres : resolve_region pixels_buf.length start_pos end_pos with
  | none =>
    rw [apply_opacity_unresolved _ _ _ _ hres, apply_opacity_unresolved _ _ _ _ hres]
  | some q =>
    obtain ⟨s, e⟩ := q
    rw [apply_opacity_resolved_value _ _ _ _ s e hres h1,
      apply_opacity_resolved_value _ _ _ _ s e hres h2, h]

/-- In number mode `apply_brightness` takes its second argument only through
the clamped scalar. -/
theorem apply_brightness_scale_congr (pixels_buf : List Nat) (arg1 arg2 : ScaleArg)
    (start_pos end_pos : Int) (h1 : ∀ mask_buf, arg1 ≠ ScaleArg.bytes mask_buf)
    (h2 : ∀ mask_buf, arg2 ≠ ScaleArg.bytes mask_buf)
    (h : scale_value arg1 = scale_value arg2) :
    be_animation_ntv_apply_brightness pixels_buf arg1 start_pos end_pos
      = be_animation_ntv_apply_brightness pixels_buf arg2 start_pos end_pos := by
  cases hres : resolve_region pixels_buf.length start_pos end_pos with
  | none =>
    rw [apply_brightness_unresolved _ _ _ _ hres, apply_brightness_unresolved _ _ _ _ hres]
  | some q =>
    obtain ⟨s, e⟩ := q
    rw [apply_brightness_resolved_value _ _ _ _ s e hres h1,
      apply_brightness_resolved_value _ _ _ _ s e hres h2, h]

/-- The clamp of lines 418-419 and 526-527 on an `int32_t` scalar. -/
theorem scale_value_clamp (v : Int) (hv1 : -2147483648 ≤ v) (hv2 : v < 2147483648) :
    scale_value (ScaleArg.int v) = if v < 0 then 0 else if v > 511 then 511 else v := by
  unfold scale_value
  simp only
  rw [to_int32_of_range v hv1 hv2]
  split_ifs <;> omega

/-- The scalar of the number mode is 255 when the second argument is missing,
or is neither an integer nor a byte buffer. -/
theorem scale_value_default :
    scale_value ScaleArg.absent = 255 ∧ scale_value ScaleArg.other = 255 := by
  constructor <;> decide

/-- C27: for every buffer, every region and every `int32_t` scalar v,
`apply_opacity` and `apply_brightness` give with v < 0 what they give with the
scalar 0, with v > 511 what they give with the scalar 511, with v in [0,511]
the scalar is used as it is (the clamped scalar is v), and with a second
argument that is absent, or is neither an integer nor a byte buffer, what they
give with the scalar 255. -/
theorem C27_scalar_is_clamped (pixels_buf : List Nat) (v : Int) (start_pos end_pos : Int)
    (hv1 : -2147483648 ≤ v) (hv2 : v < 2147483648) :
    (v < 0 →
      be_animation_ntv_apply_opacity pixels_buf (ScaleArg.int v) start_pos end_pos
        = be_animation_ntv_apply_opacity pixels_buf (ScaleArg.int 0) start_pos end_pos ∧
      be_animation_ntv_apply_brightness pixels_buf (ScaleArg.int v) start_pos end_pos
        = be_animation_ntv_apply_brightness pixels_buf (ScaleArg.int 0) start_pos end_pos) ∧
    (511 < v →
      be_animation_ntv_apply_opacity pixels_buf (ScaleArg.int v) start_pos end_pos
        = be_animation_ntv_apply_opacity pixels_buf (ScaleArg.int 511) start_pos end_pos ∧
      be_animation_ntv_apply_brightness pixels_buf (ScaleArg.int v) start_pos end_pos
        = be_animation_ntv_apply_brightness pixels_buf (ScaleArg.int 511) start_pos end_pos) ∧
    (0 ≤ v → v ≤ 511 → scale_value (ScaleArg.int v) = v) ∧
    (∀ arg ∈ [ScaleArg.absent, ScaleArg.other],
      be_animation_ntv_apply_opacity pixels_buf arg start_pos end_pos
        = be_animation_ntv_apply_opacity pixels_buf (ScaleArg.int 255) start_pos end_pos ∧
      be_animation_ntv_apply_brightness pixels_buf arg start_pos end_pos
        = be_animation_ntv_apply_brightness pixels_buf (ScaleArg.int 255) start_pos end_pos) := by
  have hint : ∀ w : Int, ∀ mask_buf, ScaleArg.int w ≠ ScaleArg.bytes mask_buf :=
    fun w m hm => by cases hm
  have hc := scale_value_clamp v hv1 hv2
  refine ⟨?_, ?_, ?_, ?_⟩
  · intro hneg
    have hsv : scale_value (ScaleArg.int v) = scale_value (ScaleArg.int 0) := by
      rw [hc, if_pos hneg, scale_value_0]
    exact ⟨apply_opacity_scale_congr _ _ _ _ _ (hint v) (hint 0) hsv,
      apply_brightness_scale_congr _ _ _ _ _ (hint v) (hint 0) hsv⟩
  · intro hbig
    have h511 : scale_value (ScaleArg.int 511) = 511 := by decide
    have hsv : scale_value (ScaleArg.int v) = scale_value (ScaleArg.int 511) := by
      rw [hc, if_neg (by omega), if_pos (by omega), h511]
    exact ⟨apply_opacity_scale_congr _ _ _ _ _ (hint v) (hint 511) hsv,
      apply_brightness_scale_congr _ _ _ _ _ (hint v) (hint 511) hsv⟩
  · intro h0 h511
    rw [hc, if_neg (by omega), if_neg (by omega)]
  · intro arg harg
    simp only [List.mem_cons, List.mem_singleton, List.not_mem_nil, or_false] at harg
    rcases harg with rfl | rfl
    · have hsv : scale_value ScaleArg.absent = scale_value (ScaleArg.int 255) := by
        rw [scale_value_default.1, scale_value_255]
      exact ⟨apply_opacity_scale_congr _ _ _ _ _ (fun m hm => by cases hm) (hint 255) hsv,
        apply_brightness_scale_congr _ _ _ _ _ (fun m hm => by cases hm) (hint 255) hsv⟩
    · have hsv : scale_value ScaleArg.other = scale_value (ScaleArg.int 255) := by
        rw [scale_value_default.2, scale_value_255]
      exact ⟨apply_opacity_scale_congr _ _ _ _ _ (fun m hm => by cases hm) (hint 255) hsv,
        apply_brightness_scale_congr _ _ _ _ _ (fun m hm => by cases hm) (hint 255) hsv⟩

theorem C27_scalar_is_clamped_witness :
    be_animation_ntv_apply_opacity [0x80112233, 0xFF445566] (ScaleArg.int (-7)) 0 (-1)
        = be_animation_ntv_apply_opacity [0x80112233, 0xFF445566] (ScaleArg.int 0) 0 (-1) ∧
      be_animation_ntv_apply_brightness [0x80112233, 0xFF445566] (ScaleArg.int (-7)) 0 (-1)
        = be_animation_ntv_apply_brightness [0x80112233, 0xFF445566] (ScaleArg.int 0) 0 (-1) :=
  (C27_scalar_is_clamped [0x80112233, 0xFF445566] (-7) 0 (-1) (by decide) (by decide)).1
    (by decide)

/-! ## Claim on the argument errors -/

/-- A failed read is an access outside the buffer. -/
theorem rd_error_eq (buf : List Nat) (i : Int) (e : Err) (h : rd buf i = Except.error e) :
    e = Err.out_of_bounds := by
  unfold rd at h
  split_ifs at h
  simp only [Except.error.injEq] at h
  exact h.symm

/-- A failed write is an access outside the buffer. -/
theorem wr_error_eq (buf : List Nat) (i : Int) (v : Nat) (e : Err)
    (h : wr buf i v = Except.error e) : e = Err.out_of_bounds := by
  unfold wr at h
  split_ifs at h
  simp only [Except.error.injEq] at h
  exact h.symm

/-- A loop fails only with a failure of its body. -/
theorem for_loop_error_eq {σ : Type} (body : Int → σ → Except Err σ)
    (hbody : ∀ i s e, body i s = Except.error e → e = Err.out_of_bounds) :
    ∀ (n : Nat) (i : Int) (s : σ) (e : Err),
      for_loop body n i s = Except.error e → e = Err.out_of_bounds := by
  intro n
  induction n with
  | zero =>
    intro i s e h
    simp only [for_loop] at h
    cases h
  | succ n ih =>
    intro i s e h
    simp only [for_loop] at h
    cases hb : body i s with
    | ok s1 =>
      rw [hb] at h
      exact ih (i + 1) s1 e h
    | error e1 =>
      rw [hb] at h
      simp only [Except.error.injEq] at h
      rw [← h]
      exact hbody i s e1 hb

/-- One turn of the loop of `blend_pixels` fails only with an access outside a
buffer. -/
theorem blend_pixels_body_error_eq (i : Int) (bufs : List Nat × List Nat) (e : Err)
    (h : blend_pixels_body i bufs = Except.error e) : e = Err.out_of_bounds := by
  unfold blend_pixels_body at h
  cases h2 : rd bufs.2 i with
  | error e2 =>
    rw [h2] at h
    simp only [Except.error.injEq] at h
    rw [← h]
    exact rd_error_eq _ _ _ h2
  | ok color2 =>
    rw [h2] at h
    simp only at h
    split_ifs at h with ha hb
    · cases hw1 : wr bufs.1 i color2 with
      | error e3 =>
        rw [hw1] at h
        simp only [Except.error.injEq] at h
        rw [← h]
        exact wr_error_eq _ _ _ _ hw1
      | ok dest =>
        rw [hw1] at h
        cases h
    · cases h1 : rd bufs.1 i with
      | error e3 =>
        rw [h1] at h
        simp only [Except.error.injEq] at h
        rw [← h]
        exact rd_error_eq _ _ _ h1
      | ok color1 =>
        rw [h1] at h
        simp only at h
        cases hw1 : wr bufs.1 i (blend_pixels_mix color1 color2) with
        | error e4 =>
          rw [hw1] at h
          simp only [Except.error.injEq] at h
          rw [← h]
          exact wr_error_eq _ _ _ _ hw1
        | ok dest =>
          rw [hw1] at h
          cases h

/-- With two byte buffers `blend_pixels` returns normally or fails with an
access outside a buffer, never with an argument error. -/
theorem blend_pixels_error_eq (dest_buf src_buf : List Nat) (region_start region_end : Int)
    (e : Err)
    (h : be_animation_ntv_blend_pixels dest_buf src_buf region_start region_end
      = Except.error e) : e = Err.out_of_bounds := by
  cases hres : resolve_region (if dest_buf.length < src_buf.length then src_buf.length
      else dest_buf.length) region_start region_end with
  | none =>
    rw [blend_pixels_unresolved _ _ _ _ hres] at h
    cases h
  | some q =>
    obtain ⟨s, t⟩ := q
    rw [blend_pixels_resolved _ _ _ _ s t hres] at h
    exact for_loop_error_eq blend_pixels_body blend_pixels_body_error_eq _ _ _ e h

/-- C28: `blend_pixels` fails with an argument error if and only if the
destination or the source argument is not a byte buffer (with two byte buffers
the call is the function on the two buffers, which never gives an argument
error); each of `gradient_fill`, `blend_color`, `apply_opacity`,
`apply_brightness` and `fill_pixels` fails with an argument error when its
pixel-buffer argument is not a byte buffer, and is the function on the buffer
when it is one.  The failure is the result of the call before any read or
write of a pixel. -/
theorem C28_argument_error_on_invalid_buffer :
    (∀ (dest_arg src_arg : Option (List Nat)) (region_start region_end : Int),
      blend_pixels_entry dest_arg src_arg region_start region_end
          = Except.error Err.argument_error ↔ (dest_arg = none ∨ src_arg = none)) ∧
    (∀ (dest_buf src_buf : List Nat) (region_start region_end : Int),
      blend_pixels_entry (some dest_buf) (some src_buf) region_start region_end
        = be_animation_ntv_blend_pixels dest_buf src_buf region_start region_end) ∧
    (∀ (color1 color2 : Nat) (start_pos end_pos : Int),
      gradient_fill_entry none color1 color2 start_pos end_pos
        = Except.error Err.argument_error) ∧
    (∀ (color : Nat) (start_pos end_pos : Int),
      blend_color_entry none color start_pos end_pos = Except.error Err.argument_error) ∧
    (∀ (arg : ScaleArg) (start_pos end_pos : Int),
      apply_opacity_entry none arg start_pos end_pos = Except.error Err.argument_error) ∧
    (∀ (arg : ScaleArg) (start_pos end_pos : Int),
      apply_brightness_entry none arg start_pos end_pos = Except.error Err.argument_error) ∧
    (∀ (color : Nat) (start_pos end_pos : Int),
      fill_pixels_entry none color start_pos end_pos = Except.error Err.argument_error) ∧
    (∀ (pixels_buf : List Nat) (color1 color2 color : Nat) (arg : ScaleArg)
        (start_pos end_pos : Int),
      gradient_fill_entry (some pixels_buf) color1 color2 start_pos end_pos
        = be_animation_ntv_gradient_fill pixels_buf color1 color2 start_pos end_pos ∧
      blend_color_entry (some pixels_buf) color start_pos end_pos
        = be_animation_ntv_blend_color pixels_buf color start_pos end_pos ∧
      apply_opacity_entry (some pixels_buf) arg start_pos end_pos
        = be_animation_ntv_apply_opacity pixels_buf arg start_pos end_pos ∧
      apply_brightness_entry (some pixels_buf) arg start_pos end_pos
        = be_animation_ntv_apply_brightness pixels_buf arg start_pos end_pos ∧
      fill_pixels_entry (some pixels_buf) color start_pos end_pos
        = be_animation_ntv_fill_pixels pixels_buf color start_pos end_pos) := by
  refine ⟨?_, fun _ _ _ _ => rfl, fun _ _ _ _ => rfl, fun _ _ _ => rfl, fun _ _ _ => rfl,
    fun _ _ _ => rfl, fun _ _ _ => rfl, fun _ _ _ _ _ _ _ => ⟨rfl, rfl, rfl, rfl, rfl⟩⟩
  intro dest_arg src_arg region_start region_end
  cases dest_arg with
  | none =>
    constructor
    · intro _
      exact Or.inl rfl
    · intro _
      rfl
  | some dest_buf =>
    cases src_arg with
    | none =>
      constructor
      · intro _
        exact Or.inr rfl
      · intro _
        rfl
    | some src_buf =>
      constructor
      · intro h
        have h1 : be_animation_ntv_blend_pixels dest_buf src_buf region_start region_end
            = Except.error Err.argument_error := h
        have h2 := blend_pixels_error_eq _ _ _ _ _ h1
        cases h2
      · intro h
        rcases h with h | h <;> cases h

/-! ## Claims on the pixel codec and the blended alpha -/

/-- C29: channel extraction and packing are mutually inverse: for every 32-bit
pixel p, packing its alpha, red, green and blue bytes (shifts 24, 16, 8, 0)
gives p; and for all a, r, g, b in [0,255] the packed value is a 32-bit value
whose alpha, red, green and blue bytes are a, r, g, b. -/
theorem C29_channels_and_packing_are_inverse (p a r g b : Nat) (hp : p < 4294967296)
    (ha : a ≤ 255) (hr : r ≤ 255) (hg : g ≤ 255) (hb : b ≤ 255) :
    ((pixel_alpha p <<< 24) ||| (pixel_red p <<< 16) ||| (pixel_green p <<< 8) ||| pixel_blue p)
      = p ∧
    to_uint32 ((a <<< 24) ||| (r <<< 16) ||| (g <<< 8) ||| b)
      = (a <<< 24) ||| (r <<< 16) ||| (g <<< 8) ||| b ∧
    pixel_alpha ((a <<< 24) ||| (r <<< 16) ||| (g <<< 8) ||| b) = a ∧
    pixel_red ((a <<< 24) ||| (r <<< 16) ||| (g <<< 8) ||| b) = r ∧
    pixel_green ((a <<< 24) ||| (r <<< 16) ||| (g <<< 8) ||| b) = g ∧
    pixel_blue ((a <<< 24) ||| (r <<< 16) ||| (g <<< 8) ||| b) = b := by
  refine ⟨?_, ?_, ?_, ?_, ?_, ?_⟩
  · rw [pack_eq _ _ _ _ (byte_lt _) (byte_lt _) (byte_lt _)]
    simp only [pixel_alpha, pixel_red, pixel_green, pixel_blue, and_ff_eq,
      Nat.shiftRight_eq_div_pow]
    omega
  · rw [pack_eq a r g b (by omega) (by omega) (by omega)]
    unfold to_uint32
    omega
  · rw [pack_eq a r g b (by omega) (by omega) (by omega)]
    simp only [pixel_alpha, and_ff_eq, Nat.shiftRight_eq_div_pow]
    omega
  · rw [pack_eq a r g b (by omega) (by omega) (by omega)]
    simp only [pixel_red, and_ff_eq, Nat.shiftRight_eq_div_pow]
    omega
  · rw [pack_eq a r g b (by omega) (by omega) (by omega)]
    simp only [pixel_green, and_ff_eq, Nat.shiftRight_eq_div_pow]
    omega
  · rw [pack_eq a r g b (by omega) (by omega) (by omega)]
    simp only [pixel_blue, and_ff_eq]
    omega

theorem C29_channels_and_packing_are_inverse_witness :
    ((pixel_alpha 0x80FF7F01 <<< 24) ||| (pixel_red 0x80FF7F01 <<< 16)
      ||| (pixel_green 0x80FF7F01 <<< 8) ||| pixel_blue 0x80FF7F01) = 0x80FF7F01 ∧
    to_uint32 ((255 <<< 24) ||| (0 <<< 16) ||| (128 <<< 8) ||| 7)
      = (255 <<< 24) ||| (0 <<< 16) ||| (128 <<< 8) ||| 7 ∧
    pixel_alpha ((255 <<< 24) ||| (0 <<< 16) ||| (128 <<< 8) ||| 7) = 255 ∧
    pixel_red ((255 <<< 24) ||| (0 <<< 16) ||| (128 <<< 8) ||| 7) = 0 ∧
    pixel_green ((255 <<< 24) ||| (0 <<< 16) ||| (128 <<< 8) ||| 7) = 128 ∧
    pixel_blue ((255 <<< 24) ||| (0 <<< 16) ||| (128 <<< 8) ||| 7) = 7 :=
  C29_channels_and_packing_are_inverse 0x80FF7F01 255 0 128 7 (by decide) (by decide)
    (by decide) (by decide) (by decide)

/-- The blended alpha on byte values: the rescale over `0..255*255` is the
quotient by 255, and the sum lies between the larger of the two alphas and
255. -/
theorem blend_alpha_bounds (a1 a2 : Nat) (h1 : a1 ≤ 255) (h2 : a2 ≤ 255) :
    (255 - a1) * a2 * 255 / 65025 = (255 - a1) * a2 / 255 ∧
    max a1 a2 ≤ a1 + (255 - a1) * a2 / 255 ∧ a1 + (255 - a1) * a2 / 255 ≤ 255 := by
  have hq : (255 - a1) * a2 * 255 / 65025 = (255 - a1) * a2 / 255 :=
    Nat.mul_div_mul_right ((255 - a1) * a2) 255 (by norm_num)
  have hup := (alpha_term_le a1 a2 h1 h2).2
  rw [hq] at hup
  have hlow : a2 - a1 ≤ (255 - a1) * a2 / 255 := by
    rw [Nat.le_div_iff_mul_le (by norm_num)]
    by_cases hle : a2 ≤ a1
    · have : a2 - a1 = 0 := by omega
      rw [this]
      omega
    · obtain ⟨d, rfl⟩ : ∃ d, a2 = a1 + d := ⟨a2 - a1, by omega⟩
      obtain ⟨k, hk⟩ : ∃ k, 255 = a1 + k := ⟨255 - a1, by omega⟩
      have hdk : d ≤ k := by omega
      have e1 : a1 + d - a1 = d := by omega
      have e2 : 255 - a1 = k := by omega
      rw [e1, e2]
      have h3 : d * a1 ≤ k * a1 := Nat.mul_le_mul_right _ hdk
      calc d * 255 = d * (a1 + k) := by rw [← hk]
        _ = d * a1 + d * k := by ring
        _ ≤ k * a1 + d * k := by omega
        _ = k * (a1 + d) := by ring
  refine ⟨hq, ?_, by omega⟩
  generalize (255 - a1) * a2 / 255 = q at hlow hup
  omega

/-- The value of a `uint8_t` is a byte. -/
theorem to_uint8_lt (x : Nat) : to_uint8 x < 256 := by
  unfold to_uint8
  omega

/-- The alpha statement of lines 65-68 (and 171-172, 330-331) with its clamp:
the clamp leaves the sum as it is. -/
theorem blend_alpha_clamp (a1 a2 : Nat) (h1 : a1 ≤ 255) (h2 : a2 ≤ 255) :
    (if a1 + changeUIntScale ((255 - a1) * a2) 0 (255 * 255) 0 255 > 255 then 255
      else a1 + changeUIntScale ((255 - a1) * a2) 0 (255 * 255) 0 255)
      = a1 + (255 - a1) * a2 / 255 := by
  obtain ⟨hq, _, hup⟩ := blend_alpha_bounds a1 a2 h1 h2
  rw [blend_alpha_eq a1 a2 h1 h2, hq, if_neg (by omega)]

/-- The alpha byte of the pixel `blend_pixels` mixes. -/
theorem blend_pixels_mix_alpha (color1 color2 : Nat) :
    pixel_alpha (blend_pixels_mix color1 color2)
      = pixel_alpha color1 + (255 - pixel_alpha color1) * pixel_alpha color2 / 255 := by
  have h1 : (color1 >>> 24) &&& 0xFF ≤ 255 := by
    have := byte_lt (color1 >>> 24)
    omega
  have h2 : (color2 >>> 24) &&& 0xFF ≤ 255 := by
    have := byte_lt (color2 >>> 24)
    omega
  have hup := (blend_alpha_bounds _ _ h1 h2).2.2
  simp only [blend_pixels_mix, pixel_alpha]
  rw [blend_alpha_clamp _ _ h1 h2]
  exact (channels_of_pack _ _ _ _ (by omega) (to_uint8_lt _) (to_uint8_lt _)
    (to_uint8_lt _)).1

/-- The alpha byte of the pixel `blend_color` writes, for a colour alpha that
is a byte. -/
theorem blend_color_mix_alpha (a2 r2 g2 b2 color1 : Nat) (h2 : a2 ≤ 255) :
    pixel_alpha (blend_color_mix a2 r2 g2 b2 color1)
      = pixel_alpha color1 + (255 - pixel_alpha color1) * a2 / 255 := by
  have h1 : (color1 >>> 24) &&& 0xFF ≤ 255 := by
    have := byte_lt (color1 >>> 24)
    omega
  have hup := (blend_alpha_bounds _ _ h1 h2).2.2
  simp only [blend_color_mix, pixel_alpha]
  rw [blend_alpha_clamp _ _ h1 h2]
  exact (channels_of_pack _ _ _ _ (by omega) (to_uint8_lt _) (to_uint8_lt _)
    (to_uint8_lt _)).1

/-- The alpha byte of the pixel `blend` returns, for every pair of colours. -/
theorem blend_alpha (color1 color2 : Nat) :
    pixel_alpha (be_animation_ntv_blend color1 color2)
      = pixel_alpha color1 + (255 - pixel_alpha color1) * pixel_alpha color2 / 255 := by
  have h1 : (color1 >>> 24) &&& 0xFF ≤ 255 := by
    have := byte_lt (color1 >>> 24)
    omega
  have h2 : (color2 >>> 24) &&& 0xFF ≤ 255 := by
    have := byte_lt (color2 >>> 24)
    omega
  have hup := (blend_alpha_bounds _ _ h1 h2).2.2
  by_cases ha : (color2 >>> 24) &&& 0xFF = 0
  · have hb : be_animation_ntv_blend color1 color2 = color1 := by
      simp only [be_animation_ntv_blend, if_pos ha]
    have hz : pixel_alpha color2 = 0 := ha
    rw [hb, hz, Nat.mul_zero, Nat.zero_div, Nat.add_zero]
  · simp only [be_animation_ntv_blend, pixel_alpha, if_neg ha]
    rw [blend_alpha_clamp _ _ h1 h2]
    exact (channels_of_pack _ _ _ _ (by omega) (to_uint8_lt _) (to_uint8_lt _)
      (to_uint8_lt _)).1

/-- C30: for all a1, a2 in [0,255]: the blended alpha of the specification,
`a1 + remap((255-a1)*a2, 0, 255*255, 0, 255)`, and the sum the code computes
with `changeUIntScale` are both `a1 + floor((255-a1)*a2/255)`; this value is at
least max(a1, a2) and at most 255, so the clamp to 255 leaves it as it is; it
is the alpha byte of the pixel that `blend`, `blend_pixels` and `blend_color`
produce from a destination of alpha a1 and a source of alpha a2; and over a
destination of alpha 255 the three give alpha 255. -/
theorem C30_blended_alpha_bounds (a1 a2 : Nat) (h1 : a1 ≤ 255) (h2 : a2 ≤ 255) :
    (a1 : Int) + remap ((255 - (a1 : Int)) * (a2 : Int)) 0 (255 * 255) 0 255
      = ((a1 + (255 - a1) * a2 / 255 : Nat) : Int) ∧
    a1 + changeUIntScale ((255 - a1) * a2) 0 (255 * 255) 0 255
      = a1 + (255 - a1) * a2 / 255 ∧
    max a1 a2 ≤ a1 + (255 - a1) * a2 / 255 ∧ a1 + (255 - a1) * a2 / 255 ≤ 255 ∧
    (∀ color1 color2 : Nat, pixel_alpha color1 = a1 → pixel_alpha color2 = a2 →
      pixel_alpha (be_animation_ntv_blend color1 color2) = a1 + (255 - a1) * a2 / 255 ∧
      pixel_alpha (blend_pixels_mix color1 color2) = a1 + (255 - a1) * a2 / 255 ∧
      pixel_alpha (blend_color_mix (pixel_alpha color2) (pixel_red color2)
        (pixel_green color2) (pixel_blue color2) color1) = a1 + (255 - a1) * a2 / 255) ∧
    (∀ color1 color2 : Nat, pixel_alpha color1 = 255 →
      pixel_alpha (be_animation_ntv_blend color1 color2) = 255 ∧
      pixel_alpha (blend_pixels_pixel color1 color2) = 255 ∧
      pixel_alpha (blend_color_mix (pixel_alpha color2) (pixel_red color2)
        (pixel_green color2) (pixel_blue color2) color1) = 255) := by
  obtain ⟨hq, hlow, hup⟩ := blend_alpha_bounds a1 a2 h1 h2
  refine ⟨?_, ?_, hlow, hup, ?_, ?_⟩
  · have hr := remap_alpha ((255 - a1) * a2)
    rw [hq] at hr
    have hc : (((255 - a1) * a2 : Nat) : Int) = (255 - (a1 : Int)) * (a2 : Int) := by
      rw [Nat.cast_mul, Nat.cast_sub h1]
      rfl
    rw [hc] at hr
    rw [hr]
    push_cast
    rfl
  · rw [blend_alpha_eq a1 a2 h1 h2, hq]
  · intro color1 color2 e1 e2
    have hb2 : pixel_alpha color2 ≤ 255 := by omega
    refine ⟨?_, ?_, ?_⟩
    · rw [blend_alpha, e1, e2]
    · rw [blend_pixels_mix_alpha, e1, e2]
    · rw [blend_color_mix_alpha _ _ _ _ _ hb2, e1, e2]
  · intro color1 color2 e1
    have hb2 : pixel_alpha color2 ≤ 255 := by
      have := byte_lt (color2 >>> 24)
      simp only [pixel_alpha]
      omega
    have hz : ∀ x : Nat, 255 + (255 - 255) * x / 255 = 255 := by
      intro x
      rw [Nat.sub_self, Nat.zero_mul, Nat.zero_div, Nat.add_zero]
    refine ⟨?_, ?_, ?_⟩
    · rw [blend_alpha, e1]
      exact hz _
    · unfold blend_pixels_pixel
      simp only
      split_ifs with ha hb
      · exact hb
      · rw [blend_pixels_mix_alpha, e1]
        exact hz _
      · exact e1
    · rw [blend_color_mix_alpha _ _ _ _ _ hb2, e1]
      exact hz _

theorem C30_blended_alpha_bounds_witness :
    (128 : Int) + remap ((255 - ((128 : Nat) : Int)) * ((200 : Nat) : Int)) 0 (255 * 255) 0 255
      = ((128 + (255 - 128) * 200 / 255 : Nat) : Int) ∧
    128 + changeUIntScale ((255 - 128) * 200) 0 (255 * 255) 0 255
      = 128 + (255 - 128) * 200 / 255 ∧
    max 128 200 ≤ 128 + (255 - 128) * 200 / 255 ∧ 128 + (255 - 128) * 200 / 255 ≤ 255 :=
  ⟨(C30_blended_alpha_bounds 128 200 (by decide) (by decide)).1,
    (C30_blended_alpha_bounds 128 200 (by decide) (by decide)).2.1,
    (C30_blended_alpha_bounds 128 200 (by decide) (by decide)).2.2.1,
    (C30_blended_alpha_bounds 128 200 (by decide) (by decide)).2.2.2.1⟩

/-! ## Claims on the blended colour channel -/

/-- The two-term sum on byte values lies between the smaller of the two channel
values less one and the larger of them. -/
theorem two_term_between (a c1 c2 : Nat) (ha : a ≤ 255) :
    (255 - a) * c1 / 255 + a * c2 / 255 ≤ max c1 c2 ∧
    min c1 c2 ≤ (255 - a) * c1 / 255 + a * c2 / 255 + 1 := by
  have hsum : 255 - a + a = 255 := by omega
  have u1 : (255 - a) * c1 ≤ (255 - a) * max c1 c2 :=
    Nat.mul_le_mul_left _ (Nat.le_max_left _ _)
  have u2 : a * c2 ≤ a * max c1 c2 := Nat.mul_le_mul_left _ (Nat.le_max_right _ _)
  have u3 : (255 - a) * max c1 c2 + a * max c1 c2 = 255 * max c1 c2 := by
    rw [← Nat.add_mul, hsum]
  have l1 : (255 - a) * min c1 c2 ≤ (255 - a) * c1 :=
    Nat.mul_le_mul_left _ (Nat.min_le_left _ _)
  have l2 : a * min c1 c2 ≤ a * c2 := Nat.mul_le_mul_left _ (Nat.min_le_right _ _)
  have l3 : (255 - a) * min c1 c2 + a * min c1 c2 = 255 * min c1 c2 := by
    rw [← Nat.add_mul, hsum]
  generalize max c1 c2 = M at u1 u2 u3 ⊢
  generalize min c1 c2 = m at l1 l2 l3 ⊢
  generalize (255 - a) * c1 = x at u1 l1 ⊢
  generalize a * c2 = y at u2 l2 ⊢
  generalize (255 - a) * M = xM at u1 u3
  generalize a * M = yM at u2 u3
  generalize (255 - a) * m = xm at l1 l3
  generalize a * m = ym at l2 l3
  constructor <;> omega

/-- The two terms of a blended colour channel as the two calls of the code
compute them, on byte values. -/
theorem blend_terms_eq (a x y : Nat) (ha : a ≤ 255) (hx : x ≤ 255) (hy : y ≤ 255) :
    changeUIntScale (255 - a) 0 255 0 x = (255 - a) * x / 255 ∧
    changeUIntScale a 0 255 0 y = a * y / 255 := by
  have h1 := scale_le (255 - a) x (by omega)
  have h2 := scale_le a y ha
  constructor
  · exact changeUIntScale_zero_based (255 - a) 255 x (by omega) (by norm_num) (by omega)
      (by generalize (255 - a) * x / 255 = q at h1; omega)
  · exact changeUIntScale_zero_based a 255 y (by omega) (by norm_num) (by omega)
      (by generalize a * y / 255 = q at h2; omega)

/-- The two terms of a blended colour channel in the words of the
specification, on byte values. -/
theorem remap_terms_eq (a x y : Nat) (ha : a ≤ 255) :
    remap (255 - (a : Int)) 0 255 0 (x : Int) = (((255 - a) * x / 255 : Nat) : Int) ∧
    remap (a : Int) 0 255 0 (y : Int) = ((a * y / 255 : Nat) : Int) := by
  constructor
  · have h := remap_byte (255 - a) x
    rw [Nat.cast_sub ha] at h
    exact h
  · exact remap_byte a y

/-- The two-term sum the code computes is a byte, and storing it in a
`uint8_t` keeps it. -/
theorem two_term_fits (a x y : Nat) (ha : a ≤ 255) (hx : x ≤ 255) (hy : y ≤ 255) :
    changeUIntScale (255 - a) 0 255 0 x + changeUIntScale a 0 255 0 y ≤ 255 ∧
    to_uint8 (changeUIntScale (255 - a) 0 255 0 x + changeUIntScale a 0 255 0 y)
      = changeUIntScale (255 - a) 0 255 0 x + changeUIntScale a 0 255 0 y := by
  obtain ⟨e1, e2⟩ := blend_terms_eq a x y ha hx hy
  have hle := two_term_le a x y ha hx hy
  rw [e1, e2]
  refine ⟨hle, ?_⟩
  unfold to_uint8
  exact Nat.mod_eq_of_lt (by omega)

/-- The three colour bytes of the pixel `blend_pixels` mixes are the two-term
sums of the code, not reduced by the `uint8_t` store nor by the packing. -/
theorem blend_pixels_mix_colours (color1 color2 : Nat) :
    pixel_red (blend_pixels_mix color1 color2)
      = changeUIntScale (255 - pixel_alpha color2) 0 255 0 (pixel_red color1)
        + changeUIntScale (pixel_alpha color2) 0 255 0 (pixel_red color2) ∧
    pixel_green (blend_pixels_mix color1 color2)
      = changeUIntScale (255 - pixel_alpha color2) 0 255 0 (pixel_green color1)
        + changeUIntScale (pixel_alpha color2) 0 255 0 (pixel_green color2) ∧
    pixel_blue (blend_pixels_mix color1 color2)
      = changeUIntScale (255 - pixel_alpha color2) 0 255 0 (pixel_blue color1)
        + changeUIntScale (pixel_alpha color2) 0 255 0 (pixel_blue color2) := by
  have h1 : (color1 >>> 24) &&& 0xFF ≤ 255 := by
    have := byte_lt (color1 >>> 24)
    omega
  have h2 : (color2 >>> 24) &&& 0xFF ≤ 255 := by
    have := byte_lt (color2 >>> 24)
    omega
  have hup := (blend_alpha_bounds _ _ h1 h2).2.2
  have hr := two_term_fits ((color2 >>> 24) &&& 0xFF) ((color1 >>> 16) &&& 0xFF)
    ((color2 >>> 16) &&& 0xFF) h2 (by have := byte_lt (color1 >>> 16); omega)
    (by have := byte_lt (color2 >>> 16); omega)
  have hg := two_term_fits ((color2 >>> 24) &&& 0xFF) ((color1 >>> 8) &&& 0xFF)
    ((color2 >>> 8) &&& 0xFF) h2 (by have := byte_lt (color1 >>> 8); omega)
    (by have := byte_lt (color2 >>> 8); omega)
  have hb := two_term_fits ((color2 >>> 24) &&& 0xFF) (color1 &&& 0xFF)
    (color2 &&& 0xFF) h2 (by have := byte_lt color1; omega)
    (by have := byte_lt color2; omega)
  simp only [blend_pixels_mix, pixel_alpha, pixel_red, pixel_green, pixel_blue]
  rw [blend_alpha_clamp _ _ h1 h2, hr.2, hg.2, hb.2]
  exact (channels_of_pack _ _ _ _ (by omega) (by omega) (by omega) (by omega)).2

/-- The three colour bytes of the pixel `blend_color` writes, for a solid colour
given by four bytes. -/
theorem blend_color_mix_colours (a2 r2 g2 b2 color1 : Nat) (h2 : a2 ≤ 255)
    (hr2 : r2 ≤ 255) (hg2 : g2 ≤ 255) (hb2 : b2 ≤ 255) :
    pixel_red (blend_color_mix a2 r2 g2 b2 color1)
      = changeUIntScale (255 - a2) 0 255 0 (pixel_red color1)
        + changeUIntScale a2 0 255 0 r2 ∧
    pixel_green (blend_color_mix a2 r2 g2 b2 color1)
      = changeUIntScale (255 - a2) 0 255 0 (pixel_green color1)
        + changeUIntScale a2 0 255 0 g2 ∧
    pixel_blue (blend_color_mix a2 r2 g2 b2 color1)
      = changeUIntScale (255 - a2) 0 255 0 (pixel_blue color1)
        + changeUIntScale a2 0 255 0 b2 := by
  have h1 : (color1 >>> 24) &&& 0xFF ≤ 255 := by
    have := byte_lt (color1 >>> 24)
    omega
  have hup := (blend_alpha_bounds _ _ h1 h2).2.2
  have hr := two_term_fits a2 ((color1 >>> 16) &&& 0xFF) r2 h2
    (by have := byte_lt (color1 >>> 16); omega) hr2
  have hg := two_term_fits a2 ((color1 >>> 8) &&& 0xFF) g2 h2
    (by have := byte_lt (color1 >>> 8); omega) hg2
  have hb := two_term_fits a2 (color1 &&& 0xFF) b2 h2
    (by have := byte_lt color1; omega) hb2
  simp only [blend_color_mix, pixel_red, pixel_green, pixel_blue]
  rw [blend_alpha_clamp _ _ h1 h2, hr.2, hg.2, hb.2]
  exact (channels_of_pack _ _ _ _ (by omega) (by omega) (by omega) (by omega)).2

/-- The three colour bytes of the pixel `blend` returns for a source alpha
other than 0. -/
theorem blend_colours (color1 color2 : Nat) (ha : pixel_alpha color2 ≠ 0) :
    pixel_red (be_animation_ntv_blend color1 color2)
      = changeUIntScale (255 - pixel_alpha color2) 0 255 0 (pixel_red color1)
        + changeUIntScale (pixel_alpha color2) 0 255 0 (pixel_red color2) ∧
    pixel_green (be_animation_ntv_blend color1 color2)
      = changeUIntScale (255 - pixel_alpha color2) 0 255 0 (pixel_green color1)
        + changeUIntScale (pixel_alpha color2) 0 255 0 (pixel_green color2) ∧
    pixel_blue (be_animation_ntv_blend color1 color2)
      = changeUIntScale (255 - pixel_alpha color2) 0 255 0 (pixel_blue color1)
        + changeUIntScale (pixel_alpha color2) 0 255 0 (pixel_blue color2) := by
  rw [← blend_color_mix_eq_blend color1 color2 ha]
  exact blend_color_mix_colours _ _ _ _ color1
    (by have := byte_lt (color2 >>> 24); omega)
    (by have := byte_lt (color2 >>> 16); omega)
    (by have := byte_lt (color2 >>> 8); omega)
    (by have := byte_lt color2; omega)

/-- C31: for all a2, c1, c2 in [0,255] the two-term sum
`remap(255-a2,0,255,0,c1) + remap(a2,0,255,0,c2)` of the specification is at
most 255 and is the sum the code computes with `changeUIntScale`; storing that
sum in a `uint8_t` keeps it; and in `blend` (source alpha other than 0), in the
mixing branch of `blend_pixels` and in `blend_color` the red, green and blue
bytes of the packed pixel are exactly these sums, so no channel wraps or spills
into its neighbour. -/
theorem C31_blended_channel_fits_a_byte (a2 c1 c2 : Nat) (ha : a2 ≤ 255) (h1 : c1 ≤ 255)
    (h2 : c2 ≤ 255) :
    remap (255 - (a2 : Int)) 0 255 0 (c1 : Int) + remap (a2 : Int) 0 255 0 (c2 : Int) ≤ 255 ∧
    ((changeUIntScale (255 - a2) 0 255 0 c1 + changeUIntScale a2 0 255 0 c2 : Nat) : Int)
      = remap (255 - (a2 : Int)) 0 255 0 (c1 : Int) + remap (a2 : Int) 0 255 0 (c2 : Int) ∧
    to_uint8 (changeUIntScale (255 - a2) 0 255 0 c1 + changeUIntScale a2 0 255 0 c2)
      = changeUIntScale (255 - a2) 0 255 0 c1 + changeUIntScale a2 0 255 0 c2 ∧
    (∀ color1 color2 : Nat, pixel_alpha color2 = a2 → a2 ≠ 0 →
      ∀ channel ∈ [pixel_red, pixel_green, pixel_blue],
        channel (be_animation_ntv_blend color1 color2)
          = changeUIntScale (255 - a2) 0 255 0 (channel color1)
            + changeUIntScale a2 0 255 0 (channel color2) ∧
        channel (blend_pixels_mix color1 color2)
          = changeUIntScale (255 - a2) 0 255 0 (channel color1)
            + changeUIntScale a2 0 255 0 (channel color2) ∧
        channel (blend_color_mix (pixel_alpha color2) (pixel_red color2)
            (pixel_green color2) (pixel_blue color2) color1)
          = changeUIntScale (255 - a2) 0 255 0 (channel color1)
            + changeUIntScale a2 0 255 0 (channel color2)) := by
  obtain ⟨e1, e2⟩ := blend_terms_eq a2 c1 c2 ha h1 h2
  obtain ⟨r1, r2⟩ := remap_terms_eq a2 c1 c2 ha
  have hle := two_term_le a2 c1 c2 ha h1 h2
  refine ⟨?_, ?_, (two_term_fits a2 c1 c2 ha h1 h2).2, ?_⟩
  · rw [r1, r2]
    exact_mod_cast hle
  · rw [r1, r2, e1, e2]
    push_cast
    rfl
  · intro color1 color2 hal hne channel hch
    subst hal
    have hb := blend_colours color1 color2 hne
    have hp := blend_pixels_mix_colours color1 color2
    have hc := blend_color_mix_colours (pixel_alpha color2) (pixel_red color2)
      (pixel_green color2) (pixel_blue color2) color1
      (Nat.le_of_lt_succ (byte_lt (color2 >>> 24)))
      (Nat.le_of_lt_succ (byte_lt (color2 >>> 16)))
      (Nat.le_of_lt_succ (byte_lt (color2 >>> 8)))
      (Nat.le_of_lt_succ (byte_lt color2))
    simp only [List.mem_cons, List.mem_singleton, List.not_mem_nil, or_false] at hch
    rcases hch with rfl | rfl | rfl
    · exact ⟨hb.1, hp.1, hc.1⟩
    · exact ⟨hb.2.1, hp.2.1, hc.2.1⟩
    · exact ⟨hb.2.2, hp.2.2, hc.2.2⟩

theorem C31_blended_channel_fits_a_byte_witness :
    remap (255 - ((128 : Nat) : Int)) 0 255 0 ((255 : Nat) : Int)
        + remap ((128 : Nat) : Int) 0 255 0 ((255 : Nat) : Int) ≤ 255 ∧
    to_uint8 (changeUIntScale (255 - 128) 0 255 0 255 + changeUIntScale 128 0 255 0 255)
      = changeUIntScale (255 - 128) 0 255 0 255 + changeUIntScale 128 0 255 0 255 :=
  ⟨(C31_blended_channel_fits_a_byte 128 255 255 (by decide) (by decide) (by decide)).1,
    (C31_blended_channel_fits_a_byte 128 255 255 (by decide) (by decide) (by decide)).2.2.1⟩

/-- C32: for all a2, c1, c2 in [0,255] (a2 = 0 included) the blended colour
channel `remap(255-a2,0,255,0,c1) + remap(a2,0,255,0,c2)`, which is the sum the
code computes, is at most max(c1, c2) and at least min(c1, c2) - 1; the lower
bound is reached: with a2 = 128 the value 1 blended with itself gives 0. -/
theorem C32_blended_channel_between_inputs (a2 c1 c2 : Nat) (ha : a2 ≤ 255)
    (h1 : c1 ≤ 255) (h2 : c2 ≤ 255) :
    remap (255 - (a2 : Int)) 0 255 0 (c1 : Int) + remap (a2 : Int) 0 255 0 (c2 : Int)
      ≤ ((max c1 c2 : Nat) : Int) ∧
    ((min c1 c2 : Nat) : Int) - 1
      ≤ remap (255 - (a2 : Int)) 0 255 0 (c1 : Int) + remap (a2 : Int) 0 255 0 (c2 : Int) ∧
    changeUIntScale (255 - a2) 0 255 0 c1 + changeUIntScale a2 0 255 0 c2 ≤ max c1 c2 ∧
    min c1 c2 ≤ changeUIntScale (255 - a2) 0 255 0 c1 + changeUIntScale a2 0 255 0 c2 + 1 ∧
    changeUIntScale (255 - 128) 0 255 0 1 + changeUIntScale 128 0 255 0 1 = 0 := by
  obtain ⟨e1, e2⟩ := blend_terms_eq a2 c1 c2 ha h1 h2
  obtain ⟨r1, r2⟩ := remap_terms_eq a2 c1 c2 ha
  obtain ⟨hup, hlow⟩ := two_term_between a2 c1 c2 ha
  refine ⟨?_, ?_, ?_, ?_, ?_⟩
  · rw [r1, r2]
    exact_mod_cast hup
  · rw [r1, r2]
    have : ((min c1 c2 : Nat) : Int)
        ≤ (((255 - a2) * c1 / 255 + a2 * c2 / 255 + 1 : Nat) : Int) := by
      exact_mod_cast hlow
    push_cast at this ⊢
    omega
  · rw [e1, e2]
    exact hup
  · rw [e1, e2]
    exact hlow
  · obtain ⟨f1, f2⟩ := blend_terms_eq 128 1 1 (by norm_num) (by norm_num) (by norm_num)
    rw [f1, f2]

theorem C32_blended_channel_between_inputs_witness :
    changeUIntScale (255 - 200) 0 255 0 10 + changeUIntScale 200 0 255 0 250 ≤ max 10 250 ∧
    min 10 250 ≤ changeUIntScale (255 - 200) 0 255 0 10 + changeUIntScale 200 0 255 0 250 + 1 :=
  ⟨(C32_blended_channel_between_inputs 200 10 250 (by decide) (by decide) (by decide)).2.2.1,
    (C32_blended_channel_between_inputs 200 10 250 (by decide) (by decide)
      (by decide)).2.2.2.1⟩

/-! ## Claim on the 16-bit parameters of the remap -/

/-- C33: the values the engine passes to the `uint16_t` parameters of
`changeUIntScale` arrive as they are: for all a1, a2, a in [0,255] and every
scalar in [256,511], `(255-a1)*a2` is at most 255*255 = 65025 and
`a*(scalar-255)` is at most 255*256 = 65280, both below 65536 and kept by the
conversion to 16 bits, as are the two range ends 255*255 and 255*256, a byte
and its complement to 255; and in
`gradient_fill`, for a region [s, e] of at most 65536 pixels, the position
`i - s` of an intermediate index and the step count `e - s` are kept as
well. -/
theorem C33_remap_arguments_fit_16_bits (a1 a2 a : Nat) (scalar s e i : Int)
    (h1 : a1 ≤ 255) (h2 : a2 ≤ 255) (ha : a ≤ 255)
    (hv1 : 256 ≤ scalar) (hv2 : scalar ≤ 511)
    (hspan : e - s + 1 ≤ 65536) (hi1 : s < i) (hi2 : i < e) :
    (255 - a1) * a2 ≤ 255 * 255 ∧ 255 * 255 < 65536 ∧
    to_uint16 ((255 - a1) * a2) = (255 - a1) * a2 ∧
    to_uint16 (255 * 255) = 255 * 255 ∧
    ((to_uint32 (a * int_to_uint32 (scalar - 255)) : Nat) : Int) = (a : Int) * (scalar - 255) ∧
    to_uint32 (a * int_to_uint32 (scalar - 255)) ≤ 255 * 256 ∧ 255 * 256 < 65536 ∧
    to_uint16 (to_uint32 (a * int_to_uint32 (scalar - 255)))
      = to_uint32 (a * int_to_uint32 (scalar - 255)) ∧
    to_uint16 (255 * 256) = 255 * 256 ∧
    to_uint16 a = a ∧ to_uint16 (255 - a) = 255 - a ∧
    ((int_to_uint16 (i - s) : Nat) : Int) = i - s ∧
    ((int_to_uint16 (e - s) : Nat) : Int) = e - s := by
  have hp := (alpha_term_le a1 a2 h1 h2).1
  have hm : int_to_uint32 (scalar - 255) = (scalar - 255).toNat := by
    unfold int_to_uint32
    omega
  have hm2 : (scalar - 255).toNat ≤ 256 := by omega
  have hm3 : (((scalar - 255).toNat : Nat) : Int) = scalar - 255 :=
    Int.toNat_of_nonneg (by omega)
  have hq : a * (scalar - 255).toNat ≤ 255 * 256 := Nat.mul_le_mul ha hm2
  have h32 : to_uint32 (a * int_to_uint32 (scalar - 255)) = a * (scalar - 255).toNat := by
    rw [hm]
    unfold to_uint32
    exact Nat.mod_eq_of_lt (by omega)
  refine ⟨by omega, by norm_num, ?_, by decide, ?_, ?_, by norm_num, ?_, by decide, ?_, ?_,
    ?_, ?_⟩
  · unfold to_uint16
    exact Nat.mod_eq_of_lt (by omega)
  · rw [h32, Nat.cast_mul, hm3]
  · rw [h32]
    exact hq
  · rw [h32]
    unfold to_uint16
    exact Nat.mod_eq_of_lt (by omega)
  · unfold to_uint16
    exact Nat.mod_eq_of_lt (by omega)
  · unfold to_uint16
    exact Nat.mod_eq_of_lt (by omega)
  · unfold int_to_uint16
    omega
  · unfold int_to_uint16
    omega

theorem C33_remap_arguments_fit_16_bits_witness :
    (255 - 0) * 255 ≤ 255 * 255 ∧ 255 * 255 < 65536 ∧
    to_uint16 ((255 - 0) * 255) = (255 - 0) * 255 ∧
    to_uint16 (255 * 255) = 255 * 255 ∧
    ((to_uint32 (255 * int_to_uint32 (511 - 255)) : Nat) : Int)
      = ((255 : Nat) : Int) * (511 - 255) ∧
    to_uint32 (255 * int_to_uint32 (511 - 255)) ≤ 255 * 256 ∧ 255 * 256 < 65536 ∧
    to_uint16 (to_uint32 (255 * int_to_uint32 (511 - 255)))
      = to_uint32 (255 * int_to_uint32 (511 - 255)) ∧
    to_uint16 (255 * 256) = 255 * 256 ∧
    to_uint16 255 = 255 ∧ to_uint16 (255 - 255) = 255 - 255 ∧
    ((int_to_uint16 (65534 - 0) : Nat) : Int) = 65534 - 0 ∧
    ((int_to_uint16 (65535 - 0) : Nat) : Int) = 65535 - 0 :=
  C33_remap_arguments_fit_16_bits 0 255 255 511 0 65535 65534 (by decide) (by decide)
    (by decide) (by decide) (by decide) (by decide) (by decide) (by decide)

/-! ## Claims on operations that give the same buffer -/

/-- With the two ends of the destination range equal, `changeUIntScale` gives
that value for every input and every source range. -/
theorem changeUIntScale_same (p m x : Nat) (hx : x < 65536) :
    changeUIntScale p 0 m x x = x := by
  unfold changeUIntScale to_uint16 int_to_uint16
  simp only [sub_self, mul_zero, Int.zero_tdiv, add_zero]
  omega

/-- A pixel read from a buffer of equal pixels. -/
theorem getD_replicate (n j color : Nat) (hj : j < n) :
    (List.replicate n color).getD j 0 = color := by
  rw [List.getD_eq_getElem?_getD, List.getElem?_replicate, if_pos hj]
  rfl

/-- The pixel `blend_pixels` leaves for a 32-bit source pixel is the pixel
`blend_color` leaves for the same colour: the old pixel when the alpha of the
colour is 0, the mix of `blend_color` otherwise. -/
theorem blend_pixels_pixel_eq_blend_color (color1 color : Nat) (h32 : color < 4294967296) :
    blend_pixels_pixel color1 color =
      if (color >>> 24) &&& 0xFF = 0 then color1
      else blend_color_mix ((color >>> 24) &&& 0xFF) ((color >>> 16) &&& 0xFF)
        ((color >>> 8) &&& 0xFF) (color &&& 0xFF) color1 := by
  rw [blend_pixels_pixel_eq_blend _ _ h32]
  by_cases ha : (color >>> 24) &&& 0xFF = 0
  · rw [if_pos ha]
    simp only [be_animation_ntv_blend, if_pos ha]
  · rw [if_neg ha, blend_color_mix_eq_blend _ _ ha]

/-- C34: for every buffer, every 32-bit colour (alpha 0 and alpha 255
included) and every region, `blend_color(buf, color, start, end)` and
`blend_pixels(buf, src, start, end)`, with src of the same pixel count as buf
and every pixel equal to the colour, both return normally, with the same
buffer, and the source buffer is as before. -/
theorem C34_blend_color_is_blend_pixels_with_solid_source (pixels_buf : List Nat)
    (color : Nat) (start_pos end_pos : Int) (hw : pixels_buf.length < 2147483648)
    (hs1 : -2147483648 ≤ start_pos) (hs2 : start_pos < 2147483648)
    (he1 : -2147483648 ≤ end_pos) (he2 : end_pos < 2147483648)
    (h32 : color < 4294967296) :
    ∃ buf1, be_animation_ntv_blend_color pixels_buf color start_pos end_pos
        = Except.ok buf1 ∧
      be_animation_ntv_blend_pixels pixels_buf (List.replicate pixels_buf.length color)
        start_pos end_pos = Except.ok (buf1, List.replicate pixels_buf.length color) := by
  have hlen : (List.replicate pixels_buf.length color).length = pixels_buf.length :=
    List.length_replicate _ _
  have hcount : (if pixels_buf.length < (List.replicate pixels_buf.length color).length
      then (List.replicate pixels_buf.length color).length else pixels_buf.length)
      = pixels_buf.length := by
    rw [if_neg (by omega)]
  cases hres : resolve_region pixels_buf.length start_pos end_pos with
  | none =>
    exact ⟨pixels_buf, blend_color_unresolved _ _ _ _ hres,
      blend_pixels_unresolved _ _ _ _ (by rw [hcount]; exact hres)⟩
  | some q =>
    obtain ⟨s, e⟩ := q
    have hb := resolve_region_bounds _ _ _ s e hw hs1 hs2 he1 he2 hres
    obtain ⟨dest1, hrun, hlen1, hpt⟩ := for_le_blend_pixels pixels_buf
      (List.replicate pixels_buf.length color) s e hb.1 (by omega) hb.2.2 (by omega)
      (by omega)
    have hrun2 : be_animation_ntv_blend_pixels pixels_buf
        (List.replicate pixels_buf.length color) start_pos end_pos
        = Except.ok (dest1, List.replicate pixels_buf.length color) := by
      rw [blend_pixels_resolved _ _ _ _ s e (by rw [hcount]; exact hres)]
      exact hrun
    have hpt2 : ∀ j : Nat, dest1[j]? =
        if s ≤ (j : Int) ∧ (j : Int) ≤ e then
          (pixels_buf[j]?).map (fun c => blend_pixels_pixel c color)
        else pixels_buf[j]? := by
      intro j
      rw [hpt j]
      by_cases hj : j < pixels_buf.length
      · rw [getD_replicate _ _ _ hj]
      · have hnone : pixels_buf[j]? = none := List.getElem?_eq_none (Nat.le_of_not_lt hj)
        rw [hnone]
        simp only [Option.map_none']
    by_cases ha : (color >>> 24) &&& 0xFF = 0
    · have hsame : dest1 = pixels_buf := by
        refine eq_of_pointwise_fixed pixels_buf dest1
          (fun j : Nat => s ≤ (j : Int) ∧ (j : Int) ≤ e)
          (fun c => blend_pixels_pixel c color) ?_ hpt2
        intro p _
        show blend_pixels_pixel p color = p
        rw [blend_pixels_pixel_eq_blend_color _ _ h32, if_pos ha]
      refine ⟨pixels_buf, ?_, ?_⟩
      · rw [blend_color_resolved _ _ _ _ s e hres, if_pos ha]
      · rw [hrun2, hsame]
    · obtain ⟨buf1, hrunc, _, hptc⟩ := blend_color_spec pixels_buf color start_pos end_pos
        s e hres hb.1 hb.2.1 hb.2.2 ha
      have hsame : dest1 = buf1 := by
        apply List.ext_getElem?
        intro j
        rw [hpt2 j, hptc j]
        have hf : (fun c => blend_pixels_pixel c color)
            = (fun c => blend_color_mix ((color >>> 24) &&& 0xFF) ((color >>> 16) &&& 0xFF)
                ((color >>> 8) &&& 0xFF) (color &&& 0xFF) c) := by
          funext c
          rw [blend_pixels_pixel_eq_blend_color _ _ h32, if_neg ha]
        rw [hf]
      exact ⟨buf1, hrunc, by rw [hrun2, hsame]⟩

theorem C34_blend_color_is_blend_pixels_with_solid_source_witness :
    ∃ buf1, be_animation_ntv_blend_color [0xFF102030, 0x80405060, 0x00000000] 0xFF0A0B0C 1 (-1)
        = Except.ok buf1 ∧
      be_animation_ntv_blend_pixels [0xFF102030, 0x80405060, 0x00000000]
        (List.replicate [0xFF102030, 0x80405060, 0x00000000].length 0xFF0A0B0C) 1 (-1)
        = Except.ok (buf1,
            List.replicate [0xFF102030, 0x80405060, 0x00000000].length 0xFF0A0B0C) :=
  C34_blend_color_is_blend_pixels_with_solid_source [0xFF102030, 0x80405060, 0x00000000]
    0xFF0A0B0C 1 (-1) (by decide) (by decide) (by decide) (by decide) (by decide) (by decide)

/-- The interpolation of the specification is monotone in the position:
non-decreasing toward a larger end, non-increasing toward a smaller one. -/
theorem remap_interp_mono (p q n c1 c2 : Nat) (hpq : p ≤ q) :
    (c1 ≤ c2 → remap (p : Int) 0 (n : Int) (c1 : Int) (c2 : Int)
      ≤ remap (q : Int) 0 (n : Int) (c1 : Int) (c2 : Int)) ∧
    (c2 ≤ c1 → remap (q : Int) 0 (n : Int) (c1 : Int) (c2 : Int)
      ≤ remap (p : Int) 0 (n : Int) (c1 : Int) (c2 : Int)) := by
  unfold remap
  simp only [sub_zero]
  have hdiv : ∀ d : Nat, p * d / n ≤ q * d / n := fun d =>
    Nat.div_le_div_right (Nat.mul_le_mul_right d hpq)
  constructor
  · intro h
    have e1 : ∀ x : Nat, (x : Int) * ((c2 : Int) - (c1 : Int)) = ((x * (c2 - c1) : Nat) : Int) := by
      intro x
      rw [Nat.cast_mul, Nat.cast_sub h]
    rw [e1 p, e1 q, ← Int.ofNat_tdiv, ← Int.ofNat_tdiv]
    have hq := hdiv (c2 - c1)
    generalize p * (c2 - c1) / n = a at hq ⊢
    generalize q * (c2 - c1) / n = b at hq ⊢
    omega
  · intro h
    have e1 : ∀ x : Nat,
        (x : Int) * ((c2 : Int) - (c1 : Int)) = -((x * (c1 - c2) : Nat) : Int) := by
      intro x
      rw [Nat.cast_mul, Nat.cast_sub h]
      ring
    rw [e1 p, e1 q, Int.neg_tdiv, Int.neg_tdiv, ← Int.ofNat_tdiv, ← Int.ofNat_tdiv]
    have hq := hdiv (c1 - c2)
    generalize p * (c1 - c2) / n = a at hq ⊢
    generalize q * (c1 - c2) / n = b at hq ⊢
    omega

/-- Inside the source range the interpolation of the specification lies
between the two ends of the destination range. -/
theorem remap_interp_between (p n c1 c2 : Nat) (hp : p ≤ n) :
    ((min c1 c2 : Nat) : Int) ≤ remap (p : Int) 0 (n : Int) (c1 : Int) (c2 : Int) ∧
    remap (p : Int) 0 (n : Int) (c1 : Int) (c2 : Int) ≤ ((max c1 c2 : Nat) : Int) := by
  have hb := tdiv_interp_bounds p n c1 c2 hp
  unfold remap
  simp only [sub_zero]
  generalize Int.tdiv ((p : Int) * ((c2 : Int) - (c1 : Int))) (n : Int) = t at hb ⊢
  by_cases h : c1 ≤ c2
  · have := hb.1 h
    rw [Nat.min_eq_left h, Nat.max_eq_right h]
    omega
  · have := hb.2 (by omega)
    rw [Nat.min_eq_right (by omega), Nat.max_eq_left (by omega)]
    omega

/-- The interpolation of the specification at the two ends of the source
range. -/
theorem remap_interp_ends (n c1 c2 : Int) (hn : n ≠ 0) :
    remap 0 0 n c1 c2 = c1 ∧ remap n 0 n c1 c2 = c2 := by
  unfold remap
  simp only [sub_zero, zero_mul, Int.zero_tdiv, add_zero]
  refine ⟨trivial, ?_⟩
  rw [Int.mul_tdiv_cancel_left _ hn]
  omega

/-- After `gradient_fill` on a region [s, e] whose step count fits 16 bits,
each channel of every pixel of the region, the two ends included, is the
interpolation of the specification at its position. -/
theorem gradient_fill_channels_at (pixels_buf : List Nat) (color1 color2 : Nat)
    (start_pos end_pos s e : Int) (hw : pixels_buf.length < 2147483648)
    (hs1 : -2147483648 ≤ start_pos) (hs2 : start_pos < 2147483648)
    (he1 : -2147483648 ≤ end_pos) (he2 : end_pos < 2147483648)
    (hres : resolve_region pixels_buf.length start_pos end_pos = some (s, e))
    (h16 : e - s ≤ 65535) :
    ∃ buf1, be_animation_ntv_gradient_fill pixels_buf color1 color2 start_pos end_pos
        = Except.ok buf1 ∧ buf1.length = pixels_buf.length ∧
      ∀ i : Nat, s ≤ (i : Int) → (i : Int) ≤ e →
        (pixel_alpha (buf1.getD i 0) : Int)
          = remap ((i : Int) - s) 0 (e - s) (pixel_alpha color1) (pixel_alpha color2) ∧
        (pixel_red (buf1.getD i 0) : Int)
          = remap ((i : Int) - s) 0 (e - s) (pixel_red color1) (pixel_red color2) ∧
        (pixel_green (buf1.getD i 0) : Int)
          = remap ((i : Int) - s) 0 (e - s) (pixel_green color1) (pixel_green color2) ∧
        (pixel_blue (buf1.getD i 0) : Int)
          = remap ((i : Int) - s) 0 (e - s) (pixel_blue color1) (pixel_blue color2) := by
  have hb := resolve_region_bounds _ _ _ s e hw hs1 hs2 he1 he2 hres
  obtain ⟨buf1, hrun, hlen, hpt⟩ := gradient_fill_spec pixels_buf color1 color2
    start_pos end_pos s e hres hb.1 hb.2.1 hb.2.2
  refine ⟨buf1, hrun, hlen, ?_⟩
  intro i hi1 hi2
  have hi : i < pixels_buf.length := by omega
  have hold : pixels_buf[i]? = some pixels_buf[i] := List.getElem?_eq_getElem hi
  have hval := hpt i
  rw [hold] at hval
  simp only [Option.map_some'] at hval
  rw [List.getD_eq_getElem?_getD, hval]
  by_cases c1 : (i : Int) = s
  · rw [if_pos c1, Option.getD_some]
    have hz : (i : Int) - s = 0 := by omega
    rw [hz]
    unfold remap
    simp only [sub_zero, zero_mul, Int.zero_tdiv, add_zero]
    exact ⟨trivial, trivial, trivial, trivial⟩
  · rw [if_neg c1]
    by_cases c2 : (i : Int) = e
    · rw [if_pos c2, Option.getD_some, c2]
      have hn : e - s ≠ 0 := by omega
      exact ⟨(remap_interp_ends _ _ _ hn).2.symm, (remap_interp_ends _ _ _ hn).2.symm,
        (remap_interp_ends _ _ _ hn).2.symm, (remap_interp_ends _ _ _ hn).2.symm⟩
    · rw [if_neg c2, if_pos (by omega), Option.getD_some]
      exact gradient_fill_pixel_channels _ _ _ _ _ _ _ _ s e i (byte_lt _) (byte_lt _)
        (byte_lt _) (byte_lt _) (byte_lt _) (byte_lt _) (byte_lt _) (byte_lt _)
        (by omega) (by omega) (by omega)

/-- Monotony and range of one channel along the gradient, from its values as
interpolations. -/
theorem gradient_channel_order (s e : Int) (c1 c2 : Nat) (v : Nat → Nat)
    (hv : ∀ i : Nat, s ≤ (i : Int) → (i : Int) ≤ e →
      ((v i : Nat) : Int) = remap ((i : Int) - s) 0 (e - s) (c1 : Int) (c2 : Int)) :
    (∀ i : Nat, s ≤ (i : Int) → (i : Int) ≤ e → min c1 c2 ≤ v i ∧ v i ≤ max c1 c2) ∧
    (∀ i j : Nat, s ≤ (i : Int) → i ≤ j → (j : Int) ≤ e →
      (c1 ≤ c2 → v i ≤ v j) ∧ (c2 ≤ c1 → v j ≤ v i)) := by
  have cast : ∀ i : Nat, s ≤ (i : Int) → (i : Int) ≤ e →
      (i : Int) - s = (((i : Int) - s).toNat : Int) ∧ e - s = (((e - s).toNat : Nat) : Int) := by
    intro i h1 h2
    constructor
    · exact (Int.toNat_of_nonneg (by omega)).symm
    · exact (Int.toNat_of_nonneg (by omega)).symm
  constructor
  · intro i h1 h2
    have h := hv i h1 h2
    obtain ⟨e1, e2⟩ := cast i h1 h2
    rw [e1, e2] at h
    have hb := remap_interp_between ((i : Int) - s).toNat (e - s).toNat c1 c2 (by omega)
    rw [← h] at hb
    exact ⟨by exact_mod_cast hb.1, by exact_mod_cast hb.2⟩
  · intro i j h1 hij h2
    have hi := hv i h1 (by omega)
    have hj := hv j (by omega) h2
    obtain ⟨e1, e2⟩ := cast i h1 (by omega)
    obtain ⟨f1, _⟩ := cast j (by omega) h2
    rw [e1, e2] at hi
    rw [f1, e2] at hj
    have hm := remap_interp_mono ((i : Int) - s).toNat ((j : Int) - s).toNat (e - s).toNat
      c1 c2 (by omega)
    rw [← hi, ← hj] at hm
    exact ⟨fun h => by exact_mod_cast hm.1 h, fun h => by exact_mod_cast hm.2 h⟩

/-- C36 (as amended): for every buffer and every region resolving to [s, e]
with e - s at most 65535, `gradient_fill` returns normally, and for each of the
four channels the values along s, s+1, ..., e lie between the color1 channel
and the color2 channel inclusive and are monotone in the index: non-decreasing
when the color1 channel is at most the color2 channel, non-increasing when it
is at least the color2 channel. -/
theorem C36_gradient_is_monotone_and_bounded (pixels_buf : List Nat) (color1 color2 : Nat)
    (start_pos end_pos s e : Int) (hw : pixels_buf.length < 2147483648)
    (hs1 : -2147483648 ≤ start_pos) (hs2 : start_pos < 2147483648)
    (he1 : -2147483648 ≤ end_pos) (he2 : end_pos < 2147483648)
    (hres : resolve_region pixels_buf.length start_pos end_pos = some (s, e))
    (h16 : e - s ≤ 65535) :
    ∃ buf1, be_animation_ntv_gradient_fill pixels_buf color1 color2 start_pos end_pos
        = Except.ok buf1 ∧
      ∀ channel ∈ [pixel_alpha, pixel_red, pixel_green, pixel_blue],
        (∀ i : Nat, s ≤ (i : Int) → (i : Int) ≤ e →
          min (channel color1) (channel color2) ≤ channel (buf1.getD i 0) ∧
          channel (buf1.getD i 0) ≤ max (channel color1) (channel color2)) ∧
        (∀ i j : Nat, s ≤ (i : Int) → i ≤ j → (j : Int) ≤ e →
          (channel color1 ≤ channel color2 →
            channel (buf1.getD i 0) ≤ channel (buf1.getD j 0)) ∧
          (channel color2 ≤ channel color1 →
            channel (buf1.getD j 0) ≤ channel (buf1.getD i 0))) := by
  obtain ⟨buf1, hrun, _, hch⟩ := gradient_fill_channels_at pixels_buf color1 color2
    start_pos end_pos s e hw hs1 hs2 he1 he2 hres h16
  refine ⟨buf1, hrun, ?_⟩
  intro channel hmem
  simp only [List.mem_cons, List.mem_singleton, List.not_mem_nil, or_false] at hmem
  rcases hmem with rfl | rfl | rfl | rfl
  · exact gradient_channel_order s e _ _ (fun i => pixel_alpha (buf1.getD i 0))
      (fun i h1 h2 => (hch i h1 h2).1)
  · exact gradient_channel_order s e _ _ (fun i => pixel_red (buf1.getD i 0))
      (fun i h1 h2 => (hch i h1 h2).2.1)
  · exact gradient_channel_order s e _ _ (fun i => pixel_green (buf1.getD i 0))
      (fun i h1 h2 => (hch i h1 h2).2.2.1)
  · exact gradient_channel_order s e _ _ (fun i => pixel_blue (buf1.getD i 0))
      (fun i h1 h2 => (hch i h1 h2).2.2.2)

theorem C36_gradient_is_monotone_and_bounded_witness :
    ∃ buf1, be_animation_ntv_gradient_fill [0, 0, 0, 0, 0] 0xFF0000FF 0x00FF0000 0 (-1)
        = Except.ok buf1 ∧
      ∀ channel ∈ [pixel_alpha, pixel_red, pixel_green, pixel_blue],
        (∀ i : Nat, (0 : Int) ≤ (i : Int) → (i : Int) ≤ 4 →
          min (channel 0xFF0000FF) (channel 0x00FF0000) ≤ channel (buf1.getD i 0) ∧
          channel (buf1.getD i 0) ≤ max (channel 0xFF0000FF) (channel 0x00FF0000)) ∧
        (∀ i j : Nat, (0 : Int) ≤ (i : Int) → i ≤ j → (j : Int) ≤ 4 →
          (channel 0xFF0000FF ≤ channel 0x00FF0000 →
            channel (buf1.getD i 0) ≤ channel (buf1.getD j 0)) ∧
          (channel 0x00FF0000 ≤ channel 0xFF0000FF →
            channel (buf1.getD j 0) ≤ channel (buf1.getD i 0))) :=
  C36_gradient_is_monotone_and_bounded [0, 0, 0, 0, 0] 0xFF0000FF 0x00FF0000 0 (-1) 0 4
    (by decide) (by decide) (by decide) (by decide) (by decide) (by decide) (by decide)

/-- C36, counterexample to the claim as written: on a buffer of 65538 pixels and
the whole region [0, 65537], with a blue channel going from 0 (color1) to 100
(color2), the step count 65537 reaches `changeUIntScale` as 1; the pixel at
index 2 gets the blue byte 200, outside [0, 100], and the pixel at index 3 the
blue byte 44, smaller than the one before it. -/
theorem C36_long_gradient_leaves_the_range :
    ∃ buf1, be_animation_ntv_gradient_fill (List.replicate 65538 0) 0 0x00000064 0 (-1)
        = Except.ok buf1 ∧
      resolve_region (List.replicate 65538 0).length 0 (-1) = some (0, 65537) ∧
      pixel_blue 0 = 0 ∧ pixel_blue 0x00000064 = 100 ∧
      (∃ p2, buf1[2]? = some p2 ∧ pixel_blue p2 = 200) ∧
      (∃ p3, buf1[3]? = some p3 ∧ pixel_blue p3 = 44) := by
  have hlen : (List.replicate 65538 (0 : Nat)).length = 65538 := List.length_replicate _ _
  have hres0 : resolve_region 65538 0 (-1) = some (0, 65537) := by decide
  have hres : resolve_region (List.replicate 65538 (0 : Nat)).length 0 (-1)
      = some (0, 65537) := by
    rw [hlen]
    exact hres0
  obtain ⟨buf1, hrun, _, hpt⟩ := gradient_fill_spec (List.replicate 65538 0) 0 0x00000064
    0 (-1) 0 65537 hres (by norm_num) (by norm_num) (by rw [hlen]; norm_num)
  have hval2 := hpt 2
  have hval3 := hpt 3
  have a1 : ¬ (((2 : Nat) : Int) = 0) := by norm_num
  have a2 : ¬ (((2 : Nat) : Int) = 65537) := by norm_num
  have a3 : (0 : Int) < ((2 : Nat) : Int) ∧ ((2 : Nat) : Int) < 65537 := by norm_num
  have b1 : ¬ (((3 : Nat) : Int) = 0) := by norm_num
  have b2 : ¬ (((3 : Nat) : Int) = 65537) := by norm_num
  have b3 : (0 : Int) < ((3 : Nat) : Int) ∧ ((3 : Nat) : Int) < 65537 := by norm_num
  have hold2 : (List.replicate 65538 (0 : Nat))[2]? = some 0 := by
    rw [List.getElem?_replicate, if_pos (by norm_num)]
  have hold3 : (List.replicate 65538 (0 : Nat))[3]? = some 0 := by
    rw [List.getElem?_replicate, if_pos (by norm_num)]
  have hpix2 : gradient_fill_pixel ((0 >>> 24) &&& 0xFF) ((0 >>> 16) &&& 0xFF)
      ((0 >>> 8) &&& 0xFF) (0 &&& 0xFF) ((0x00000064 >>> 24) &&& 0xFF)
      ((0x00000064 >>> 16) &&& 0xFF) ((0x00000064 >>> 8) &&& 0xFF) (0x00000064 &&& 0xFF)
      0 (65537 - 0) ((2 : Nat) : Int) = 0xC8 := by decide
  have hpix3 : gradient_fill_pixel ((0 >>> 24) &&& 0xFF) ((0 >>> 16) &&& 0xFF)
      ((0 >>> 8) &&& 0xFF) (0 &&& 0xFF) ((0x00000064 >>> 24) &&& 0xFF)
      ((0x00000064 >>> 16) &&& 0xFF) ((0x00000064 >>> 8) &&& 0xFF) (0x00000064 &&& 0xFF)
      0 (65537 - 0) ((3 : Nat) : Int) = 0x2C := by decide
  rw [if_neg a1, if_neg a2, if_pos a3, hold2, Option.map_some', hpix2] at hval2
  rw [if_neg b1, if_neg b2, if_pos b3, hold3, Option.map_some', hpix3] at hval3
  exact ⟨buf1, hrun, hres, by decide, by decide, ⟨0xC8, hval2, by decide⟩,
    ⟨0x2C, hval3, by decide⟩⟩

/-! ## Claim on the order of the scalar adjustment -/

/-- One colour channel under a scalar of `0..511` is monotone in the scalar,
at most the old value up to the scalar 255 and at least the old value from the
scalar 255 on. -/
theorem brightness_channel_mono (c : Nat) (p q : Int) (hc : c ≤ 255) (hp0 : 0 ≤ p)
    (hpq : p ≤ q) (hq : q ≤ 511) :
    brightness_channel p c ≤ brightness_channel q c ∧
    (p ≤ 255 → brightness_channel p c ≤ c) ∧
    (255 ≤ p → c ≤ brightness_channel p c) := by
  rw [brightness_channel_eq p c hp0 (by omega) hc,
    brightness_channel_eq q c (by omega) hq hc]
  have hdown : ∀ v : Int, 0 ≤ v → v ≤ 255 → c * v.toNat / 255 ≤ c := by
    intro v h0 h1
    have h := scale_le v.toNat c (by omega)
    rw [Nat.mul_comm] at h
    exact h
  have h255 : c * (255 : Int).toNat / 255 = c := by
    have : (255 : Int).toNat = 255 := by decide
    rw [this]
    omega
  refine ⟨?_, ?_, ?_⟩
  · by_cases h1 : q ≤ 255
    · rw [if_pos (by omega), if_pos h1]
      exact Nat.div_le_div_right (Nat.mul_le_mul_left c (by omega))
    · rw [if_neg h1]
      by_cases h2 : p ≤ 255
      · rw [if_pos h2]
        have := hdown p hp0 h2
        generalize c * p.toNat / 255 = x at this ⊢
        generalize c * (q - 255).toNat * 255 / 65280 = y
        omega
      · rw [if_neg h2]
        have hm : c * (p - 255).toNat * 255 / 65280 ≤ c * (q - 255).toNat * 255 / 65280 :=
          Nat.div_le_div_right (Nat.mul_le_mul_right 255
            (Nat.mul_le_mul_left c (by omega)))
        generalize c * (p - 255).toNat * 255 / 65280 = x at hm ⊢
        generalize c * (q - 255).toNat * 255 / 65280 = y at hm ⊢
        omega
  · intro h
    rw [if_pos h]
    exact hdown p hp0 h
  · intro h
    by_cases h2 : p ≤ 255
    · have hp : p = 255 := by omega
      rw [hp, if_pos (by norm_num), h255]
    · rw [if_neg h2]
      generalize c * (p - 255).toNat * 255 / 65280 = y
      omega

/-- For a scalar of `0..511` and a byte, the alpha of `apply_opacity` and a
colour channel of `apply_brightness` get the same value: the two down-scale
calls have the scalar and the byte in the other order, with the same
product. -/
theorem opacity_channel_eq_brightness_channel (v : Int) (c : Nat) (hv0 : 0 ≤ v)
    (hv : v ≤ 511) (hc : c ≤ 255) :
    opacity_channel v c = brightness_channel v c := by
  rw [opacity_channel_eq v c hv0 hv hc, brightness_channel_eq v c hv0 hv hc,
    Nat.mul_comm v.toNat c]

/-- C37: for every channel value c in [0,255], every pixel and all scalars
0 <= p <= q <= 511: the value produced for c with the scalar p is at most the
value produced with q, it is at most c when p <= 255 and at least c when
p >= 255 (at 255 it is c, and the first up-scale value is not below it), for
the alpha under `apply_opacity` and for red, green and blue under
`apply_brightness`, both as channel functions and as bytes of the pixel
written. -/
theorem C37_scalar_adjustment_is_monotone (c color : Nat) (p q : Int) (hc : c ≤ 255)
    (hp0 : 0 ≤ p) (hpq : p ≤ q) (hq : q ≤ 511) :
    (opacity_channel p c ≤ opacity_channel q c ∧
      (p ≤ 255 → opacity_channel p c ≤ c) ∧ (255 ≤ p → c ≤ opacity_channel p c)) ∧
    (brightness_channel p c ≤ brightness_channel q c ∧
      (p ≤ 255 → brightness_channel p c ≤ c) ∧ (255 ≤ p → c ≤ brightness_channel p c)) ∧
    (pixel_alpha (apply_opacity_value_pixel p color)
        ≤ pixel_alpha (apply_opacity_value_pixel q color) ∧
      (p ≤ 255 → pixel_alpha (apply_opacity_value_pixel p color) ≤ pixel_alpha color) ∧
      (255 ≤ p → pixel_alpha color ≤ pixel_alpha (apply_opacity_value_pixel p color))) ∧
    (∀ channel ∈ [pixel_red, pixel_green, pixel_blue],
      channel (apply_brightness_value_pixel p color)
        ≤ channel (apply_brightness_value_pixel q color) ∧
      (p ≤ 255 → channel (apply_brightness_value_pixel p color) ≤ channel color) ∧
      (255 ≤ p → channel color ≤ channel (apply_brightness_value_pixel p color))) := by
  have hop : ∀ x : Nat, x ≤ 255 →
      opacity_channel p x ≤ opacity_channel q x ∧
      (p ≤ 255 → opacity_channel p x ≤ x) ∧ (255 ≤ p → x ≤ opacity_channel p x) := by
    intro x hx
    rw [opacity_channel_eq_brightness_channel p x hp0 (by omega) hx,
      opacity_channel_eq_brightness_channel q x (by omega) hq hx]
    exact brightness_channel_mono x p q hx hp0 hpq hq
  refine ⟨hop c hc, brightness_channel_mono c p q hc hp0 hpq hq, ?_, ?_⟩
  · rw [apply_opacity_value_pixel_alpha p color hp0 (by omega),
      apply_opacity_value_pixel_alpha q color (by omega) hq]
    exact hop _ (Nat.le_of_lt_succ (byte_lt (color >>> 24)))
  · intro channel hch
    obtain ⟨_, pr, pg, pb⟩ := apply_brightness_value_pixel_channels p color hp0 (by omega)
    obtain ⟨_, qr, qg, qb⟩ := apply_brightness_value_pixel_channels q color (by omega) hq
    simp only [List.mem_cons, List.mem_singleton, List.not_mem_nil, or_false] at hch
    rcases hch with rfl | rfl | rfl
    · rw [pr, qr]
      exact brightness_channel_mono _ p q (Nat.le_of_lt_succ (byte_lt (color >>> 16)))
        hp0 hpq hq
    · rw [pg, qg]
      exact brightness_channel_mono _ p q (Nat.le_of_lt_succ (byte_lt (color >>> 8)))
        hp0 hpq hq
    · rw [pb, qb]
      exact brightness_channel_mono _ p q (Nat.le_of_lt_succ (byte_lt color)) hp0 hpq hq

theorem C37_scalar_adjustment_is_monotone_witness :
    (opacity_channel 255 200 ≤ opacity_channel 256 200 ∧
      ((255 : Int) ≤ 255 → opacity_channel 255 200 ≤ 200) ∧
      ((255 : Int) ≤ 255 → 200 ≤ opacity_channel 255 200)) ∧
    (brightness_channel 255 200 ≤ brightness_channel 256 200 ∧
      ((255 : Int) ≤ 255 → brightness_channel 255 200 ≤ 200) ∧
      ((255 : Int) ≤ 255 → 200 ≤ brightness_channel 255 200)) :=
  ⟨(C37_scalar_adjustment_is_monotone 200 0x80C86432 255 256 (by decide) (by decide)
      (by decide) (by decide)).1,
    (C37_scalar_adjustment_is_monotone 200 0x80C86432 255 256 (by decide) (by decide)
      (by decide) (by decide)).2.1⟩

/-! ## Claim on the uniform mask -/

/-- With a mask of the pixel count of the target the final `end_pos` of the
mask mode is the resolved `end_pos`. -/
theorem mask_end_same (len : Nat) (e : Int) (he : e < len) :
    mask_end_pos len len e = e := by
  unfold mask_end_pos
  simp only
  split_ifs <;> omega

/-- The rescale of a byte by a byte does not depend on which of the two is the
input and which the end of the destination range. -/
theorem changeUIntScale_swap (m c : Nat) (hm : m ≤ 255) (hc : c ≤ 255) :
    changeUIntScale m 0 255 0 c = changeUIntScale c 0 255 0 m := by
  rw [(mask_scale_eq m c hm hc).1, (mask_scale_eq c m hc hm).1, Nat.mul_comm]

/-- A natural number below 65536 passed as an `int32_t` to a `uint16_t`
parameter. -/
theorem int_to_uint16_cast (m : Nat) (hm : m < 65536) : int_to_uint16 (m : Int) = m := by
  unfold int_to_uint16
  omega

/-- The pixel of the mask mode of `apply_opacity` for a mask pixel of alpha m
is the pixel of the number mode for the scalar m. -/
theorem apply_opacity_mask_pixel_eq_value (color mask_color m : Nat)
    (hal : pixel_alpha mask_color = m) (hm : m ≤ 255) :
    apply_opacity_mask_pixel color mask_color = apply_opacity_value_pixel (m : Int) color := by
  have hle : (m : Int) ≤ 255 := by omega
  simp only [pixel_alpha] at hal
  simp only [apply_opacity_mask_pixel, apply_opacity_value_pixel, if_pos hle, hal,
    int_to_uint16_cast m (by omega)]

/-- The pixel of the mask mode of `apply_brightness` for a mask pixel of alpha
m is the pixel of the number mode for the scalar m. -/
theorem apply_brightness_mask_pixel_eq_value (color mask_color m : Nat)
    (hal : pixel_alpha mask_color = m) (hm : m ≤ 255) :
    apply_brightness_mask_pixel color mask_color
      = apply_brightness_value_pixel (m : Int) color := by
  have hle : (m : Int) ≤ 255 := by omega
  simp only [pixel_alpha] at hal
  simp only [apply_brightness_mask_pixel, apply_brightness_value_pixel, brightness_channel,
    if_pos hle, hal, int_to_uint16_cast m (by omega)]
  rw [changeUIntScale_swap m _ hm (Nat.le_of_lt_succ (byte_lt (color >>> 16))),
    changeUIntScale_swap m _ hm (Nat.le_of_lt_succ (byte_lt (color >>> 8))),
    changeUIntScale_swap m _ hm (Nat.le_of_lt_succ (byte_lt color))]

/-- A pixel read inside a buffer whose pixels all have the alpha m has the
alpha m. -/
theorem alpha_getD_of_forall (mask_buf : List Nat) (m j : Nat) (hj : j < mask_buf.length)
    (h : ∀ p ∈ mask_buf, pixel_alpha p = m) : pixel_alpha (mask_buf.getD j 0) = m := by
  rw [List.getD_eq_getElem mask_buf 0 hj]
  exact h _ (List.getElem_mem hj)

/-- C38: for every buffer, every region and every m in [0,255], `apply_opacity`
in mask mode with a mask of the same pixel count whose every pixel has alpha m
returns normally with the buffer that the scalar mode gives with the scalar m,
and so does `apply_brightness`. -/
theorem C38_uniform_mask_is_the_scalar (pixels_buf mask_buf : List Nat) (m : Nat)
    (start_pos end_pos : Int) (hw : pixels_buf.length < 2147483648)
    (hs1 : -2147483648 ≤ start_pos) (hs2 : start_pos < 2147483648)
    (he1 : -2147483648 ≤ end_pos) (he2 : end_pos < 2147483648)
    (hlen : mask_buf.length = pixels_buf.length) (hm : m ≤ 255)
    (hmask : ∀ p ∈ mask_buf, pixel_alpha p = m) :
    (∃ buf1, be_animation_ntv_apply_opacity pixels_buf (ScaleArg.bytes mask_buf)
        start_pos end_pos = Except.ok buf1 ∧
      be_animation_ntv_apply_opacity pixels_buf (ScaleArg.int m) start_pos end_pos
        = Except.ok buf1) ∧
    (∃ buf1, be_animation_ntv_apply_brightness pixels_buf (ScaleArg.bytes mask_buf)
        start_pos end_pos = Except.ok buf1 ∧
      be_animation_ntv_apply_brightness pixels_buf (ScaleArg.int m) start_pos end_pos
        = Except.ok buf1) := by
  have hsv : scale_value (ScaleArg.int (m : Int)) = (m : Int) :=
    scale_value_int (m : Int) (by omega) (by omega)
  have hint : ∀ mb, ScaleArg.int (m : Int) ≠ ScaleArg.bytes mb := fun mb h => by cases h
  cases hres : resolve_region pixels_buf.length start_pos end_pos with
  | none =>
    exact ⟨⟨pixels_buf, apply_opacity_unresolved _ _ _ _ hres,
        apply_opacity_unresolved _ _ _ _ hres⟩,
      ⟨pixels_buf, apply_brightness_unresolved _ _ _ _ hres,
        apply_brightness_unresolved _ _ _ _ hres⟩⟩
  | some q =>
    obtain ⟨s, e⟩ := q
    have hb := resolve_region_bounds _ _ _ s e hw hs1 hs2 he1 he2 hres
    have hend : mask_end_pos pixels_buf.length mask_buf.length e = e := by
      rw [hlen]
      exact mask_end_same _ e hb.2.2
    constructor
    · obtain ⟨buf1, hrun1, _, hpt1⟩ := apply_opacity_mask_spec pixels_buf mask_buf
        start_pos end_pos s e hw hres hb.1 hb.2.1 hb.2.2
      obtain ⟨buf2, hrun2, _, hpt2⟩ := apply_opacity_value_spec pixels_buf
        (ScaleArg.int m) start_pos end_pos s e hres hb.1 hb.2.1 hb.2.2 hint
      have hsame : buf2 = buf1 := by
        apply List.ext_getElem?
        intro j
        rw [hpt1 j, hpt2 j, hend, hsv]
        by_cases hj : j < pixels_buf.length
        · have hf : (fun c => apply_opacity_mask_pixel c (mask_buf.getD j 0))
              = (fun c => apply_opacity_value_pixel (m : Int) c) := by
            funext c
            exact apply_opacity_mask_pixel_eq_value c _ m
              (alpha_getD_of_forall mask_buf m j (by omega) hmask) hm
          rw [hf]
        · have hnone : pixels_buf[j]? = none := List.getElem?_eq_none (Nat.le_of_not_lt hj)
          rw [hnone]
          simp only [Option.map_none']
      exact ⟨buf1, hrun1, by rw [hrun2, hsame]⟩
    · obtain ⟨buf1, hrun1, _, hpt1⟩ := apply_brightness_mask_spec pixels_buf mask_buf
        start_pos end_pos s e hw hres hb.1 hb.2.1 hb.2.2
      obtain ⟨buf2, hrun2, _, hpt2⟩ := apply_brightness_value_spec pixels_buf
        (ScaleArg.int m) start_pos end_pos s e hres hb.1 hb.2.1 hb.2.2 hint
      have hsame : buf2 = buf1 := by
        apply List.ext_getElem?
        intro j
        rw [hpt1 j, hpt2 j, hend, hsv]
        by_cases hj : j < pixels_buf.length
        · have hf : (fun c => apply_brightness_mask_pixel c (mask_buf.getD j 0))
              = (fun c => apply_brightness_value_pixel (m : Int) c) := by
            funext c
            exact apply_brightness_mask_pixel_eq_value c _ m
              (alpha_getD_of_forall mask_buf m j (by omega) hmask) hm
          rw [hf]
        · have hnone : pixels_buf[j]? = none := List.getElem?_eq_none (Nat.le_of_not_lt hj)
          rw [hnone]
          simp only [Option.map_none']
      exact ⟨buf1, hrun1, by rw [hrun2, hsame]⟩

theorem C38_uniform_mask_is_the_scalar_witness :
    (∃ buf1, be_animation_ntv_apply_opacity [0x80112233, 0xFF445566, 0x40778899]
        (ScaleArg.bytes [0x64000000, 0x64FFFFFF, 0x64123456]) 0 (-1) = Except.ok buf1 ∧
      be_animation_ntv_apply_opacity [0x80112233, 0xFF445566, 0x40778899]
        (ScaleArg.int ((100 : Nat) : Int)) 0 (-1) = Except.ok buf1) ∧
    (∃ buf1, be_animation_ntv_apply_brightness [0x80112233, 0xFF445566, 0x40778899]
        (ScaleArg.bytes [0x64000000, 0x64FFFFFF, 0x64123456]) 0 (-1) = Except.ok buf1 ∧
      be_animation_ntv_apply_brightness [0x80112233, 0xFF445566, 0x40778899]
        (ScaleArg.int ((100 : Nat) : Int)) 0 (-1) = Except.ok buf1) :=
  C38_uniform_mask_is_the_scalar [0x80112233, 0xFF445566, 0x40778899]
    [0x64000000, 0x64FFFFFF, 0x64123456] 100 0 (-1) (by decide) (by decide) (by decide)
    (by decide) (by decide) (by decide) (by decide) (by decide)

/-! ## Claim on `blend_linear` -/

/-- For a weight of at most 255 each channel of `blend_linear` is the
interpolation of the specification from the channel of `color_b` to the channel
of `color_a`; the `uint8_t` store and the packing keep it. -/
theorem blend_linear_channels (color_a color_b alpha : Nat) (halpha : alpha ≤ 255) :
    (pixel_alpha (be_animation_ntv_blend_linear color_a color_b alpha) : Int)
      = remap alpha 0 255 (pixel_alpha color_b) (pixel_alpha color_a) ∧
    (pixel_red (be_animation_ntv_blend_linear color_a color_b alpha) : Int)
      = remap alpha 0 255 (pixel_red color_b) (pixel_red color_a) ∧
    (pixel_green (be_animation_ntv_blend_linear color_a color_b alpha) : Int)
      = remap alpha 0 255 (pixel_green color_b) (pixel_green color_a) ∧
    (pixel_blue (be_animation_ntv_blend_linear color_a color_b alpha) : Int)
      = remap alpha 0 255 (pixel_blue color_b) (pixel_blue color_a) := by
  have u8 : ∀ x : Nat, x < 256 → to_uint8 x = x := by
    intro x hx
    unfold to_uint8
    exact Nat.mod_eq_of_lt hx
  obtain ⟨ea, la⟩ := changeUIntScale_interp alpha 255 ((color_b >>> 24) &&& 0xFF)
    ((color_a >>> 24) &&& 0xFF) halpha (by norm_num) (byte_lt _) (byte_lt _)
  obtain ⟨er, lr⟩ := changeUIntScale_interp alpha 255 ((color_b >>> 16) &&& 0xFF)
    ((color_a >>> 16) &&& 0xFF) halpha (by norm_num) (byte_lt _) (byte_lt _)
  obtain ⟨eg, lg⟩ := changeUIntScale_interp alpha 255 ((color_b >>> 8) &&& 0xFF)
    ((color_a >>> 8) &&& 0xFF) halpha (by norm_num) (byte_lt _) (byte_lt _)
  obtain ⟨eb, lb⟩ := changeUIntScale_interp alpha 255 (color_b &&& 0xFF)
    (color_a &&& 0xFF) halpha (by norm_num) (byte_lt _) (byte_lt _)
  have hch := channels_of_pack _ _ _ _ la lr lg lb
  simp only [be_animation_ntv_blend_linear]
  rw [u8 _ la, u8 _ lr, u8 _ lg, u8 _ lb, hch.1, hch.2.1, hch.2.2.1, hch.2.2.2]
  exact ⟨ea, er, eg, eb⟩

/-- Between a 32-bit colour and itself `blend_linear` gives that colour, for
every weight. -/
theorem blend_linear_same (c alpha : Nat) (h32 : c < 4294967296) :
    be_animation_ntv_blend_linear c c alpha = c := by
  have ha := byte_lt (c >>> 24)
  have hr := byte_lt (c >>> 16)
  have hg := byte_lt (c >>> 8)
  have hb := byte_lt c
  have u8 : ∀ x : Nat, x < 256 → to_uint8 x = x := by
    intro x hx
    unfold to_uint8
    exact Nat.mod_eq_of_lt hx
  simp only [be_animation_ntv_blend_linear]
  rw [changeUIntScale_same _ _ _ (by omega), changeUIntScale_same _ _ _ (by omega),
    changeUIntScale_same _ _ _ (by omega), changeUIntScale_same _ _ _ (by omega),
    u8 _ ha, u8 _ hr, u8 _ hg, u8 _ hb]
  exact unpack_pack c h32

/-- A byte that is an interpolation inside the source range lies between the
two ends. -/
theorem between_of_remap (v alpha cb ca : Nat) (halpha : alpha ≤ 255)
    (h : ((v : Nat) : Int) = remap alpha 0 255 cb ca) :
    min cb ca ≤ v ∧ v ≤ max cb ca := by
  have hb := remap_interp_between alpha 255 cb ca halpha
  have h255 : ((255 : Nat) : Int) = 255 := rfl
  rw [h255, ← h] at hb
  exact ⟨by exact_mod_cast hb.1, by exact_mod_cast hb.2⟩

/-- C39: for every color_a, color_b and every weight alpha in [0,255], each of
the four channels of `blend_linear(color_a, color_b, alpha)` is
`remap(alpha,0,255,channel of color_b,channel of color_a)` unchanged by the
8-bit store, and lies between the channels of color_b and color_a inclusive;
and `blend_linear(c, c, alpha2) = c` for every 32-bit colour c and every
weight. -/
theorem C39_blend_linear_stays_between (color_a color_b c alpha alpha2 : Nat)
    (halpha : alpha ≤ 255) (h32 : c < 4294967296) :
    (∀ channel ∈ [pixel_alpha, pixel_red, pixel_green, pixel_blue],
      ((channel (be_animation_ntv_blend_linear color_a color_b alpha) : Nat) : Int)
        = remap alpha 0 255 (channel color_b) (channel color_a) ∧
      min (channel color_b) (channel color_a)
        ≤ channel (be_animation_ntv_blend_linear color_a color_b alpha) ∧
      channel (be_animation_ntv_blend_linear color_a color_b alpha)
        ≤ max (channel color_b) (channel color_a) ∧
      to_uint8 (changeUIntScale alpha 0 255 (channel color_b) (channel color_a))
        = changeUIntScale alpha 0 255 (channel color_b) (channel color_a)) ∧
    be_animation_ntv_blend_linear c c alpha2 = c := by
  refine ⟨?_, blend_linear_same c alpha2 h32⟩
  obtain ⟨ha, hr, hg, hb⟩ := blend_linear_channels color_a color_b alpha halpha
  have u8 : ∀ x y : Nat, x < 256 → y < 256 →
      to_uint8 (changeUIntScale alpha 0 255 x y) = changeUIntScale alpha 0 255 x y := by
    intro x y hx hy
    unfold to_uint8
    exact Nat.mod_eq_of_lt (changeUIntScale_interp alpha 255 x y halpha (by norm_num) hx hy).2
  intro channel hch
  simp only [List.mem_cons, List.mem_singleton, List.not_mem_nil, or_false] at hch
  rcases hch with rfl | rfl | rfl | rfl
  · exact ⟨ha, (between_of_remap _ alpha _ _ halpha ha).1,
      (between_of_remap _ alpha _ _ halpha ha).2, u8 _ _ (byte_lt _) (byte_lt _)⟩
  · exact ⟨hr, (between_of_remap _ alpha _ _ halpha hr).1,
      (between_of_remap _ alpha _ _ halpha hr).2, u8 _ _ (byte_lt _) (byte_lt _)⟩
  · exact ⟨hg, (between_of_remap _ alpha _ _ halpha hg).1,
      (between_of_remap _ alpha _ _ halpha hg).2, u8 _ _ (byte_lt _) (byte_lt _)⟩
  · exact ⟨hb, (between_of_remap _ alpha _ _ halpha hb).1,
      (between_of_remap _ alpha _ _ halpha hb).2, u8 _ _ (byte_lt _) (byte_lt _)⟩

theorem C39_blend_linear_stays_between_witness :
    (∀ channel ∈ [pixel_alpha, pixel_red, pixel_green, pixel_blue],
      ((channel (be_animation_ntv_blend_linear 0xFF102030 0x00C8FF00 128) : Nat) : Int)
        = remap ((128 : Nat) : Int) 0 255 (channel 0x00C8FF00) (channel 0xFF102030) ∧
      min (channel 0x00C8FF00) (channel 0xFF102030)
        ≤ channel (be_animation_ntv_blend_linear 0xFF102030 0x00C8FF00 128) ∧
      channel (be_animation_ntv_blend_linear 0xFF102030 0x00C8FF00 128)
        ≤ max (channel 0x00C8FF00) (channel 0xFF102030) ∧
      to_uint8 (changeUIntScale 128 0 255 (channel 0x00C8FF00) (channel 0xFF102030))
        = changeUIntScale 128 0 255 (channel 0x00C8FF00) (channel 0xFF102030)) ∧
    be_animation_ntv_blend_linear 0x80FF7F01 0x80FF7F01 77 = 0x80FF7F01 :=
  C39_blend_linear_stays_between 0xFF102030 0x00C8FF00 0x80FF7F01 128 77 (by decide)
    (by decide)

end FrameBufferNtv
